import Mathlib

/-!
# Playlist downloader: a shallow embedding of `main.go`

The program reads a Spotify playlist, searches one video per track and runs
an external downloader per video found. Go strings are byte sequences, so a
string is a list of byte values. Every call that leaves the process (network,
file system, console, child process) is answered by a `World`, and leaves an
`Event` in the trace of the run, so that "is never attempted" and "in this
order" are statements about the trace.
-/

namespace PlaylistDL

/-! ## Strings -/

/-- A Go string: its bytes, each below 256. -/
abbrev Bytes := List Nat

/-- The bytes of an ASCII literal. -/
def ascii (s : String) : Bytes := s.toList.map Char.toNat

/-! ## Errors, log records and results -/

deriving instance DecidableEq for Except

/-- A Go `error` value. Errors of external calls carry their text; the errors
of `net/url` are kept apart by cause. -/
inductive GoError where
  | text (msg : Bytes)
  | notExist (path : Bytes)
  | escape (s : Bytes)
  | invalidHost (s : Bytes)
  | controlCharacter
  | missingScheme
  | colonInFirstSegment
  | missingBracket
  | invalidPort (s : Bytes)
  | invalidUserinfo
  | noResults (query : Bytes)
  deriving DecidableEq, Repr

/-- An operand of a `log`/`fmt` format string. -/
inductive Arg where
  | err (e : GoError)
  | str (b : Bytes)
  deriving DecidableEq, Repr

/-- A formatted record: the format string as written in the source, and its
operands in order. -/
structure LogRecord where
  format : String
  args : List Arg
  deriving DecidableEq, Repr

/-- A `time.Time` value, given by its calendar reading in its own zone and the
offset of that zone east of UTC in seconds: two times are the same instant
at the same offset exactly when their readings agree. The reading of the
monotonic clock and the name of the zone, which no record carries, are left
out. -/
structure Time where
  year : Int
  month : Nat
  day : Nat
  hour : Nat
  minute : Nat
  second : Nat
  nanosecond : Nat
  offset : Int
  deriving DecidableEq, Repr

/-- The fields of `oauth2.Token` the credential consists of. -/
structure Token where
  AccessToken : Bytes
  TokenType : Bytes
  RefreshToken : Bytes
  Expiry : Time
  deriving DecidableEq, Repr

/-- The `TrackInfo` struct of the source. -/
structure TrackInfo where
  Name : Bytes
  Artist : Bytes
  deriving DecidableEq, Repr

/-- An artist of a track, as in `spotify.SimpleArtist`. -/
structure SimpleArtist where
  Name : Bytes
  deriving DecidableEq, Repr

/-- A track of a playlist entry, as in `spotify.FullTrack`. -/
structure FullTrack where
  Name : Bytes
  Artists : List SimpleArtist
  deriving DecidableEq, Repr

/-- A playlist entry, as in `spotify.PlaylistTrack`. -/
structure PlaylistTrack where
  Track : FullTrack
  deriving DecidableEq, Repr

/-- The OAuth client configuration `google.ConfigFromJSON` returns. -/
structure Config where
  ClientID : Bytes
  ClientSecret : Bytes
  RedirectURL : Bytes
  deriving DecidableEq, Repr

/-- What the process does that can be seen from outside, in order. -/
inductive Event where
  | dotenvLoad
  | getPlaylist (id : Bytes)
  | openFile (path : Bytes)
  | createFile (path : Bytes)
  | writeFile (path : Bytes) (data : Bytes)
  | stdout (r : LogRecord)
  | scanStdin
  | exchange (code : Bytes)
  | newClient (token : Option Token)
  | search (query : Bytes)
  | logPrintf (r : LogRecord)
  | exec (name : Bytes) (args : List Bytes)
  deriving DecidableEq, Repr

/-- The answers of everything outside the process. Calls that are repeated
(search, download) are answered per call number. -/
structure World where
  /-- The error of `godotenv.Load`, if any. -/
  dotenv : Option GoError
  /-- The environment after `godotenv.Load`: an unset variable reads empty. -/
  getenv : Bytes → Bytes
  /-- The answer of `client.GetPlaylist`: the entries of the playlist. -/
  getPlaylist : Bytes → Except GoError (List PlaylistTrack)
  /-- The library call `google.ConfigFromJSON`. -/
  configFromJSON : Bytes → Except GoError Config
  /-- The library call `config.AuthCodeURL("state-token", AccessTypeOffline)`. -/
  authCodeURL : Config → Bytes
  /-- The token `fmt.Scan` stores: the first whitespace-delimited word of
  standard input, or the read error. -/
  scan : Except GoError Bytes
  /-- The answer of the token endpoint to `config.Exchange`. -/
  exchange : Bytes → Except GoError Token
  /-- The error of `os.Create` on a path, if any. -/
  createErr : Bytes → Option GoError
  /-- The failure of a `Write` on a path, if any: how many bytes went
  through, and the error. -/
  writeErr : Bytes → Bytes → Option (Nat × GoError)
  /-- The library call `json.Marshal` on a token. -/
  marshal : Token → Except GoError Bytes
  /-- The library call `Decoder.Decode` into an empty token, on the bytes of
  the stream: the token as the decoder leaves it, and its error, if any. -/
  decode : Bytes → Token × Option GoError
  /-- The error of `youtube.NewService`, if any. -/
  newService : Option GoError
  /-- The answer to the search call number `i`: the video identifiers of
  the items returned. -/
  searchDo : Nat → Bytes → Except GoError (List Bytes)
  /-- The run number `i` of the downloader: its combined output and its
  error, if any. -/
  download : Nat → Bytes → Bytes × Option GoError

/-- The state of a run: the files, and the trace so far. -/
structure State where
  fs : Bytes → Option Bytes
  trace : List Event

/-- Append an event to the trace. -/
def State.emit (s : State) (e : Event) : State :=
  { s with trace := s.trace ++ [e] }

/-- How a piece of the program ends: it returns, `log.Fatal` ends the
process, or an index out of range panics. -/
inductive Result (α : Type) where
  | ret (a : α) (s : State)
  | fatal (r : LogRecord) (s : State)
  | panic (s : State)

/-- The state a result ends in. -/
def Result.state {α : Type} : Result α → State
  | .ret _ s => s
  | .fatal _ s => s
  | .panic s => s

/-- A piece of the program: a state transformer that may end the process. -/
abbrev Proc (α : Type) := State → Result α

/-- Sequencing: the rest runs only if the first part returns. -/
def Proc.bind {α β : Type} (p : Proc α) (f : α → Proc β) : Proc β :=
  fun s => match p s with
    | .ret a s1 => f a s1
    | .fatal r s1 => .fatal r s1
    | .panic s1 => .panic s1

instance : Monad Proc where
  pure a := fun s => .ret a s
  bind := Proc.bind

/-- Record an event. -/
def emit (e : Event) : Proc Unit := fun s => .ret () (s.emit e)

/-- The call `log.Fatalf`: the record is written and the process exits. -/
def logFatalf {α : Type} (format : String) (args : List Arg) : Proc α :=
  fun s => .fatal ⟨format, args⟩ s

/-- The call `log.Printf`. -/
def logPrintf (format : String) (args : List Arg) : Proc Unit :=
  emit (.logPrintf ⟨format, args⟩)

/-- The call `fmt.Printf` or `fmt.Println`. -/
def fmtPrintf (format : String) (args : List Arg) : Proc Unit :=
  emit (.stdout ⟨format, args⟩)

/-! ## `getSpotifyPlaylist` -/

/-- The loop of `getSpotifyPlaylist`: `Artists[0]` is out of range on an
empty artist list, which panics. -/
def collectTracks : List PlaylistTrack → List TrackInfo → Option (List TrackInfo)
  | [], tracks => some tracks
  | item :: rest, tracks =>
    let track := item.Track
    match track.Artists with
    | [] => none
    | a :: _ => collectTracks rest (tracks ++ [⟨track.Name, a.Name⟩])

/-- The function `getSpotifyPlaylist`. -/
def getSpotifyPlaylist (w : World) (playlistID : Bytes) :
    Proc (List TrackInfo × Option GoError) := fun s =>
  let s1 := s.emit (.getPlaylist playlistID)
  match w.getPlaylist playlistID with
  | .error err => .ret ([], some err) s1
  | .ok playlist =>
    match collectTracks playlist [] with
    | none => .panic s1
    | some tracks => .ret (tracks, none) s1

/-! ## The `strings` functions used by `net/url`

`getTokenFromWeb` calls `url.QueryUnescape`, `url.Parse`, `URL.Query` and
`Values.Get` of the Go standard library. They are embedded here from the
source of `net/url` (Go 1.21), with the helpers of `strings` they use. -/

/-- The call `strings.Cut(s, sep)` for a one-byte separator: the text before
the first separator, the text after it, and whether it was found. -/
def Cut (sep : Nat) : Bytes → Bytes × Bytes × Bool
  | [] => ([], [], false)
  | c :: rest =>
    if c = sep then ([], rest, true)
    else ((c :: (Cut sep rest).1), (Cut sep rest).2.1, (Cut sep rest).2.2)

/-- The call `strings.HasPrefix`. -/
def HasPrefix (s p : Bytes) : Bool := p.isPrefixOf s

/-- The call `strings.HasSuffix`. -/
def HasSuffix (s p : Bytes) : Bool := p.isSuffixOf s

/-- The call `strings.Contains` for a one-byte substring. -/
def Contains (s : Bytes) (b : Nat) : Bool := s.contains b

/-- The call `strings.Count` for a one-byte substring. -/
def Count (s : Bytes) (b : Nat) : Nat := s.count b

/-- The call `strings.Index`; `none` stands for -1. -/
def Index (sub : Bytes) : Bytes → Option Nat
  | [] => if sub = [] then some 0 else none
  | c :: rest =>
    if sub.isPrefixOf (c :: rest) then some 0
    else (Index sub rest).map (· + 1)

/-- The call `strings.LastIndex` for a one-byte substring; `none` stands
for -1. -/
def LastIndex (b : Nat) : Bytes → Option Nat
  | [] => none
  | c :: rest =>
    match LastIndex b rest with
    | some i => some (i + 1)
    | none => if c = b then some 0 else none

/-- The call `strings.ToLower` on ASCII text. -/
def ToLower (s : Bytes) : Bytes :=
  s.map (fun c => if 'A'.toNat ≤ c ∧ c ≤ 'Z'.toNat then c + 32 else c)

/-! ## `net/url`: unescaping -/

/-- The escaping modes of `net/url`. -/
inductive encoding where
  | encodePath
  | encodePathSegment
  | encodeHost
  | encodeZone
  | encodeUserPassword
  | encodeQueryComponent
  | encodeFragment
  deriving DecidableEq, Repr

open encoding

/-- The function `ishex`. -/
def ishex (c : Nat) : Bool :=
  ('0'.toNat ≤ c && c ≤ '9'.toNat) || ('a'.toNat ≤ c && c ≤ 'f'.toNat)
    || ('A'.toNat ≤ c && c ≤ 'F'.toNat)

/-- The function `unhex`. -/
def unhex (c : Nat) : Nat :=
  if '0'.toNat ≤ c ∧ c ≤ '9'.toNat then c - '0'.toNat
  else if 'a'.toNat ≤ c ∧ c ≤ 'f'.toNat then c - 'a'.toNat + 10
  else if 'A'.toNat ≤ c ∧ c ≤ 'F'.toNat then c - 'A'.toNat + 10
  else 0

/-- The function `shouldEscape`. -/
def shouldEscape (c : Nat) (mode : encoding) : Bool :=
  if ('a'.toNat ≤ c ∧ c ≤ 'z'.toNat) ∨ ('A'.toNat ≤ c ∧ c ≤ 'Z'.toNat)
      ∨ ('0'.toNat ≤ c ∧ c ≤ '9'.toNat) then false
  else if (mode = encodeHost ∨ mode = encodeZone) ∧
      c ∈ (ascii "!$&()*+,;=:[]<>" ++ [39, 34]) then false
  else if c ∈ ascii "-_.~" then false
  else if c ∈ ascii "$&+,/:;=?@" then
    match mode with
    | encodePath => c = '?'.toNat
    | encodePathSegment => c ∈ ascii "/;,?"
    | encodeUserPassword => c ∈ ascii "@/?:"
    | encodeQueryComponent => true
    | encodeFragment => false
    | _ => true
  else if mode = encodeFragment ∧ c ∈ ascii "!()*" then false
  else true

/-- The first loop of `unescape`: every `%` must be followed by two hex
digits, and a host admits only some bytes. -/
def unescapeCheck (mode : encoding) : Bytes → Option GoError
  | [] => none
  | c :: rest =>
    if c = '%'.toNat then
      match rest with
      | h1 :: h2 :: rest2 =>
        if !ishex h1 || !ishex h2 then some (.escape [c, h1, h2])
        else if mode = encodeHost ∧ unhex h1 < 8 ∧ [c, h1, h2] ≠ ascii "%25" then
          some (.escape [c, h1, h2])
        else if mode = encodeZone ∧ [c, h1, h2] ≠ ascii "%25"
            ∧ ((unhex h1 <<< 4) ||| unhex h2) % 256 ≠ ' '.toNat
            ∧ shouldEscape (((unhex h1 <<< 4) ||| unhex h2) % 256) encodeHost then
          some (.escape [c, h1, h2])
        else unescapeCheck mode rest2
      | _ => some (.escape (c :: rest))
    else if c = '+'.toNat then unescapeCheck mode rest
    else if (mode = encodeHost ∨ mode = encodeZone) ∧ c < 128
        ∧ shouldEscape c encodeHost then
      some (.invalidHost [c])
    else unescapeCheck mode rest

/-- The second loop of `unescape`, which runs on checked text only. -/
def unescapeBuild (mode : encoding) : Bytes → Bytes
  | [] => []
  | c :: rest =>
    if c = '%'.toNat then
      match rest with
      | h1 :: h2 :: rest2 =>
        (((unhex h1 <<< 4) ||| unhex h2) % 256) :: unescapeBuild mode rest2
      | _ => []
    else if c = '+'.toNat then
      (if mode = encodeQueryComponent then ' '.toNat else '+'.toNat)
        :: unescapeBuild mode rest
    else c :: unescapeBuild mode rest

/-- The function `unescape`. -/
def unescape (s : Bytes) (mode : encoding) : Except GoError Bytes :=
  match unescapeCheck mode s with
  | some err => .error err
  | none =>
    if Count s '%'.toNat = 0 ∧ ¬ (Contains s '+'.toNat ∧ mode = encodeQueryComponent) then
      .ok s
    else .ok (unescapeBuild mode s)

/-- The function `url.QueryUnescape`. -/
def QueryUnescape (s : Bytes) : Except GoError Bytes :=
  unescape s encodeQueryComponent

/-! ## `net/url`: parsing -/

/-- The fields of `url.URL` that parsing computes from the text. The user
information is checked but not kept, and the raw forms of path and fragment
are left out: the program reads `RawQuery` only. -/
structure URL where
  Scheme : Bytes
  Opaque : Bytes
  Host : Bytes
  Path : Bytes
  ForceQuery : Bool
  RawQuery : Bytes
  Fragment : Bytes
  deriving DecidableEq, Repr

/-- The function `stringContainsCTLByte`. -/
def stringContainsCTLByte (s : Bytes) : Bool :=
  s.any (fun b => b < ' '.toNat || b = 127)

/-- The loop of `getScheme` at index `i`, on the text from `i` on. -/
def getSchemeLoop (rawURL : Bytes) : Nat → Bytes → Except GoError (Bytes × Bytes)
  | _, [] => .ok ([], rawURL)
  | i, c :: rest =>
    if ('a'.toNat ≤ c ∧ c ≤ 'z'.toNat) ∨ ('A'.toNat ≤ c ∧ c ≤ 'Z'.toNat) then
      getSchemeLoop rawURL (i + 1) rest
    else if ('0'.toNat ≤ c ∧ c ≤ '9'.toNat) ∨ c = '+'.toNat ∨ c = '-'.toNat
        ∨ c = '.'.toNat then
      if i = 0 then .ok ([], rawURL) else getSchemeLoop rawURL (i + 1) rest
    else if c = ':'.toNat then
      if i = 0 then .error .missingScheme else .ok (rawURL.take i, rest)
    else .ok ([], rawURL)

/-- The function `getScheme`: the scheme and the text after its colon. -/
def getScheme (rawURL : Bytes) : Except GoError (Bytes × Bytes) :=
  getSchemeLoop rawURL 0 rawURL

/-- The function `validOptionalPort`. -/
def validOptionalPort (port : Bytes) : Bool :=
  match port with
  | [] => true
  | c :: rest =>
    if c ≠ ':'.toNat then false
    else rest.all (fun b => !(b < '0'.toNat || b > '9'.toNat))

/-- The function `validUserinfo`. -/
def validUserinfo (s : Bytes) : Bool :=
  s.all (fun r =>
    ('A'.toNat ≤ r && r ≤ 'Z'.toNat) || ('a'.toNat ≤ r && r ≤ 'z'.toNat)
      || ('0'.toNat ≤ r && r ≤ '9'.toNat)
      || (ascii "-._:~!$&()*+,;=%@" ++ [39]).contains r)

/-- The function `parseHost`. -/
def parseHost (host : Bytes) : Except GoError Bytes :=
  if HasPrefix host (ascii "[") then
    match LastIndex ']'.toNat host with
    | none => .error .missingBracket
    | some i =>
      let colonPort := host.drop (i + 1)
      if !validOptionalPort colonPort then .error (.invalidPort colonPort)
      else
        match Index (ascii "%25") (host.take i) with
        | some zone =>
          match unescape (host.take zone) encodeHost with
          | .error err => .error err
          | .ok host1 =>
            match unescape ((host.take i).drop zone) encodeZone with
            | .error err => .error err
            | .ok host2 =>
              match unescape (host.drop i) encodeHost with
              | .error err => .error err
              | .ok host3 => .ok (host1 ++ host2 ++ host3)
        | none => unescape host encodeHost
  else
    match LastIndex ':'.toNat host with
    | some i =>
      let colonPort := host.drop i
      if !validOptionalPort colonPort then .error (.invalidPort colonPort)
      else unescape host encodeHost
    | none => unescape host encodeHost

/-- The function `parseAuthority`: the host, once the user information has
been checked. -/
def parseAuthority (authority : Bytes) : Except GoError Bytes :=
  match LastIndex '@'.toNat authority with
  | none => parseHost authority
  | some i =>
    match parseHost (authority.drop (i + 1)) with
    | .error err => .error err
    | .ok host =>
      let userinfo := authority.take i
      if !validUserinfo userinfo then .error .invalidUserinfo
      else if !Contains userinfo ':'.toNat then
        match unescape userinfo encodeUserPassword with
        | .error err => .error err
        | .ok _ => .ok host
      else
        match unescape (Cut ':'.toNat userinfo).1 encodeUserPassword with
        | .error err => .error err
        | .ok _ =>
          match unescape (Cut ':'.toNat userinfo).2.1 encodeUserPassword with
          | .error err => .error err
          | .ok _ => .ok host

/-- The function `parse` with `viaRequest` false. -/
def parse (rawURL : Bytes) : Except GoError URL :=
  if stringContainsCTLByte rawURL then .error .controlCharacter
  else if rawURL = ascii "*" then .ok ⟨[], [], [], ascii "*", false, [], []⟩
  else
    match getScheme rawURL with
    | .error err => .error err
    | .ok (scheme0, rest0) =>
      let scheme := ToLower scheme0
      let forceQuery := HasSuffix rest0 (ascii "?") && Count rest0 '?'.toNat == 1
      let rest1 := if forceQuery then rest0.dropLast else (Cut '?'.toNat rest0).1
      let rawQuery := if forceQuery then [] else (Cut '?'.toNat rest0).2.1
      if !HasPrefix rest1 (ascii "/") && scheme ≠ [] then
        .ok ⟨scheme, rest1, [], [], forceQuery, rawQuery, []⟩
      else if !HasPrefix rest1 (ascii "/")
          && Contains (Cut '/'.toNat rest1).1 ':'.toNat then
        .error .colonInFirstSegment
      else if (scheme ≠ [] || !HasPrefix rest1 (ascii "///"))
          && HasPrefix rest1 (ascii "//") then
        let authority0 := rest1.drop 2
        let authority := match Index (ascii "/") authority0 with
          | some i => authority0.take i
          | none => authority0
        let rest2 := match Index (ascii "/") authority0 with
          | some i => authority0.drop i
          | none => []
        match parseAuthority authority with
        | .error err => .error err
        | .ok host =>
          match unescape rest2 encodePath with
          | .error err => .error err
          | .ok path => .ok ⟨scheme, [], host, path, forceQuery, rawQuery, []⟩
      else
        match unescape rest1 encodePath with
        | .error err => .error err
        | .ok path => .ok ⟨scheme, [], [], path, forceQuery, rawQuery, []⟩

/-- The function `url.Parse`: the fragment is cut off first. -/
def Parse (rawURL : Bytes) : Except GoError URL :=
  match parse (Cut '#'.toNat rawURL).1 with
  | .error err => .error err
  | .ok url =>
    if (Cut '#'.toNat rawURL).2.1 = [] then .ok url
    else
      match unescape (Cut '#'.toNat rawURL).2.1 encodeFragment with
      | .error err => .error err
      | .ok frag => .ok { url with Fragment := frag }

/-- The type `url.Values`, a map from a key to its values: a key that is
absent reads as the empty list. -/
abbrev Values := Bytes → List Bytes

/-- The assignment `m[key] = append(m[key], value)`. -/
def Values.add (m : Values) (key value : Bytes) : Values :=
  fun k => if k = key then m key ++ [value] else m k

/-- The method `Values.Get`. -/
def Values.Get (v : Values) (key : Bytes) : Bytes :=
  match v key with
  | [] => []
  | x :: _ => x

/-- The loop of `parseQuery`, run at most `fuel` times. -/
def parseQueryLoop : Nat → Values → Option GoError → Bytes → Values × Option GoError
  | 0, m, err, _ => (m, err)
  | fuel + 1, m, err, query =>
    if query = [] then (m, err)
    else
      let key0 := (Cut '&'.toNat query).1
      let query1 := (Cut '&'.toNat query).2.1
      if Contains key0 ';'.toNat then
        parseQueryLoop fuel m (some (.text (ascii "invalid semicolon separator in query"))) query1
      else if key0 = [] then parseQueryLoop fuel m err query1
      else
        match QueryUnescape (Cut '='.toNat key0).1 with
        | .error err1 =>
          parseQueryLoop fuel m (if err = none then some err1 else err) query1
        | .ok key =>
          match QueryUnescape (Cut '='.toNat key0).2.1 with
          | .error err1 =>
            parseQueryLoop fuel m (if err = none then some err1 else err) query1
          | .ok value => parseQueryLoop fuel (m.add key value) err query1

/-- The function `url.ParseQuery`: every turn of the loop takes at least one
byte off the query, so its length is fuel enough. -/
def ParseQuery (query : Bytes) : Values × Option GoError :=
  parseQueryLoop query.length (fun _ => []) none query

/-- The method `URL.Query`, which drops the error of `ParseQuery`. -/
def URL.Query (u : URL) : Values := (ParseQuery u.RawQuery).1

/-! ## The credential store -/

/-- Replace the contents of one file. -/
def setFile (fs : Bytes → Option Bytes) (path : Bytes) (data : Bytes) :
    Bytes → Option Bytes :=
  fun p => if p = path then some data else fs p

/-- The function `tokenFromFile`. The file system keeps what was written:
`os.Open` fails on a file that does not exist, and the decoder reads the
contents of a file that does. A nil token is `none`. -/
def tokenFromFile (w : World) (file : Bytes) : Proc (Option Token × Option GoError) :=
  fun s =>
    let s1 := s.emit (.openFile file)
    match s1.fs file with
    | none => .ret (none, some (.notExist file)) s1
    | some data => .ret (some (w.decode data).1, (w.decode data).2) s1

/-- The call `json.NewEncoder(f).Encode(token)` on the file just created:
the record and a newline go out in one `Write`, nothing is written when
marshalling fails, and a failed `Write` leaves the bytes that went through.
Its error is returned. -/
def encodeTo (w : World) (path : Bytes) (token : Token) : Proc (Option GoError) :=
  fun s =>
    match w.marshal token with
    | .error err => .ret (some err) s
    | .ok b =>
      let data := b ++ [10]
      let s1 := s.emit (.writeFile path data)
      match w.writeErr path data with
      | none => .ret none { s1 with fs := setFile s1.fs path data }
      | some (n, err) => .ret (some err) { s1 with fs := setFile s1.fs path (data.take n) }

/-- The call `os.Create`: on success the file exists and is empty. -/
def osCreate (w : World) (path : Bytes) : Proc (Option GoError) :=
  fun s =>
    let s1 := s.emit (.createFile path)
    match w.createErr path with
    | some err => .ret (some err) s1
    | none => .ret none { s1 with fs := setFile s1.fs path [] }

/-- The function `saveToken`: the error of `Encode` is not looked at. -/
def saveToken (w : World) (path : Bytes) (token : Token) : Proc Unit := do
  fmtPrintf "Saving credential file to: %s\n" [.str path]
  let err ← osCreate w path
  if let some e := err then
    logFatalf "Unable to create token file: %v" [.err e]
  let _ ← encodeTo w path token
  pure ()

/-! ## The interactive exchange -/

/-- The prompt of `getTokenFromWeb`. -/
def promptEvent (w : World) (config : Config) : Event :=
  .stdout ⟨"Go to the following link in your browser then type the authorization code: \n%v\n",
    [.str (w.authCodeURL config)]⟩

/-- The function `getTokenFromWeb`. -/
def getTokenFromWeb (w : World) (config : Config) : Proc Token := do
  let authURL := w.authCodeURL config
  fmtPrintf
    "Go to the following link in your browser then type the authorization code: \n%v\n"
    [.str authURL]
  emit .scanStdin
  let authCode ← match w.scan with
    | .error err => logFatalf "Unable to read authorization code: %v" [.err err]
    | .ok authCode => pure authCode
  let decodedURL ← match QueryUnescape authCode with
    | .error err => logFatalf "Unable to decode authorization code: %v" [.err err]
    | .ok decodedURL => pure decodedURL
  fmtPrintf "Decoded URL: %s\n" [.str decodedURL]
  let parsedURL ← match Parse decodedURL with
    | .error err => logFatalf "Unable to parse URL: %v" [.err err]
    | .ok parsedURL => pure parsedURL
  let code := parsedURL.Query.Get (ascii "code")
  if code = [] then
    logFatalf "Authorization code not found in URL" []
  emit (.exchange code)
  match w.exchange code with
  | .error err => logFatalf "Unable to retrieve token from web: %v" [.err err]
  | .ok tok => pure tok

/-! ## Search and download -/

/-- The values `searchYouTubeVideo` returns as call number `i`: the
identifier of the first item, or the error of the call, or the error that no
item was found. -/
def searchYouTubeVideoValue (w : World) (i : Nat) (query : Bytes) :
    Bytes × Option GoError :=
  match w.searchDo i query with
  | .error err => ([], some err)
  | .ok items =>
    match items with
    | [] => ([], some (.noResults query))
    | id :: _ => (id, none)

/-- The function `searchYouTubeVideo`, as call number `i`: one search call,
and the values computed from its answer. -/
def searchYouTubeVideo (w : World) (i : Nat) (query : Bytes) :
    Proc (Bytes × Option GoError) := fun s =>
  .ret (searchYouTubeVideoValue w i query) (s.emit (.search query))

/-- The query of a track: `fmt.Sprintf("%s %s", track.Name, track.Artist)`. -/
def queryOf (track : TrackInfo) : Bytes :=
  track.Name ++ ascii " " ++ track.Artist

/-- The search loop of `main`, from track number `i` on. -/
def searchLoop (w : World) : Nat → List TrackInfo → List Bytes → Proc (List Bytes)
  | _, [], videoIds => pure videoIds
  | i, track :: rest, videoIds => do
    let query := queryOf track
    let (videoID, err) ← searchYouTubeVideo w i query
    match err with
    | some e => do
      logPrintf "Error searching YouTube for %s by %s: %v"
        [.str track.Name, .str track.Artist, .err e]
      searchLoop w (i + 1) rest videoIds
    | none => searchLoop w (i + 1) rest (videoIds ++ [videoID])

/-- The address handed to the downloader:
`fmt.Sprintf("https://www.youtube.com/watch?v=%s", videoID)`. -/
def videoURLOf (videoID : Bytes) : Bytes :=
  ascii "https://www.youtube.com/watch?v=" ++ videoID

/-- The download loop of `main`, from identifier number `i` on. -/
def downloadLoop (w : World) : Nat → List Bytes → Proc Unit
  | _, [] => pure ()
  | i, videoID :: rest => do
    let videoURL := videoURLOf videoID
    emit (.exec (ascii "youtube-dl") [videoURL])
    if let some e := (w.download i videoURL).2 then
      logFatalf "Failed to download video: %v\n%s" [.err e, .str (w.download i videoURL).1]
    downloadLoop w (i + 1) rest

/-- The last part of `main`: the download loop, and the closing message
once the loop has returned. -/
def downloadAll (w : World) (videoIds : List Bytes) : Proc Unit := do
  downloadLoop w 0 videoIds
  fmtPrintf "YouTube playlist created successfully!\n" []

/-- The queries of the search calls of a trace, in order. -/
def searchQueries (trace : List Event) : List Bytes :=
  trace.filterMap (fun e => match e with
    | .search q => some q
    | _ => none)

/-- The identifier that the search for track `p.2`, as call number `p.1`,
adds to the download set, if any. -/
def foundId (w : World) (p : Nat × TrackInfo) : Option Bytes :=
  match (searchYouTubeVideoValue w p.1 (p.2.Name ++ [32] ++ p.2.Artist)).2 with
  | none => some (searchYouTubeVideoValue w p.1 (p.2.Name ++ [32] ++ p.2.Artist)).1
  | some _ => none

/-! ## `main` -/

/-- The path of the credential file. -/
def tokenFile : Bytes := ascii "token.json"

/-- The credential bootstrap of `main`: the cached token, or else the
interactive exchange followed by saving its token. -/
def bootstrap (w : World) (ytConfig : Config) : Proc (Option Token) := do
  let (token, err) ← tokenFromFile w tokenFile
  if err ≠ none then
    let token ← getTokenFromWeb w ytConfig
    saveToken w tokenFile token
    pure (some token)
  else pure token

/-- The function `main`. -/
def main (w : World) : Proc Unit := do
  emit .dotenvLoad
  if w.dotenv ≠ none then
    logFatalf "Error loading .env file" []
  let spotifyClientID := w.getenv (ascii "SPOTIFY_CLIENT_ID")
  let spotifyClientSecret := w.getenv (ascii "SPOTIFY_CLIENT_SECRET")
  if spotifyClientID = [] ∨ spotifyClientSecret = [] then
    logFatalf "Missing SPOTIFY_CLIENT_ID or SPOTIFY_CLIENT_SECRET environment variable" []
  let playlistID := ascii "2nSHh0BiEoRjfOAF5HXLu9"
  let (tracks, err) ← getSpotifyPlaylist w playlistID
  if let some e := err then
    logFatalf "Error retrieving Spotify playlist: %v" [.err e]
  let ytCredentialsJSON := w.getenv (ascii "YOUTUBE_CREDENTIALS_JSON")
  if ytCredentialsJSON.length = 0 then
    logFatalf "Missing YOUTUBE_CREDENTIALS_JSON environment variable" []
  let ytConfig ← match w.configFromJSON ytCredentialsJSON with
    | .error e => logFatalf "Error loading YouTube credentials: %v" [.err e]
    | .ok ytConfig => pure ytConfig
  let token ← bootstrap w ytConfig
  emit (.newClient token)
  if let some e := w.newService then
    logFatalf "Error creating YouTube service: %v" [.err e]
  let videoIds ← searchLoop w 0 tracks []
  downloadAll w videoIds

/-- The bytes a code is made of in the extraction property: ASCII letters
and digits, `-`, `_`, `.`, `~`, and the bytes from 128 on, of which the UTF-8
form of every letter or digit outside ASCII is made. -/
def unreservedByte (b : Nat) : Prop :=
  ('a'.toNat ≤ b ∧ b ≤ 'z'.toNat) ∨ ('A'.toNat ≤ b ∧ b ≤ 'Z'.toNat)
    ∨ ('0'.toNat ≤ b ∧ b ≤ '9'.toNat)
    ∨ b = '-'.toNat ∨ b = '_'.toNat ∨ b = '.'.toNat ∨ b = '~'.toNat
    ∨ 128 ≤ b

instance (b : Nat) : Decidable (unreservedByte b) := by
  unfold unreservedByte
  infer_instance

/-! ## `unicode/utf8` and `unicode/utf16`

`saveToken` writes the credential with `json.NewEncoder(f).Encode(token)` and
`tokenFromFile` reads it with `json.NewDecoder(f).Decode(tok)`. What these
calls run on an `oauth2.Token` is embedded in this section and the next three
from the source of the Go standard library (Go 1.21) and the field tags of
`oauth2.Token`: `unicode/utf8`, the strings of `encoding/json`, the RFC 3339
text of `time`, and the record of the token.

Masks and shifts are written as remainders, quotients and products. -/

/-- The rune `utf8.RuneError`, U+FFFD. -/
def RuneError : Nat := 0xFFFD

/-- The table `first` of `unicode/utf8` at the lead byte of a sequence of
several bytes: the size of the sequence and the range of its second byte.
`none` stands for the ASCII and the invalid lead bytes. -/
def firstEntry (p0 : Nat) : Option (Nat × Nat × Nat) :=
  if 0xC2 ≤ p0 ∧ p0 ≤ 0xDF then some (2, 0x80, 0xBF)
  else if p0 = 0xE0 then some (3, 0xA0, 0xBF)
  else if (0xE1 ≤ p0 ∧ p0 ≤ 0xEC) ∨ p0 = 0xEE ∨ p0 = 0xEF then some (3, 0x80, 0xBF)
  else if p0 = 0xED then some (3, 0x80, 0x9F)
  else if p0 = 0xF0 then some (4, 0x90, 0xBF)
  else if 0xF1 ≤ p0 ∧ p0 ≤ 0xF3 then some (4, 0x80, 0xBF)
  else if p0 = 0xF4 then some (4, 0x80, 0x8F)
  else none

/-- The function `utf8.DecodeRune`: the first rune of the text and its size
in bytes; `(RuneError, 1)` on an invalid sequence. -/
def DecodeRune (p : Bytes) : Nat × Nat :=
  match p with
  | [] => (RuneError, 0)
  | p0 :: rest =>
    if p0 < 0x80 then (p0, 1)
    else
      match firstEntry p0 with
      | none => (RuneError, 1)
      | some (sz, lo, hi) =>
        if p.length < sz then (RuneError, 1)
        else
          match rest with
          | [] => (RuneError, 1)
          | b1 :: rest1 =>
            if b1 < lo ∨ hi < b1 then (RuneError, 1)
            else if sz ≤ 2 then ((p0 % 32) * 64 + b1 % 64, 2)
            else
              match rest1 with
              | [] => (RuneError, 1)
              | b2 :: rest2 =>
                if b2 < 0x80 ∨ 0xBF < b2 then (RuneError, 1)
                else if sz ≤ 3 then ((p0 % 16) * 4096 + (b1 % 64) * 64 + b2 % 64, 3)
                else
                  match rest2 with
                  | [] => (RuneError, 1)
                  | b3 :: _ =>
                    if b3 < 0x80 ∨ 0xBF < b3 then (RuneError, 1)
                    else
                      ((p0 % 8) * 262144 + (b1 % 64) * 4096 + (b2 % 64) * 64 + b3 % 64, 4)

/-- The function `utf8.EncodeRune`: a surrogate or a value above U+10FFFF
is written as U+FFFD. -/
def EncodeRune (r : Nat) : Bytes :=
  if r ≤ 0x7F then [r]
  else if r ≤ 0x7FF then [0xC0 + r / 64, 0x80 + r % 64]
  else if r > 0x10FFFF ∨ (0xD800 ≤ r ∧ r ≤ 0xDFFF) then [0xEF, 0xBF, 0xBD]
  else if r ≤ 0xFFFF then [0xE0 + r / 4096, 0x80 + r / 64 % 64, 0x80 + r % 64]
  else [0xF0 + r / 262144, 0x80 + r / 4096 % 64, 0x80 + r / 64 % 64, 0x80 + r % 64]

/-- The loop of `utf8.Valid`, run at most `fuel` times. -/
def validLoop : Nat → Bytes → Bool
  | 0, p => p.isEmpty
  | _ + 1, [] => true
  | fuel + 1, b :: rest =>
    if (DecodeRune (b :: rest)).1 = RuneError ∧ (DecodeRune (b :: rest)).2 = 1 then false
    else validLoop fuel ((b :: rest).drop (DecodeRune (b :: rest)).2)

/-- The function `utf8.Valid`: every turn takes at least one byte, so the
length of the text is fuel enough. -/
def utf8Valid (p : Bytes) : Bool := validLoop p.length p

/-- The function `utf16.DecodeRune` on the values of two `\u` escapes, the
second `none` when there is no such escape. -/
def utf16DecodeRune (r1 : Nat) (r2 : Option Nat) : Nat :=
  match r2 with
  | some r2 =>
    if 0xD800 ≤ r1 ∧ r1 < 0xDC00 ∧ 0xDC00 ≤ r2 ∧ r2 < 0xE000 then
      (r1 - 0xD800) * 1024 + (r2 - 0xDC00) + 0x10000
    else RuneError
  | none => RuneError

/-! ## `encoding/json`: strings -/

/-- The digit `hex[n]` of `encoding/json`. -/
def hexDigit (n : Nat) : Nat := (ascii "0123456789abcdef").getD n 0

/-- The table `htmlSafeSet`: the ASCII bytes written as they are. -/
def htmlSafe (b : Nat) : Bool :=
  0x20 ≤ b && b < 0x80 && b != 34 && b != 92 && b != '<'.toNat && b != '>'.toNat
    && b != '&'.toNat

/-- The loop of `appendString` with HTML escaping, as the `Encoder` runs it,
at most `fuel` times. -/
def appendStringLoop : Nat → Bytes → Bytes
  | 0, _ => []
  | _ + 1, [] => []
  | fuel + 1, b :: rest =>
    if b < 0x80 then
      if htmlSafe b then b :: appendStringLoop fuel rest
      else if b = 92 ∨ b = 34 then 92 :: b :: appendStringLoop fuel rest
      else if b = 10 then 92 :: 'n'.toNat :: appendStringLoop fuel rest
      else if b = 13 then 92 :: 'r'.toNat :: appendStringLoop fuel rest
      else if b = 9 then 92 :: 't'.toNat :: appendStringLoop fuel rest
      else
        92 :: 'u'.toNat :: 48 :: 48 :: hexDigit (b / 16) :: hexDigit (b % 16)
          :: appendStringLoop fuel rest
    else if (DecodeRune (b :: rest)).1 = RuneError ∧ (DecodeRune (b :: rest)).2 = 1 then
      92 :: 'u'.toNat :: 'f'.toNat :: 'f'.toNat :: 'f'.toNat :: 'd'.toNat
        :: appendStringLoop fuel rest
    else if (DecodeRune (b :: rest)).1 = 0x2028 ∨ (DecodeRune (b :: rest)).1 = 0x2029 then
      92 :: 'u'.toNat :: 50 :: 48 :: 50 :: hexDigit ((DecodeRune (b :: rest)).1 % 16)
        :: appendStringLoop fuel ((b :: rest).drop (DecodeRune (b :: rest)).2)
    else
      (b :: rest).take (DecodeRune (b :: rest)).2
        ++ appendStringLoop fuel ((b :: rest).drop (DecodeRune (b :: rest)).2)

/-- The function `appendString`: the JSON string that stands for a Go
string. -/
def appendString (src : Bytes) : Bytes :=
  34 :: (appendStringLoop src.length src ++ [34])

/-- The value of a hexadecimal digit, as `getu4` reads it. -/
def hexValue (c : Nat) : Option Nat :=
  if '0'.toNat ≤ c ∧ c ≤ '9'.toNat then some (c - '0'.toNat)
  else if 'a'.toNat ≤ c ∧ c ≤ 'f'.toNat then some (c - 'a'.toNat + 10)
  else if 'A'.toNat ≤ c ∧ c ≤ 'F'.toNat then some (c - 'A'.toNat + 10)
  else none

/-- The function `getu4`: the value of the escape `\uXXXX` the text starts
with; `none` stands for -1. -/
def getu4 (s : Bytes) : Option Nat :=
  match s with
  | 92 :: 117 :: h1 :: h2 :: h3 :: h4 :: _ =>
    match hexValue h1, hexValue h2, hexValue h3, hexValue h4 with
    | some v1, some v2, some v3, some v4 => some (((v1 * 16 + v2) * 16 + v3) * 16 + v4)
    | _, _, _, _ => none
  | _ => none

/-- The scanner of `encoding/json` inside a string literal: the text of the
literal up to its closing quote, and what follows the quote. An escape must be
one of `\" \\ \/ \b \f \n \r \t \uXXXX`, and a control byte is refused. -/
def scanString : Bytes → Option (Bytes × Bytes)
  | [] => none
  | b :: rest =>
    if b = 34 then some ([], rest)
    else if b = 92 then
      match rest with
      | [] => none
      | e :: rest1 =>
        if e = 'u'.toNat then
          match rest1 with
          | h1 :: h2 :: h3 :: h4 :: rest2 =>
            if (hexValue h1).isSome ∧ (hexValue h2).isSome ∧ (hexValue h3).isSome
                ∧ (hexValue h4).isSome then
              (scanString rest2).map (fun r => (b :: e :: h1 :: h2 :: h3 :: h4 :: r.1, r.2))
            else none
          | _ => none
        else if e ∈ 34 :: 92 :: ascii "/bfnrt" then
          (scanString rest1).map (fun r => (b :: e :: r.1, r.2))
        else none
    else if b < 0x20 then none
    else (scanString rest).map (fun r => (b :: r.1, r.2))

/-- The first loop of `unquoteBytes`: the length of the part of the text that
needs no unquoting, run at most `fuel` times. -/
def cleanLen : Nat → Bytes → Nat
  | 0, _ => 0
  | _ + 1, [] => 0
  | fuel + 1, c :: rest =>
    if c = 92 ∨ c = 34 ∨ c < 0x20 then 0
    else if c < 0x80 then 1 + cleanLen fuel rest
    else if (DecodeRune (c :: rest)).1 = RuneError ∧ (DecodeRune (c :: rest)).2 = 1 then 0
    else (DecodeRune (c :: rest)).2 + cleanLen fuel ((c :: rest).drop (DecodeRune (c :: rest)).2)

/-- The second loop of `unquoteBytes`, run at most `fuel` times: escapes are
replaced, and bytes that are not UTF-8 become U+FFFD. -/
def unquoteLoop : Nat → Bytes → Option Bytes
  | 0, s => if s = [] then some [] else none
  | _ + 1, [] => some []
  | fuel + 1, c :: rest =>
    if c = 92 then
      match rest with
      | [] => none
      | e :: rest1 =>
        if e = 34 ∨ e = 92 ∨ e = 47 ∨ e = 39 then (unquoteLoop fuel rest1).map (e :: ·)
        else if e = 'b'.toNat then (unquoteLoop fuel rest1).map (8 :: ·)
        else if e = 'f'.toNat then (unquoteLoop fuel rest1).map (12 :: ·)
        else if e = 'n'.toNat then (unquoteLoop fuel rest1).map (10 :: ·)
        else if e = 'r'.toNat then (unquoteLoop fuel rest1).map (13 :: ·)
        else if e = 't'.toNat then (unquoteLoop fuel rest1).map (9 :: ·)
        else if e = 'u'.toNat then
          match getu4 (c :: rest) with
          | none => none
          | some rr =>
            if 0xD800 ≤ rr ∧ rr < 0xE000 then
              if utf16DecodeRune rr (getu4 (rest1.drop 4)) ≠ RuneError then
                (unquoteLoop fuel (rest1.drop 10)).map
                  (EncodeRune (utf16DecodeRune rr (getu4 (rest1.drop 4))) ++ ·)
              else (unquoteLoop fuel (rest1.drop 4)).map (EncodeRune RuneError ++ ·)
            else (unquoteLoop fuel (rest1.drop 4)).map (EncodeRune rr ++ ·)
        else none
    else if c = 34 ∨ c < 0x20 then none
    else if c < 0x80 then (unquoteLoop fuel rest).map (c :: ·)
    else
      (unquoteLoop fuel ((c :: rest).drop (DecodeRune (c :: rest)).2)).map
        (EncodeRune (DecodeRune (c :: rest)).1 ++ ·)

/-- The two loops of `unquoteBytes` put together, with the fuel of each. -/
def unquoteWith (k m : Nat) (s : Bytes) : Option Bytes :=
  if cleanLen k s = s.length then some s
  else (unquoteLoop m (s.drop (cleanLen k s))).map (s.take (cleanLen k s) ++ ·)

/-- The function `unquoteBytes` on the text between the quotes of a string
literal: every turn of its loops takes at least one byte, so the length of the
text is fuel enough. -/
def unquoteBytes (s : Bytes) : Option Bytes :=
  unquoteWith s.length s.length s

/-! ## `time`: RFC 3339 -/

/-- The decimal digits of `x`, the last `width` of them. -/
def fixedDigits : Nat → Nat → Bytes
  | 0, _ => []
  | width + 1, x => fixedDigits width (x / 10) ++ [48 + x % 10]

/-- The function `appendInt` of `time`: the decimal form of `x`, filled with
zeros up to `width` digits, after a minus sign when `x` is negative. -/
def appendInt (x : Int) (width : Nat) : Bytes :=
  (if x < 0 then [45] else [])
    ++ (if x.natAbs < 10 ^ width then fixedDigits width x.natAbs
        else (Nat.toDigits 10 x.natAbs).map Char.toNat)

/-- The text without its trailing zeros. -/
def trimZeros (b : Bytes) : Bytes :=
  (b.reverse.dropWhile (· == 48)).reverse

/-- The function `appendNano` for the layout `.999999999`: nothing for a
whole second, else the point and the nine digits without trailing zeros. -/
def appendNano (nanosec : Nat) : Bytes :=
  if nanosec = 0 then []
  else
    if (trimZeros (46 :: appendInt nanosec 9)).getLast? = some 46 then
      (trimZeros (46 :: appendInt nanosec 9)).dropLast
    else trimZeros (46 :: appendInt nanosec 9)

/-- The zone of `appendFormatRFC3339`: `Z` for UTC, else the sign, the hours
and the minutes of the offset, which is cut to whole minutes. -/
def appendZone (offset : Int) : Bytes :=
  if offset = 0 then [90]
  else
    (if offset < 0 ∧ offset.natAbs / 60 ≠ 0 then [45] else [43])
      ++ appendInt ((offset.natAbs / 60 / 60 : Nat) : Int) 2 ++ [58]
      ++ appendInt ((offset.natAbs / 60 % 60 : Nat) : Int) 2

/-- The method `Time.appendFormatRFC3339` with nanoseconds. -/
def appendFormatRFC3339 (t : Time) : Bytes :=
  appendInt t.year 4 ++ [45] ++ appendInt t.month 2 ++ [45] ++ appendInt t.day 2 ++ [84]
    ++ appendInt t.hour 2 ++ [58] ++ appendInt t.minute 2 ++ [58] ++ appendInt t.second 2
    ++ appendNano t.nanosecond ++ appendZone t.offset

/-- The helper `num2` of `appendStrictRFC3339`, in byte arithmetic. -/
def num2 (b : Bytes) : Nat :=
  (10 * ((b.getD 0 0 + 208) % 256) + (b.getD 1 0 + 208) % 256) % 256

/-- The method `Time.MarshalJSON`: the time between quotes, or an error when
the year does not take four digits or the hours of the zone exceed 23. -/
def timeMarshalJSON (t : Time) : Except GoError Bytes :=
  if (appendFormatRFC3339 t).getD 4 0 ≠ 45 then
    .error (.text (ascii "Time.MarshalJSON: year outside of range [0,9999]"))
  else if (appendFormatRFC3339 t).getLast? ≠ some 90
      ∧ (('0'.toNat ≤ ((appendFormatRFC3339 t).reverse.getD 5 0)
          ∧ ((appendFormatRFC3339 t).reverse.getD 5 0) ≤ '9'.toNat)
        ∨ 24 ≤ num2 ((appendFormatRFC3339 t).drop ((appendFormatRFC3339 t).length - 5))) then
    .error (.text (ascii "Time.MarshalJSON: timezone hour outside of range [0,23]"))
  else .ok (34 :: (appendFormatRFC3339 t ++ [34]))

/-- The function `isLeap`. -/
def isLeap (year : Nat) : Bool :=
  year % 4 = 0 && (year % 100 ≠ 0 || year % 400 = 0)

/-- The function `daysIn`. -/
def daysIn (month year : Nat) : Nat :=
  if month = 2 ∧ isLeap year then 29
  else [31, 28, 31, 30, 31, 30, 31, 31, 30, 31, 30, 31].getD (month - 1) 0

/-- The helper `parseUint` of `parseRFC3339`: the value of a run of digits
when it lies between `min` and `max`. -/
def parseUint (s : Bytes) (min max : Nat) : Option Nat :=
  if s.all (fun c => '0'.toNat ≤ c && c ≤ '9'.toNat) then
    if s.foldl (fun x c => x * 10 + (c - 48)) 0 < min
        ∨ max < s.foldl (fun x c => x * 10 + (c - 48)) 0 then none
    else some (s.foldl (fun x c => x * 10 + (c - 48)) 0)
  else none

/-- The fractional second of `parseRFC3339`: the digits after the point, of
which `parseNanoseconds` reads nine at most. -/
def fractionDigits (s : Bytes) : Bytes :=
  match s with
  | 46 :: d :: rest =>
    if '0'.toNat ≤ d ∧ d ≤ '9'.toNat then
      d :: rest.takeWhile (fun c => '0'.toNat ≤ c && c ≤ '9'.toNat)
    else []
  | _ => []

/-- The value in nanoseconds of the digits of a fractional second. -/
def nanosecondsOf (digits : Bytes) : Nat :=
  (digits.take 9).foldl (fun x c => x * 10 + (c - 48)) 0 * 10 ^ (9 - (digits.take 9).length)

/-- The zone of `parseRFC3339`: its offset in seconds. -/
def parseZone (s : Bytes) : Option Int :=
  if s = [90] then some 0
  else
    match s with
    | [sign, h1, h2, colon, m1, m2] =>
      match parseUint [h1, h2] 0 23, parseUint [m1, m2] 0 59 with
      | some hr, some mm =>
        if (sign = 45 ∨ sign = 43) ∧ colon = 58 then
          some (if sign = 45 then -(((hr * 60 + mm) * 60 : Nat) : Int)
            else (((hr * 60 + mm) * 60 : Nat) : Int))
        else none
      | _, _ => none
    | _ => none

/-- The function `parseRFC3339`, the parser `Time.UnmarshalJSON` tries first:
the time a text in the strict form of RFC 3339 stands for, `none` when the text
is not of that form. -/
def parseRFC3339 (s : Bytes) : Option Time :=
  if s.length < 19 then none
  else
    match parseUint (s.take 4) 0 9999, parseUint ((s.drop 5).take 2) 1 12 with
    | some year, some month =>
      match parseUint ((s.drop 8).take 2) 1 (daysIn month year),
        parseUint ((s.drop 11).take 2) 0 23, parseUint ((s.drop 14).take 2) 0 59,
        parseUint ((s.drop 17).take 2) 0 59 with
      | some day, some hour, some min, some sec =>
        if s.getD 4 0 = 45 ∧ s.getD 7 0 = 45 ∧ s.getD 10 0 = 84 ∧ s.getD 13 0 = 58
            ∧ s.getD 16 0 = 58 then
          match parseZone (if fractionDigits (s.drop 19) = [] then s.drop 19
              else (s.drop 19).drop (1 + (fractionDigits (s.drop 19)).length)) with
          | some zoneOffset =>
            some ⟨year, month, day, hour, min, sec,
              if fractionDigits (s.drop 19) = [] then 0
              else nanosecondsOf (fractionDigits (s.drop 19)), zoneOffset⟩
          | none => none
        else none
      | _, _, _, _ => none
    | _, _ => none

/-! ## `encoding/json`: the credential record -/

/-- The function `json.Marshal` on a token: the members in the order of the
fields of the struct, `token_type` and `refresh_token` left out when empty.
The error of `Time.MarshalJSON` comes back as a `MarshalerError`. -/
def marshalToken (t : Token) : Except GoError Bytes :=
  match timeMarshalJSON t.Expiry with
  | .error (.text msg) =>
    .error (.text (ascii "json: error calling MarshalJSON for type time.Time: " ++ msg))
  | .error err => .error err
  | .ok expiry =>
    .ok ([123] ++ [34] ++ ascii "access_token" ++ [34, 58] ++ appendString t.AccessToken
      ++ (if t.TokenType = [] then []
          else [44, 34] ++ ascii "token_type" ++ [34, 58] ++ appendString t.TokenType)
      ++ (if t.RefreshToken = [] then []
          else [44, 34] ++ ascii "refresh_token" ++ [34, 58] ++ appendString t.RefreshToken)
      ++ [44, 34] ++ ascii "expiry" ++ [34, 58] ++ expiry ++ [125])

/-- The token a decoder starts from: the zero value, whose time is
0001-01-01T00:00:00Z. -/
def zeroToken : Token := ⟨[], [], [], ⟨1, 1, 1, 0, 0, 0, 0, 0⟩⟩

/-- The assignment of one member to the field of that name: a string field
takes the unquoted literal, `expiry` the time the text of the literal stands
for. `none` when the name is not exactly that of a field, or the text of the
time is not in the strict form. -/
def storeMember (key rawValue : Bytes) (tok : Token) : Option Token :=
  if key = ascii "access_token" then
    (unquoteBytes rawValue).map (fun v => { tok with AccessToken := v })
  else if key = ascii "token_type" then
    (unquoteBytes rawValue).map (fun v => { tok with TokenType := v })
  else if key = ascii "refresh_token" then
    (unquoteBytes rawValue).map (fun v => { tok with RefreshToken := v })
  else if key = ascii "expiry" then
    (parseRFC3339 rawValue).map (fun v => { tok with Expiry := v })
  else none

/-- The members of an object, from the quote of a name on, at most `fuel` of
them. -/
def decodeMembers : Nat → Token → Bytes → Option Token
  | 0, _, _ => none
  | fuel + 1, tok, data =>
    match data with
    | 34 :: rest =>
      match scanString rest with
      | some (rawKey, 58 :: 34 :: rest1) =>
        match unquoteBytes rawKey, scanString rest1 with
        | some key, some (rawValue, next :: rest2) =>
          match storeMember key rawValue tok with
          | some tok1 =>
            if next = 44 then decodeMembers fuel tok1 rest2
            else if next = 125 then some tok1
            else none
          | none => none
        | _, _ => none
      | _ => none
    | _ => none

/-- The call `Decoder.Decode` into an empty token, on the streams this
embedding covers: those that start with an object without blanks whose
members are named exactly after fields of the token and hold string literals
(the literal of `expiry` a time in the strict form of RFC 3339). What follows
the object is left in the stream. `none` says that the stream is not of this
kind, not that the decoder fails on it. -/
def decodeRecord (data : Bytes) : Option Token :=
  match data with
  | 123 :: 125 :: _ => some zeroToken
  | 123 :: rest => decodeMembers rest.length zeroToken rest
  | _ => none

/-- The JSON library answers as `encoding/json` does: it marshals as
`marshalToken` says, and decodes the streams `decodeRecord` covers as it
says. -/
def encodingJSON (w : World) : Prop :=
  (∀ t, w.marshal t = marshalToken t)
    ∧ (∀ data t, decodeRecord data = some t → w.decode data = (t, none))

/-! ## Credentials that round-trip -/

/-- The times `Time.MarshalJSON` writes and `Time.UnmarshalJSON` reads back
unchanged: a calendar reading that exists, in a year from 0 to 9999, in a zone
whose offset is a whole number of minutes and less than a day. -/
def validExpiry (t : Time) : Prop :=
  0 ≤ t.year ∧ t.year ≤ 9999 ∧ 1 ≤ t.month ∧ t.month ≤ 12
    ∧ 1 ≤ t.day ∧ t.day ≤ daysIn t.month t.year.toNat
    ∧ t.hour < 24 ∧ t.minute < 60 ∧ t.second < 60 ∧ t.nanosecond < 10 ^ 9
    ∧ t.offset % 60 = 0 ∧ -86400 < t.offset ∧ t.offset < 86400

instance (t : Time) : Decidable (validExpiry t) := by
  unfold validExpiry; infer_instance

/-- The credentials that `saveToken` followed by `tokenFromFile` gives back
unchanged: the three strings are valid UTF-8 and the expiry is a time that
RFC 3339 carries. -/
def validCredential (t : Token) : Prop :=
  utf8Valid t.AccessToken = true ∧ utf8Valid t.TokenType = true
    ∧ utf8Valid t.RefreshToken = true ∧ validExpiry t.Expiry

instance (t : Token) : Decidable (validCredential t) := by
  unfold validCredential; infer_instance

/-! ## Sample worlds -/

/-- A state with no file and an empty trace. -/
def emptyState : State := ⟨fun _ => none, []⟩

/-- A sample credential. Its expiry is 2024-01-01T00:00:00Z. -/
def sampleToken : Token :=
  ⟨ascii "ya29.sample", ascii "Bearer", ascii "1//sample", ⟨2024, 1, 1, 0, 0, 0, 0, 0⟩⟩

/-- The record `encoding/json` writes for `sampleToken`. -/
def sampleRecord : Bytes :=
  [123] ++ ascii "\"access_token\":\"ya29.sample\",\"token_type\":\"Bearer\","
    ++ ascii "\"refresh_token\":\"1//sample\",\"expiry\":\"2024-01-01T00:00:00Z\"" ++ [125]

/-- A state in which the credential file holds the record of `sampleToken`
and a newline. -/
def cachedState : State :=
  ⟨fun p => if p = ascii "token.json" then some (sampleRecord ++ [10]) else none, []⟩

/-- A sample world: the environment is set, the playlist has two entries,
every search finds the video named after its query, every download succeeds,
and the JSON library is known at `sampleToken` only. -/
def sampleWorld : World where
  dotenv := none
  getenv := fun _ => ascii "set"
  getPlaylist := fun _ => .ok
    [⟨⟨ascii "Imagine", [⟨ascii "John Lennon"⟩]⟩⟩,
     ⟨⟨ascii "Heroes", [⟨ascii "David Bowie"⟩, ⟨ascii "Brian Eno"⟩]⟩⟩]
  configFromJSON := fun _ => .ok ⟨ascii "id", ascii "secret", ascii "https://redirect.example/callback"⟩
  authCodeURL := fun _ => ascii "https://accounts.example/auth?state=state-token"
  scan := .ok (ascii "https://redirect.example/callback?state=state-token&code=ABC123")
  exchange := fun _ => .ok sampleToken
  createErr := fun _ => none
  writeErr := fun _ _ => none
  marshal := fun t => if t = sampleToken then .ok sampleRecord
    else .error (.text (ascii "unknown"))
  decode := fun data => if data = sampleRecord ++ [10] then (sampleToken, none)
    else (⟨[], [], [], ⟨1, 1, 1, 0, 0, 0, 0, 0⟩⟩, some (.text (ascii "unknown")))
  newService := none
  searchDo := fun _ q => .ok [q]
  download := fun _ _ => ([], none)

/-- The sample world with a full disk: a file can be created, and no byte
can be written to it. -/
def diskFullWorld : World :=
  { sampleWorld with
    writeErr := fun _ _ => some (0, .text (ascii "no space left on device")) }

/-- The sample world in which the first run of the downloader fails. -/
def firstDownloadFails : World :=
  { sampleWorld with
    download := fun i _ =>
      if i = 0 then (ascii "ERROR: unable to download", some (.text (ascii "exit status 1")))
      else ([], none) }

/-- The sample world without `YOUTUBE_CREDENTIALS_JSON`. -/
def noYouTubeCredentials : World :=
  { sampleWorld with
    getenv := fun k => if k = ascii "YOUTUBE_CREDENTIALS_JSON" then [] else ascii "set" }

/-- The sample world in which the operator pastes an address without a
`code` parameter. -/
def noCodePasted : World :=
  { sampleWorld with
    scan := .ok (ascii "https://redirect.example/callback?state=state-token") }

/-- The sample world in which the operator pastes the redirect address in
percent-encoded form. -/
def encodedPaste : World :=
  { sampleWorld with
    scan := .ok (ascii
      "https%3A%2F%2Fredirect.example%2Fcallback%3Fstate%3Dstate-token%26code%3DABC123") }

/-- The sample world in which the second search call fails. -/
def secondSearchFails : World :=
  { sampleWorld with
    searchDo := fun i q =>
      if i = 1 then .error (.text (ascii "quotaExceeded")) else .ok [q] }

/-- The sample world with the JSON library of the model: it marshals as
`marshalToken` and decodes as `decodeRecord`. On a stream that `decodeRecord`
does not cover, the decoder of this world reports an error. -/
def jsonWorld : World :=
  { sampleWorld with
    marshal := marshalToken
    decode := fun data =>
      match decodeRecord data with
      | some t => (t, none)
      | none => (zeroToken, some (.text (ascii "json: stream not covered"))) }

/-- A credential whose access token is the single byte 0xFF, which is not
UTF-8. Its expiry is 0001-01-01T00:00:00Z. -/
def notUTF8Token : Token := ⟨[255], [], [], ⟨1, 1, 1, 0, 0, 0, 0, 0⟩⟩

/-- The record `encoding/json` writes for `notUTF8Token`: the byte is written
as the escape of U+FFFD. -/
def notUTF8Record : Bytes :=
  [123] ++ ascii "\"access_token\":\"\\ufffd\",\"expiry\":\"0001-01-01T00:00:00Z\"" ++ [125]

/-- A credential that expires on the first day of the year 10000. -/
def year10000Token : Token :=
  ⟨ascii "ya29.sample", ascii "Bearer", ascii "1//sample", ⟨10000, 1, 1, 0, 0, 0, 0, 0⟩⟩

/-- The error of `json.Marshal` on `year10000Token`. -/
def year10000Error : GoError :=
  .text (ascii ("json: error calling MarshalJSON for type time.Time: "
    ++ "Time.MarshalJSON: year outside of range [0,9999]"))

/-! ## Sequencing lemmas -/

@[simp] theorem Proc.bind_apply {α β : Type} (p : Proc α) (f : α → Proc β) (s : State) :
    (p >>= f) s = match p s with
      | .ret a s1 => f a s1
      | .fatal r s1 => .fatal r s1
      | .panic s1 => .panic s1 := rfl

@[simp] theorem Proc.pure_apply {α : Type} (a : α) (s : State) :
    (pure a : Proc α) s = .ret a s := rfl

@[simp] theorem emit_apply (e : Event) (s : State) : emit e s = .ret () (s.emit e) := rfl

@[simp] theorem logFatalf_apply {α : Type} (f : String) (args : List Arg) (s : State) :
    (logFatalf f args : Proc α) s = .fatal ⟨f, args⟩ s := rfl

@[simp] theorem State.emit_fs (s : State) (e : Event) : (s.emit e).fs = s.fs := rfl

@[simp] theorem State.emit_trace (s : State) (e : Event) : (s.emit e).trace = s.trace ++ [e] := rfl

theorem queryOf_eq (t : TrackInfo) : queryOf t = t.Name ++ [32] ++ t.Artist := rfl

@[simp] theorem searchQueries_append (a b : List Event) :
    searchQueries (a ++ b) = searchQueries a ++ searchQueries b := by
  simp [searchQueries]

theorem searchLoop_spec (w : World) (tracks : List TrackInfo) :
    ∀ (i : Nat) (videoIds : List Bytes) (s : State),
      ∃ s1, searchLoop w i tracks videoIds s
          = .ret (videoIds ++ (tracks.enumFrom i).filterMap (foundId w)) s1
        ∧ s1.fs = s.fs
        ∧ searchQueries s1.trace
          = searchQueries s.trace ++ tracks.map (fun t => t.Name ++ [32] ++ t.Artist) := by
  induction tracks with
  | nil => intro i ids s; exact ⟨s, by simp [searchLoop]⟩
  | cons t rest ih =>
    intro i ids s
    cases hv : (searchYouTubeVideoValue w i (t.Name ++ [32] ++ t.Artist)) with
    | mk vid err =>
    have hv1 : searchYouTubeVideoValue w i (t.Name ++ 32 :: t.Artist) = (vid, err) := by
      simpa using hv
    cases err with
    | none =>
      obtain ⟨s1, h1, h2, h3⟩ := ih (i + 1) (ids ++ [vid]) (s.emit (.search (queryOf t)))
      refine ⟨s1, ?_, ?_, ?_⟩
      · simp [searchLoop, searchYouTubeVideo, queryOf_eq, hv1, List.enumFrom_cons, foundId] at h1 ⊢
        exact h1
      · simpa using h2
      · simpa [searchQueries, queryOf_eq] using h3
    | some e =>
      obtain ⟨s1, h1, h2, h3⟩ := ih (i + 1) ids
        ((s.emit (.search (queryOf t))).emit (.logPrintf ⟨"Error searching YouTube for %s by %s: %v",
          [.str t.Name, .str t.Artist, .err e]⟩))
      refine ⟨s1, ?_, ?_, ?_⟩
      · simp [searchLoop, searchYouTubeVideo, queryOf_eq, hv1, List.enumFrom_cons, foundId, logPrintf] at h1 ⊢
        exact h1
      · simpa using h2
      · simpa [searchQueries, queryOf_eq] using h3

theorem ascii_space : ascii " " = [32] := rfl

theorem downloadLoop_ok (w : World) (ids : List Bytes) :
    ∀ (i : Nat) (s : State),
      (∀ p ∈ ids.enumFrom i, (w.download p.1 (videoURLOf p.2)).2 = none) →
      downloadLoop w i ids s = .ret () ⟨s.fs, s.trace ++ ids.map (fun id =>
        .exec (ascii "youtube-dl") [videoURLOf id])⟩ := by
  induction ids with
  | nil => intro i s _; simp [downloadLoop]
  | cons id rest ih =>
    intro i s h
    have h0 : (w.download i (videoURLOf id)).2 = none := h (i, id) (by simp [List.enumFrom_cons])
    have hr : ∀ p ∈ rest.enumFrom (i + 1), (w.download p.1 (videoURLOf p.2)).2 = none :=
      fun p hp => h p (by simp [List.enumFrom_cons, hp])
    simp [downloadLoop, h0, ih (i + 1) _ hr, State.emit]

theorem downloadLoop_fail (w : World) (pre : List Bytes) (id : Bytes) (post : List Bytes)
    (e : GoError) :
    ∀ (i : Nat) (s : State),
      (∀ p ∈ pre.enumFrom i, (w.download p.1 (videoURLOf p.2)).2 = none) →
      (w.download (i + pre.length) (videoURLOf id)).2 = some e →
      downloadLoop w i (pre ++ id :: post) s =
        .fatal ⟨"Failed to download video: %v\n%s",
            [.err e, .str (w.download (i + pre.length) (videoURLOf id)).1]⟩
          ⟨s.fs, s.trace ++ (pre ++ [id]).map (fun id =>
            .exec (ascii "youtube-dl") [videoURLOf id])⟩ := by
  induction pre with
  | nil =>
    intro i s _ hf
    simp at hf
    simp [downloadLoop, hf, State.emit]
  | cons x rest ih =>
    intro i s h hf
    have h0 : (w.download i (videoURLOf x)).2 = none := h (i, x) (by simp [List.enumFrom_cons])
    have hr : ∀ p ∈ rest.enumFrom (i + 1), (w.download p.1 (videoURLOf p.2)).2 = none :=
      fun p hp => h p (by simp [List.enumFrom_cons, hp])
    have hf1 : (w.download (i + 1 + rest.length) (videoURLOf id)).2 = some e := by
      have : i + 1 + rest.length = i + (x :: rest).length := by simp; omega
      rw [this]; exact hf
    have := ih (i + 1) (s.emit (.exec (ascii "youtube-dl") [videoURLOf x])) hr hf1
    have e1 : i + 1 + rest.length = i + (rest.length + 1) := by omega
    rw [e1] at this
    simp [downloadLoop, h0, State.emit]
    simpa [State.emit] using this

theorem tokenFromFile_eq (w : World) (file : Bytes) (s : State) :
    tokenFromFile w file s =
      .ret (match s.fs file with
          | none => (none, some (.notExist file))
          | some data => (some (w.decode data).1, (w.decode data).2))
        (s.emit (.openFile file)) := by
  simp only [tokenFromFile, State.emit_fs]
  cases s.fs file <;> rfl

theorem getTokenFromWeb_eq (w : World) (config : Config) (s : State) :
    getTokenFromWeb w config s =
      match w.scan with
      | .error err =>
        .fatal ⟨"Unable to read authorization code: %v", [.err err]⟩
          ⟨s.fs, s.trace ++ [promptEvent w config, .scanStdin]⟩
      | .ok authCode =>
        match QueryUnescape authCode with
        | .error err =>
          .fatal ⟨"Unable to decode authorization code: %v", [.err err]⟩
            ⟨s.fs, s.trace ++ [promptEvent w config, .scanStdin]⟩
        | .ok decodedURL =>
          match Parse decodedURL with
          | .error err =>
            .fatal ⟨"Unable to parse URL: %v", [.err err]⟩
              ⟨s.fs, s.trace ++ [promptEvent w config, .scanStdin,
                .stdout ⟨"Decoded URL: %s\n", [.str decodedURL]⟩]⟩
          | .ok parsedURL =>
            if parsedURL.Query.Get (ascii "code") = [] then
              .fatal ⟨"Authorization code not found in URL", []⟩
                ⟨s.fs, s.trace ++ [promptEvent w config, .scanStdin,
                  .stdout ⟨"Decoded URL: %s\n", [.str decodedURL]⟩]⟩
            else
              match w.exchange (parsedURL.Query.Get (ascii "code")) with
              | .error err =>
                .fatal ⟨"Unable to retrieve token from web: %v", [.err err]⟩
                  ⟨s.fs, s.trace ++ [promptEvent w config, .scanStdin,
                    .stdout ⟨"Decoded URL: %s\n", [.str decodedURL]⟩,
                    .exchange (parsedURL.Query.Get (ascii "code"))]⟩
              | .ok tok =>
                .ret tok
                  ⟨s.fs, s.trace ++ [promptEvent w config, .scanStdin,
                    .stdout ⟨"Decoded URL: %s\n", [.str decodedURL]⟩,
                    .exchange (parsedURL.Query.Get (ascii "code"))]⟩ := by
  cases hs : w.scan with
  | error e => simp [getTokenFromWeb, fmtPrintf, hs, State.emit, promptEvent]
  | ok authCode =>
    cases hq : QueryUnescape authCode with
    | error e => simp [getTokenFromWeb, fmtPrintf, hs, hq, State.emit, promptEvent]
    | ok d =>
      cases hp : Parse d with
      | error e => simp [getTokenFromWeb, fmtPrintf, hs, hq, hp, State.emit, promptEvent]
      | ok u =>
        by_cases hc : u.Query.Get (ascii "code") = []
        · simp [getTokenFromWeb, fmtPrintf, hs, hq, hp, hc, State.emit, promptEvent]
        · cases hx : w.exchange (u.Query.Get (ascii "code")) with
          | error e => simp [getTokenFromWeb, fmtPrintf, hs, hq, hp, hc, hx, State.emit, promptEvent]
          | ok t => simp [getTokenFromWeb, fmtPrintf, hs, hq, hp, hc, hx, State.emit, promptEvent]

theorem saveToken_eq (w : World) (path : Bytes) (token : Token) (s : State) :
    saveToken w path token s =
      match w.createErr path with
      | some e =>
        .fatal ⟨"Unable to create token file: %v", [.err e]⟩
          ⟨s.fs, s.trace ++ [.stdout ⟨"Saving credential file to: %s\n", [.str path]⟩,
            .createFile path]⟩
      | none =>
        match w.marshal token with
        | .error _ =>
          .ret () ⟨setFile s.fs path [],
            s.trace ++ [.stdout ⟨"Saving credential file to: %s\n", [.str path]⟩,
              .createFile path]⟩
        | .ok b =>
          .ret () ⟨setFile (setFile s.fs path []) path
              (match w.writeErr path (b ++ [10]) with
                | none => b ++ [10]
                | some (n, _) => (b ++ [10]).take n),
            s.trace ++ [.stdout ⟨"Saving credential file to: %s\n", [.str path]⟩,
              .createFile path, .writeFile path (b ++ [10])]⟩ := by
  cases hc : w.createErr path with
  | some e => simp [saveToken, fmtPrintf, osCreate, hc, State.emit]
  | none =>
    cases hm : w.marshal token with
    | error e => simp [saveToken, fmtPrintf, osCreate, encodeTo, hc, hm, State.emit]
    | ok b =>
      cases hw : w.writeErr path (b ++ [10]) with
      | none => simp [saveToken, fmtPrintf, osCreate, encodeTo, hc, hm, hw, State.emit]
      | some ne => simp [saveToken, fmtPrintf, osCreate, encodeTo, hc, hm, hw, State.emit]

theorem collectTracks_eq (playlist : List PlaylistTrack) (acc : List TrackInfo)
    (h : ∀ item ∈ playlist, item.Track.Artists ≠ []) :
    collectTracks playlist acc =
      some (acc ++ playlist.map (fun item =>
        ⟨item.Track.Name, (item.Track.Artists.map (·.Name)).headD []⟩)) := by
  induction playlist generalizing acc with
  | nil => simp [collectTracks]
  | cons item rest ih =>
    have h1 := h item (by simp)
    have h2 : ∀ it ∈ rest, it.Track.Artists ≠ [] := fun it hit => h it (by simp [hit])
    cases hA : item.Track.Artists with
    | nil => exact absurd hA h1
    | cons a as =>
      simp [collectTracks, hA, ih _ h2]

theorem collectTracks_none (playlist : List PlaylistTrack) (acc : List TrackInfo)
    (h : ∃ item ∈ playlist, item.Track.Artists = []) :
    collectTracks playlist acc = none := by
  induction playlist generalizing acc with
  | nil => simp at h
  | cons item rest ih =>
    cases hA : item.Track.Artists with
    | nil => simp [collectTracks, hA]
    | cons a as =>
      simp only [collectTracks, hA]
      apply ih
      obtain ⟨it, hit, hE⟩ := h
      rcases List.mem_cons.mp hit with rfl | hr
      · rw [hA] at hE; exact absurd hE (by simp)
      · exact ⟨it, hr, hE⟩

theorem getTokenFromWeb_trace (w : World) (config : Config) (s : State) :
    ∃ rest, (getTokenFromWeb w config s).state.trace =
      s.trace ++ (promptEvent w config :: .scanStdin :: rest) := by
  rw [getTokenFromWeb_eq]
  repeat' split
  all_goals exact ⟨_, rfl⟩

theorem saveToken_trace (w : World) (path : Bytes) (token : Token) (s : State) :
    ∃ rest, (saveToken w path token s).state.trace = s.trace ++ rest := by
  rw [saveToken_eq]
  repeat' split
  all_goals exact ⟨_, rfl⟩

/-- The interactive exchange followed by saving its token. -/
theorem exchangeThenSave_trace (w : World) (config : Config) (s : State) :
    ∃ rest, (match getTokenFromWeb w config s with
        | .ret tok s2 =>
          (match saveToken w tokenFile tok s2 with
            | .ret _ s3 => Result.ret (some tok) s3
            | .fatal r s3 => .fatal r s3
            | .panic s3 => .panic s3)
        | .fatal r s2 => .fatal r s2
        | .panic s2 => .panic s2).state.trace =
      s.trace ++ (promptEvent w config :: .scanStdin :: rest) := by
  obtain ⟨r1, h1⟩ := getTokenFromWeb_trace w config s
  cases hg : getTokenFromWeb w config s with
  | fatal r s2 => rw [hg] at h1; exact ⟨r1, h1⟩
  | panic s2 => rw [hg] at h1; exact ⟨r1, h1⟩
  | ret tok s2 =>
    rw [hg] at h1
    obtain ⟨r2, h2⟩ := saveToken_trace w tokenFile tok s2
    have h1' : s2.trace = s.trace ++ (promptEvent w config :: .scanStdin :: r1) := h1
    refine ⟨r1 ++ r2, ?_⟩
    cases hs : saveToken w tokenFile tok s2 with
    | ret u s3 => rw [hs] at h2; simp [Result.state, hs] at h2 ⊢; rw [h2, h1']; simp
    | fatal r s3 => rw [hs] at h2; simp [Result.state, hs] at h2 ⊢; rw [h2, h1']; simp
    | panic s3 => rw [hs] at h2; simp [Result.state, hs] at h2 ⊢; rw [h2, h1']; simp

/-- A failed write does not stop `saveToken`. -/
theorem saveToken_write_failure (w : World) (path : Bytes) (t : Token) (s : State)
    (b : Bytes) (n : Nat) (e : GoError)
    (hcreate : w.createErr path = none)
    (hmarshal : w.marshal t = .ok b)
    (hwrite : w.writeErr path (b ++ [10]) = some (n, e)) :
    ∃ s1, saveToken w path t s = .ret () s1 ∧ s1.fs path = some ((b ++ [10]).take n) := by
  have h1 : saveToken w path t s = .ret ()
      ⟨setFile (setFile s.fs path []) path ((b ++ [10]).take n),
        s.trace ++ [.stdout ⟨"Saving credential file to: %s\n", [.str path]⟩,
          .createFile path, .writeFile path (b ++ [10])]⟩ := by
    rw [saveToken_eq, hcreate]
    simp only [hmarshal, hwrite]
  exact ⟨_, h1, by simp [setFile]⟩

theorem getSpotifyPlaylist_state (w : World) (playlistID : Bytes) (s : State) :
    (getSpotifyPlaylist w playlistID s).state = s.emit (.getPlaylist playlistID) := by
  unfold getSpotifyPlaylist
  cases w.getPlaylist playlistID with
  | error e => rfl
  | ok playlist =>
    cases h : collectTracks playlist [] <;> simp [Result.state, h]

theorem getSpotifyPlaylist_not_fatal (w : World) (playlistID : Bytes) (s : State)
    (r : LogRecord) (s1 : State) : getSpotifyPlaylist w playlistID s ≠ .fatal r s1 := by
  unfold getSpotifyPlaylist
  cases w.getPlaylist playlistID with
  | error e => simp
  | ok playlist =>
    cases h : collectTracks playlist [] <;> simp [h]

/-- The first part of `main`, up to the check of `YOUTUBE_CREDENTIALS_JSON`. -/
theorem main_eq_of_missing_youtube (w : World) (s : State)
    (hyt : w.getenv (ascii "YOUTUBE_CREDENTIALS_JSON") = []) :
    main w s =
      if w.dotenv ≠ none then
        .fatal ⟨"Error loading .env file", []⟩ (s.emit .dotenvLoad)
      else if w.getenv (ascii "SPOTIFY_CLIENT_ID") = []
          ∨ w.getenv (ascii "SPOTIFY_CLIENT_SECRET") = [] then
        .fatal ⟨"Missing SPOTIFY_CLIENT_ID or SPOTIFY_CLIENT_SECRET environment variable", []⟩
          (s.emit .dotenvLoad)
      else
        match getSpotifyPlaylist w (ascii "2nSHh0BiEoRjfOAF5HXLu9") (s.emit .dotenvLoad) with
        | .ret (_, some e) s1 => .fatal ⟨"Error retrieving Spotify playlist: %v", [.err e]⟩ s1
        | .ret (_, none) s1 =>
          .fatal ⟨"Missing YOUTUBE_CREDENTIALS_JSON environment variable", []⟩ s1
        | .fatal r s1 => .fatal r s1
        | .panic s1 => .panic s1 := by
  by_cases h1 : w.dotenv = none
  · by_cases h2 : w.getenv (ascii "SPOTIFY_CLIENT_ID") = []
        ∨ w.getenv (ascii "SPOTIFY_CLIENT_SECRET") = []
    · simp [main, h1, h2]
    · simp only [main, Proc.bind_apply, emit_apply, h1, h2, ne_eq, not_true_eq_false, if_false,
        Proc.pure_apply]
      cases hg : getSpotifyPlaylist w (ascii "2nSHh0BiEoRjfOAF5HXLu9") (s.emit .dotenvLoad) with
      | ret a s1 =>
        obtain ⟨tracks, err⟩ := a
        cases err with
        | none => simp [hyt]
        | some e => simp
      | fatal r s1 => simp
      | panic s1 => simp
  · simp [main, h1]

/-- The start of `main` when a Spotify value is missing. -/
theorem main_eq_of_missing_spotify (w : World) (s : State)
    (hsp : w.getenv (ascii "SPOTIFY_CLIENT_ID") = []
      ∨ w.getenv (ascii "SPOTIFY_CLIENT_SECRET") = []) :
    main w s =
      if w.dotenv ≠ none then
        .fatal ⟨"Error loading .env file", []⟩ (s.emit .dotenvLoad)
      else
        .fatal ⟨"Missing SPOTIFY_CLIENT_ID or SPOTIFY_CLIENT_SECRET environment variable", []⟩
          (s.emit .dotenvLoad) := by
  by_cases h1 : w.dotenv = none
  · simp [main, h1, hsp]
  · simp [main, h1]

theorem unreservedByte_facts (b : Nat) (h : unreservedByte b) :
    32 ≤ b ∧ b ≠ 127 ∧ b ≠ 35 ∧ b ≠ 37 ∧ b ≠ 38 ∧ b ≠ 43 ∧ b ≠ 59 ∧ b ≠ 61 ∧ b ≠ 63 := by
  simp only [unreservedByte, Char.reduceToNat] at h
  omega

theorem Cut_of_not_mem (sep : Nat) (s : Bytes) (h : sep ∉ s) : Cut sep s = (s, [], false) := by
  induction s with
  | nil => rfl
  | cons c rest ih =>
    have hc : c ≠ sep := fun e => h (by simp [e])
    have hr : sep ∉ rest := fun m => h (by simp [m])
    simp [Cut, hc, ih hr]

theorem Cut_append (sep : Nat) (a b : Bytes) (h : sep ∉ a) :
    Cut sep (a ++ sep :: b) = (a, b, true) := by
  induction a with
  | nil => simp [Cut]
  | cons c rest ih =>
    have hc : c ≠ sep := fun e => h (by simp [e])
    have hr : sep ∉ rest := fun m => h (by simp [m])
    simp [Cut, hc, ih hr]

theorem unescapeCheck_of_no_percent (mode : encoding)
    (hmode : mode ≠ encodeHost ∧ mode ≠ encodeZone) (s : Bytes) (h : 37 ∉ s) :
    unescapeCheck mode s = none := by
  induction s with
  | nil => rfl
  | cons c rest ih =>
    have hc : c ≠ 37 := fun e => h (by simp [e])
    have hr : 37 ∉ rest := fun m => h (by simp [m])
    unfold unescapeCheck
    simp [hc, ih hr, hmode.1, hmode.2]

theorem QueryUnescape_of_plain (s : Bytes) (h1 : 37 ∉ s) (h2 : 43 ∉ s) :
    QueryUnescape s = .ok s := by
  have hc := unescapeCheck_of_no_percent encodeQueryComponent (by decide) s h1
  have h0 : List.count 37 s = 0 := List.count_eq_zero_of_not_mem h1
  simp [QueryUnescape, unescape, hc, Count, Contains, h0, h2]

theorem parseQueryLoop_nil (fuel : Nat) (m : Values) (err : Option GoError) :
    parseQueryLoop fuel m err [] = (m, err) := by
  cases fuel <;> simp [parseQueryLoop]

theorem redirect_text :
    ascii "https://redirect.example/callback?state=state-token&code=" =
      ascii "https" ++ 58 :: (ascii "//redirect.example/callback" ++ 63 ::
        (ascii "state=state-token" ++ 38 :: (ascii "code" ++ [61]))) := by
  decide

theorem parseQueryLoop_step (fuel : Nat) (m : Values) (err : Option GoError) (query : Bytes)
    (key0 query1 key value : Bytes) (found found2 : Bool)
    (hne : query ≠ [])
    (hcut : Cut 38 query = (key0, query1, found))
    (hsemi : Contains key0 59 = false)
    (hkey0 : key0 ≠ [])
    (hkv : Cut 61 key0 = (key, value, found2))
    (hk : QueryUnescape key = .ok key)
    (hv : QueryUnescape value = .ok value) :
    parseQueryLoop (fuel + 1) m err query = parseQueryLoop fuel (m.add key value) err query1 := by
  rw [parseQueryLoop]
  simp only [Char.reduceToNat, hne, hcut, hsemi, hkey0, hkv, hk, hv, if_false, Bool.false_eq_true]

theorem Values_Get_query (c : Bytes) (hc : ∀ b ∈ c, unreservedByte b) :
    (ParseQuery (ascii "state=state-token" ++ 38 :: (ascii "code" ++ 61 :: c))).1.Get
      (ascii "code") = c := by
  have h37 : 37 ∉ c := fun m => (unreservedByte_facts 37 (hc 37 m)).2.2.2.1 rfl
  have h43 : 43 ∉ c := fun m => (unreservedByte_facts 43 (hc 43 m)).2.2.2.2.2.1 rfl
  have h38 : 38 ∉ c := fun m => (unreservedByte_facts 38 (hc 38 m)).2.2.2.2.1 rfl
  have h59 : 59 ∉ c := fun m => (unreservedByte_facts 59 (hc 59 m)).2.2.2.2.2.2.1 rfl
  have hlen : (ascii "state=state-token" ++ 38 :: (ascii "code" ++ 61 :: c)).length
      = (c.length + 21) + 1 + 1 := by
    simp [ascii]
  have cut2 : Cut 38 (ascii "code" ++ 61 :: c) = (ascii "code" ++ 61 :: c, [], false) :=
    Cut_of_not_mem 38 _ (by
      intro m
      rcases List.mem_append.mp m with m | m
      · revert m; decide
      · rcases List.mem_cons.mp m with m | m
        · revert m; decide
        · exact h38 m)
  have hsemi : Contains (ascii "code" ++ 61 :: c) 59 = false := by
    simp [Contains, ascii, h59]
  have step1 := parseQueryLoop_step (c.length + 21 + 1) (fun _ => []) none
    (ascii "state=state-token" ++ 38 :: (ascii "code" ++ 61 :: c))
    (ascii "state=state-token") (ascii "code" ++ 61 :: c) (ascii "state") (ascii "state-token")
    true true (by simp) (Cut_append 38 (ascii "state=state-token") _ (by decide))
    (by decide) (by decide) (by decide) (by decide) (by decide)
  have step2 := parseQueryLoop_step (c.length + 21)
    (Values.add (fun _ => []) (ascii "state") (ascii "state-token")) none
    (ascii "code" ++ 61 :: c) (ascii "code" ++ 61 :: c) [] (ascii "code") c
    false true (by simp) cut2 hsemi (by simp) (Cut_append 61 (ascii "code") c (by decide))
    (by decide) (QueryUnescape_of_plain c h37 h43)
  unfold ParseQuery
  rw [hlen, step1, step2, parseQueryLoop_nil]
  have hkeys : ascii "code" ≠ ascii "state" := by decide
  simp [Values.Get, Values.add, hkeys]

theorem getScheme_https (rest : Bytes) :
    getScheme (ascii "https" ++ 58 :: rest) = .ok (ascii "https", rest) := by
  have h : ascii "https" = [104, 116, 116, 112, 115] := by decide
  rw [h]
  simp [getScheme, getSchemeLoop]

theorem HasSuffix_question (a q : Bytes) (hne : q ≠ []) (h63 : 63 ∉ q) :
    HasSuffix (a ++ 63 :: q) (ascii "?") = false := by
  have hq : ascii "?" = [63] := by decide
  rw [hq]
  unfold HasSuffix
  cases hb : List.isSuffixOf [63] (a ++ 63 :: q) with
  | false => rfl
  | true =>
    exfalso
    rw [List.isSuffixOf_iff_suffix] at hb
    obtain ⟨t, ht⟩ := hb
    have hr := congrArg List.reverse ht
    simp only [List.reverse_append, List.reverse_cons, List.reverse_nil, List.nil_append,
      List.singleton_append, List.append_assoc] at hr
    cases hqr : q.reverse with
    | nil => exact hne (List.reverse_eq_nil_iff.mp hqr)
    | cons y ys =>
      rw [hqr] at hr
      simp only [List.cons_append, List.cons.injEq] at hr
      have hy : y ∈ q := by
        have : y ∈ q.reverse := by rw [hqr]; simp
        exact List.mem_reverse.mp this
      exact h63 (hr.1 ▸ hy)

theorem parse_redirect (q : Bytes) (hne : q ≠ []) (h63 : 63 ∉ q)
    (hctl : ∀ b ∈ q, 32 ≤ b ∧ b ≠ 127) :
    parse (ascii "https" ++ 58 :: (ascii "//redirect.example/callback" ++ 63 :: q)) =
      .ok ⟨ascii "https", [], ascii "redirect.example", ascii "/callback", false, q, []⟩ := by
  have hc1 : stringContainsCTLByte
      (ascii "https" ++ 58 :: (ascii "//redirect.example/callback" ++ 63 :: q)) = false := by
    have hq : q.any (fun b => b < ' '.toNat || b = 127) = false := by
      rw [List.any_eq_false]
      intro b hb
      have := hctl b hb
      simp only [Char.reduceToNat, Bool.or_eq_true, decide_eq_true_eq, not_or]
      omega
    have h1 : (ascii "https").any (fun b => b < ' '.toNat || b = 127) = false := by decide
    have h2 : (ascii "//redirect.example/callback").any (fun b => b < ' '.toNat || b = 127)
        = false := by decide
    simp only [stringContainsCTLByte, List.any_append, List.any_cons, h1, h2, hq]
    decide
  have hstar : ascii "https" ++ 58 :: (ascii "//redirect.example/callback" ++ 63 :: q)
      ≠ ascii "*" := by
    intro h
    have := congrArg List.length h
    simp [ascii] at this
  have hsfx := HasSuffix_question (ascii "//redirect.example/callback") q hne h63
  have hcut : Cut 63 (ascii "//redirect.example/callback" ++ 63 :: q)
      = (ascii "//redirect.example/callback", q, true) :=
    Cut_append 63 _ q (by decide)
  have hlow : ToLower (ascii "https") = ascii "https" := by decide
  have hp1 : HasPrefix (ascii "//redirect.example/callback") (ascii "/") = true := by decide
  have hp2 : HasPrefix (ascii "//redirect.example/callback") (ascii "//") = true := by decide
  have hsch : ascii "https" ≠ [] := by decide
  have hidx : Index (ascii "/") ((ascii "//redirect.example/callback").drop 2) = some 16 := by
    decide
  have hauth : parseAuthority (((ascii "//redirect.example/callback").drop 2).take 16)
      = .ok (ascii "redirect.example") := by decide
  have hpath : unescape (((ascii "//redirect.example/callback").drop 2).drop 16) encodePath
      = .ok (ascii "/callback") := by decide
  unfold parse
  simp only [hc1, hstar, getScheme_https, hsfx, hcut, hlow, hp1, hp2, hsch, hidx, hauth, hpath,
    Char.reduceToNat, Bool.false_and, Bool.not_true, Bool.false_eq_true, if_false, ne_eq,
    not_false_eq_true, decide_True, Bool.true_or, Bool.and_self, if_true, Bool.true_and]

theorem Parse_redirect (q : Bytes) (hne : q ≠ []) (h63 : 63 ∉ q) (h35 : 35 ∉ q)
    (hctl : ∀ b ∈ q, 32 ≤ b ∧ b ≠ 127) :
    Parse (ascii "https" ++ 58 :: (ascii "//redirect.example/callback" ++ 63 :: q)) =
      .ok ⟨ascii "https", [], ascii "redirect.example", ascii "/callback", false, q, []⟩ := by
  have hcut : Cut 35 (ascii "https" ++ 58 :: (ascii "//redirect.example/callback" ++ 63 :: q))
      = (ascii "https" ++ 58 :: (ascii "//redirect.example/callback" ++ 63 :: q), [], false) :=
    Cut_of_not_mem 35 _ (by
      intro m
      rcases List.mem_append.mp m with m | m
      · revert m; decide
      · rcases List.mem_cons.mp m with m | m
        · revert m; decide
        · rcases List.mem_append.mp m with m | m
          · revert m; decide
          · rcases List.mem_cons.mp m with m | m
            · revert m; decide
            · exact h35 m)
  unfold Parse
  simp only [Char.reduceToNat, hcut, parse_redirect q hne h63 hctl, if_true]

theorem Cut_rest_length (sep : Nat) (s : Bytes) (hne : s ≠ []) :
    (Cut sep s).2.1.length < s.length := by
  induction s with
  | nil => exact absurd rfl hne
  | cons c rest ih =>
    by_cases hc : c = sep
    · simp [Cut, hc]
    · cases rest with
      | nil => simp [Cut, hc]
      | cons d rest2 =>
        have := ih (by simp)
        simp only [Cut, hc, if_false, List.length_cons] at this ⊢
        omega

/-- More fuel than the length of the query does not change `parseQueryLoop`. -/
theorem parseQueryLoop_fuel (fuel : Nat) :
    ∀ (m : Values) (err : Option GoError) (query : Bytes) (extra : Nat),
      query.length ≤ fuel →
      parseQueryLoop (fuel + extra) m err query = parseQueryLoop fuel m err query := by
  induction fuel with
  | zero =>
    intro m err query extra h
    have : query = [] := List.length_eq_zero.mp (Nat.le_zero.mp h)
    subst this
    simp [parseQueryLoop_nil]
  | succ n ih =>
    intro m err query extra h
    by_cases hq : query = []
    · subst hq; simp [parseQueryLoop_nil]
    · have hlt := Cut_rest_length 38 query hq
      have hle : (Cut 38 query).2.1.length ≤ n := by omega
      have e : n + 1 + extra = (n + extra) + 1 := by omega
      rw [e]
      simp only [parseQueryLoop, hq, if_false, Char.reduceToNat]
      split
      · exact ih _ _ _ _ hle
      · split
        · exact ih _ _ _ _ hle
        · split
          · exact ih _ _ _ _ hle
          · split
            · exact ih _ _ _ _ hle
            · exact ih _ _ _ _ hle

/-- The function `main`, branch by branch. -/
theorem main_eq (w : World) (s : State) :
    main w s =
      if w.dotenv ≠ none then
        .fatal ⟨"Error loading .env file", []⟩ (s.emit .dotenvLoad)
      else if w.getenv (ascii "SPOTIFY_CLIENT_ID") = []
          ∨ w.getenv (ascii "SPOTIFY_CLIENT_SECRET") = [] then
        .fatal ⟨"Missing SPOTIFY_CLIENT_ID or SPOTIFY_CLIENT_SECRET environment variable", []⟩
          (s.emit .dotenvLoad)
      else
        match getSpotifyPlaylist w (ascii "2nSHh0BiEoRjfOAF5HXLu9") (s.emit .dotenvLoad) with
        | .fatal r s1 => .fatal r s1
        | .panic s1 => .panic s1
        | .ret (_, some e) s1 => .fatal ⟨"Error retrieving Spotify playlist: %v", [.err e]⟩ s1
        | .ret (tracks, none) s1 =>
          if (w.getenv (ascii "YOUTUBE_CREDENTIALS_JSON")).length = 0 then
            .fatal ⟨"Missing YOUTUBE_CREDENTIALS_JSON environment variable", []⟩ s1
          else
            match w.configFromJSON (w.getenv (ascii "YOUTUBE_CREDENTIALS_JSON")) with
            | .error e => .fatal ⟨"Error loading YouTube credentials: %v", [.err e]⟩ s1
            | .ok ytConfig =>
              match bootstrap w ytConfig s1 with
              | .fatal r s2 => .fatal r s2
              | .panic s2 => .panic s2
              | .ret token s2 =>
                match w.newService with
                | some e =>
                  .fatal ⟨"Error creating YouTube service: %v", [.err e]⟩
                    (s2.emit (.newClient token))
                | none =>
                  match searchLoop w 0 tracks [] (s2.emit (.newClient token)) with
                  | .fatal r s3 => .fatal r s3
                  | .panic s3 => .panic s3
                  | .ret videoIds s3 => downloadAll w videoIds s3 := by
  by_cases h1 : w.dotenv = none
  · by_cases h2 : w.getenv (ascii "SPOTIFY_CLIENT_ID") = []
        ∨ w.getenv (ascii "SPOTIFY_CLIENT_SECRET") = []
    · simp [main, h1, h2]
    · simp only [main, Proc.bind_apply, emit_apply, h1, h2, ne_eq, not_true_eq_false, if_false,
        Proc.pure_apply]
      cases hg : getSpotifyPlaylist w (ascii "2nSHh0BiEoRjfOAF5HXLu9") (s.emit .dotenvLoad) with
      | fatal r s1 => simp
      | panic s1 => simp
      | ret a s1 =>
        obtain ⟨tracks, err⟩ := a
        cases err with
        | some e => simp
        | none =>
          by_cases h3 : (w.getenv (ascii "YOUTUBE_CREDENTIALS_JSON")).length = 0
          · simp [h3]
          · cases hcfg : w.configFromJSON (w.getenv (ascii "YOUTUBE_CREDENTIALS_JSON")) with
            | error e => simp [h3, hcfg]
            | ok ytConfig =>
              cases hb : bootstrap w ytConfig s1 with
              | fatal r s2 => simp [h3, hcfg, hb]
              | panic s2 => simp [h3, hcfg, hb]
              | ret token s2 =>
                cases hsvc : w.newService with
                | some e => simp [h3, hcfg, hb, hsvc]
                | none =>
                  cases hl : searchLoop w 0 tracks [] (s2.emit (.newClient token)) with
                  | fatal r s3 => simp [h3, hcfg, hb, hsvc, hl]
                  | panic s3 => simp [h3, hcfg, hb, hsvc, hl]
                  | ret videoIds s3 => simp [h3, hcfg, hb, hsvc, hl]
  · simp [main, h1]

theorem getTokenFromWeb_searchQueries (w : World) (config : Config) (s : State) :
    searchQueries (getTokenFromWeb w config s).state.trace = searchQueries s.trace := by
  rw [getTokenFromWeb_eq]
  repeat' split
  all_goals simp [Result.state, searchQueries, promptEvent]

theorem saveToken_searchQueries (w : World) (path : Bytes) (token : Token) (s : State) :
    searchQueries (saveToken w path token s).state.trace = searchQueries s.trace := by
  rw [saveToken_eq]
  repeat' split
  all_goals simp [Result.state, searchQueries]

theorem bootstrap_searchQueries (w : World) (ytConfig : Config) (s : State) :
    searchQueries (bootstrap w ytConfig s).state.trace = searchQueries s.trace := by
  have h0 : searchQueries [Event.openFile tokenFile] = [] := rfl
  have hT := tokenFromFile_eq w tokenFile s
  generalize (match s.fs tokenFile with
    | none => ((none : Option Token), some (GoError.notExist tokenFile))
    | some data => (some (w.decode data).1, (w.decode data).2)) = p at hT
  obtain ⟨token, err⟩ := p
  cases err with
  | none =>
    simp only [bootstrap, Proc.bind_apply, hT, ne_eq, not_true_eq_false, if_false,
      Proc.pure_apply]
    simp [Result.state, h0]
  | some e =>
    simp only [bootstrap, Proc.bind_apply, hT, ne_eq, reduceCtorEq, not_false_eq_true, if_true,
      Proc.pure_apply]
    have hg := getTokenFromWeb_searchQueries w ytConfig (s.emit (.openFile tokenFile))
    cases hgw : getTokenFromWeb w ytConfig (s.emit (.openFile tokenFile)) with
    | fatal r s2 => rw [hgw] at hg; simpa [Result.state, h0] using hg
    | panic s2 => rw [hgw] at hg; simpa [Result.state, h0] using hg
    | ret tok s2 =>
      rw [hgw] at hg
      have hsv := saveToken_searchQueries w tokenFile tok s2
      simp only [Result.state] at hg
      cases hs : saveToken w tokenFile tok s2 with
      | fatal r s3 => rw [hs] at hsv; simpa [Result.state, h0, hg, hs] using hsv
      | panic s3 => rw [hs] at hsv; simpa [Result.state, h0, hg, hs] using hsv
      | ret u s3 => rw [hs] at hsv; simpa [Result.state, h0, hg, hs] using hsv

theorem downloadLoop_searchQueries (w : World) (ids : List Bytes) :
    ∀ (i : Nat) (s : State),
      searchQueries (downloadLoop w i ids s).state.trace = searchQueries s.trace := by
  induction ids with
  | nil => intro i s; rfl
  | cons id rest ih =>
    intro i s
    cases hd : (w.download i (videoURLOf id)).2 with
    | none =>
      have := ih (i + 1) (s.emit (.exec (ascii "youtube-dl") [videoURLOf id]))
      simp [downloadLoop, hd] at this ⊢
      simpa [searchQueries] using this
    | some e => simp [downloadLoop, hd, Result.state, searchQueries]

theorem downloadAll_searchQueries (w : World) (ids : List Bytes) (s : State) :
    searchQueries (downloadAll w ids s).state.trace = searchQueries s.trace := by
  have h := downloadLoop_searchQueries w ids 0 s
  simp only [downloadAll, Proc.bind_apply]
  cases hl : downloadLoop w 0 ids s with
  | fatal r s1 => rw [hl] at h; simpa [Result.state] using h
  | panic s1 => rw [hl] at h; simpa [Result.state] using h
  | ret u s1 => rw [hl] at h; simpa [Result.state, fmtPrintf, searchQueries] using h

/-- The search queries of a whole run: none, or one per track of the playlist
that was fetched. -/
theorem main_searchQueries (w : World) (s : State) :
    searchQueries (main w s).state.trace = searchQueries s.trace
      ∨ ∃ tracks s1,
          getSpotifyPlaylist w (ascii "2nSHh0BiEoRjfOAF5HXLu9") (s.emit .dotenvLoad)
            = .ret (tracks, none) s1
          ∧ searchQueries (main w s).state.trace
            = searchQueries s.trace ++ tracks.map (fun t => t.Name ++ [32] ++ t.Artist) := by
  have hE : searchQueries [Event.dotenvLoad] = [] := rfl
  rw [main_eq]
  by_cases h1 : w.dotenv = none
  swap
  · left; simp [h1, Result.state, hE]
  by_cases h2 : w.getenv (ascii "SPOTIFY_CLIENT_ID") = []
      ∨ w.getenv (ascii "SPOTIFY_CLIENT_SECRET") = []
  · left; simp [h1, h2, Result.state, hE]
  simp only [h1, h2, ne_eq, not_true_eq_false, if_false]
  have hst := getSpotifyPlaylist_state w (ascii "2nSHh0BiEoRjfOAF5HXLu9") (s.emit .dotenvLoad)
  cases hg : getSpotifyPlaylist w (ascii "2nSHh0BiEoRjfOAF5HXLu9") (s.emit .dotenvLoad) with
  | fatal r s1 => exact absurd hg (getSpotifyPlaylist_not_fatal _ _ _ _ _)
  | panic s1 =>
    rw [hg] at hst; simp only [Result.state] at hst; subst hst
    left; simp [Result.state, searchQueries]
  | ret a s1 =>
    rw [hg] at hst; simp only [Result.state] at hst
    have hs1 : searchQueries s1.trace = searchQueries s.trace := by
      rw [hst]; simp [searchQueries]
    obtain ⟨tracks, err⟩ := a
    cases err with
    | some e => left; simpa [Result.state] using hs1
    | none =>
      by_cases h3 : (w.getenv (ascii "YOUTUBE_CREDENTIALS_JSON")).length = 0
      · left; simpa [h3, Result.state] using hs1
      simp only [h3, if_false]
      cases hcfg : w.configFromJSON (w.getenv (ascii "YOUTUBE_CREDENTIALS_JSON")) with
      | error e => left; simpa [Result.state] using hs1
      | ok ytConfig =>
        have hb := bootstrap_searchQueries w ytConfig s1
        cases hbs : bootstrap w ytConfig s1 with
        | fatal r s2 =>
          rw [hbs] at hb; simp only [Result.state] at hb
          left; simp only [hbs, Result.state]; rw [hb, hs1]
        | panic s2 =>
          rw [hbs] at hb; simp only [Result.state] at hb
          left; simp only [hbs, Result.state]; rw [hb, hs1]
        | ret token s2 =>
          rw [hbs] at hb
          simp only [Result.state] at hb
          have hN : searchQueries [Event.newClient token] = [] := rfl
          have hs2 : searchQueries (s2.emit (.newClient token)).trace = searchQueries s.trace := by
            rw [State.emit_trace, searchQueries_append, hN, hb, hs1, List.append_nil]
          cases hsvc : w.newService with
          | some e => left; simp only [hbs, hsvc, Result.state]; exact hs2
          | none =>
            right
            refine ⟨tracks, s1, rfl, ?_⟩
            obtain ⟨s3, hl, _, hq⟩ := searchLoop_spec w tracks 0 [] (s2.emit (.newClient token))
            rw [List.nil_append] at hl
            simp only [hbs, hsvc, hl]
            rw [downloadAll_searchQueries, hq, hs2]

theorem searchLoop_trace (w : World) (tracks : List TrackInfo) :
    ∀ (i : Nat) (videoIds : List Bytes) (s : State),
      ∃ rest, (searchLoop w i tracks videoIds s).state.trace = s.trace ++ rest := by
  induction tracks with
  | nil => intro i ids s; exact ⟨[], by simp [searchLoop, Result.state]⟩
  | cons t rest ih =>
    intro i ids s
    cases hv : (searchYouTubeVideoValue w i (queryOf t)) with
    | mk vid err =>
    cases err with
    | none =>
      obtain ⟨r, hr⟩ := ih (i + 1) (ids ++ [vid]) (s.emit (.search (queryOf t)))
      refine ⟨Event.search (queryOf t) :: r, ?_⟩
      simp only [searchLoop, searchYouTubeVideo, Proc.bind_apply, hv]
      rw [hr]; simp
    | some e =>
      obtain ⟨r, hr⟩ := ih (i + 1) ids
        ((s.emit (.search (queryOf t))).emit (.logPrintf ⟨"Error searching YouTube for %s by %s: %v",
          [.str t.Name, .str t.Artist, .err e]⟩))
      refine ⟨Event.search (queryOf t)
        :: Event.logPrintf ⟨"Error searching YouTube for %s by %s: %v",
          [.str t.Name, .str t.Artist, .err e]⟩ :: r, ?_⟩
      simp only [searchLoop, searchYouTubeVideo, Proc.bind_apply, hv, logPrintf, emit_apply]
      rw [hr]; simp

theorem downloadLoop_trace (w : World) (ids : List Bytes) :
    ∀ (i : Nat) (s : State),
      ∃ rest, (downloadLoop w i ids s).state.trace = s.trace ++ rest := by
  induction ids with
  | nil => intro i s; exact ⟨[], by simp [downloadLoop, Result.state]⟩
  | cons id rest ih =>
    intro i s
    cases hd : (w.download i (videoURLOf id)).2 with
    | none =>
      obtain ⟨r, hr⟩ := ih (i + 1) (s.emit (.exec (ascii "youtube-dl") [videoURLOf id]))
      refine ⟨Event.exec (ascii "youtube-dl") [videoURLOf id] :: r, ?_⟩
      simp [downloadLoop, hd] at hr ⊢
      rw [hr]
    | some e =>
      exact ⟨[Event.exec (ascii "youtube-dl") [videoURLOf id]],
        by simp [downloadLoop, hd, Result.state]⟩

theorem downloadAll_trace (w : World) (ids : List Bytes) (s : State) :
    ∃ rest, (downloadAll w ids s).state.trace = s.trace ++ rest := by
  obtain ⟨r, hr⟩ := downloadLoop_trace w ids 0 s
  simp only [downloadAll, Proc.bind_apply]
  cases hl : downloadLoop w 0 ids s with
  | fatal x s1 => rw [hl] at hr; exact ⟨r, by simpa [Result.state] using hr⟩
  | panic s1 => rw [hl] at hr; exact ⟨r, by simpa [Result.state] using hr⟩
  | ret u s1 =>
    rw [hl] at hr
    simp only [Result.state] at hr
    exact ⟨r ++ [Event.stdout ⟨"YouTube playlist created successfully!\n", []⟩],
      by simp [Result.state, fmtPrintf, hr]⟩

/-- A cached token is returned as it is, after the file has been opened. -/
theorem bootstrap_cached (w : World) (ytConfig : Config) (s : State)
    (token : Option Token) (s1 : State)
    (h : tokenFromFile w tokenFile s = .ret (token, none) s1) :
    bootstrap w ytConfig s = .ret token ⟨s.fs, s.trace ++ [.openFile tokenFile]⟩ := by
  simp [bootstrap, h]
  rw [tokenFromFile_eq] at h
  injection h with _ h2
  rw [← h2]; rfl

/-- A run of `main` that gets to the bootstrap with a cached token goes on
with that token. -/
theorem main_trace_cached (w : World) (s : State) (tracks : List TrackInfo) (s1 : State)
    (ytConfig : Config) (token : Option Token) (s2 : State)
    (hd : w.dotenv = none)
    (h1 : w.getenv (ascii "SPOTIFY_CLIENT_ID") ≠ [])
    (h2 : w.getenv (ascii "SPOTIFY_CLIENT_SECRET") ≠ [])
    (hg : getSpotifyPlaylist w (ascii "2nSHh0BiEoRjfOAF5HXLu9") (s.emit .dotenvLoad)
      = .ret (tracks, none) s1)
    (h3 : w.getenv (ascii "YOUTUBE_CREDENTIALS_JSON") ≠ [])
    (hcfg : w.configFromJSON (w.getenv (ascii "YOUTUBE_CREDENTIALS_JSON")) = .ok ytConfig)
    (ht : tokenFromFile w tokenFile s1 = .ret (token, none) s2) :
    ∃ rest, (main w s).state.trace
      = s1.trace ++ [.openFile tokenFile, .newClient token] ++ rest := by
  have hb := bootstrap_cached w ytConfig s1 token s2 ht
  have h3' : ¬ (w.getenv (ascii "YOUTUBE_CREDENTIALS_JSON")).length = 0 := by
    simpa [List.length_eq_zero] using h3
  rw [main_eq]
  simp only [hd, h1, h2, hg, h3', hcfg, hb, ne_eq, not_true_eq_false, if_false, or_self]
  cases hsvc : w.newService with
  | some e => exact ⟨[], by simp [Result.state]⟩
  | none =>
    simp only []
    obtain ⟨r1, hr1⟩ := searchLoop_trace w tracks 0 []
      (State.emit ⟨s1.fs, s1.trace ++ [.openFile tokenFile]⟩ (.newClient token))
    cases hl : searchLoop w 0 tracks []
        (State.emit ⟨s1.fs, s1.trace ++ [.openFile tokenFile]⟩ (.newClient token)) with
    | fatal x s3 => rw [hl] at hr1; exact ⟨r1, by simpa [Result.state] using hr1⟩
    | panic s3 => rw [hl] at hr1; exact ⟨r1, by simpa [Result.state] using hr1⟩
    | ret ids s3 =>
      rw [hl] at hr1
      simp only [Result.state] at hr1
      obtain ⟨r2, hr2⟩ := downloadAll_trace w ids s3
      exact ⟨r1 ++ r2, by simp [hr2, hr1]⟩

/-! ## `encoding/json` and `time`: what is written is read back -/

/-- The shape of a valid sequence of several bytes. -/
theorem DecodeRune_cases (p0 : Nat) (rest : Bytes) (hb : 0x80 ≤ p0)
    (hv : ¬ ((DecodeRune (p0 :: rest)).1 = RuneError ∧ (DecodeRune (p0 :: rest)).2 = 1)) :
    (∃ b1 rest1, rest = b1 :: rest1 ∧ 0xC2 ≤ p0 ∧ p0 ≤ 0xDF ∧ 0x80 ≤ b1 ∧ b1 ≤ 0xBF
        ∧ ∀ t, DecodeRune (p0 :: b1 :: t) = ((p0 % 32) * 64 + b1 % 64, 2))
    ∨ (∃ b1 b2 rest2, rest = b1 :: b2 :: rest2 ∧ 0xE0 ≤ p0 ∧ p0 ≤ 0xEF
        ∧ 0x80 ≤ b1 ∧ b1 ≤ 0xBF ∧ (p0 = 0xE0 → 0xA0 ≤ b1) ∧ (p0 = 0xED → b1 ≤ 0x9F)
        ∧ 0x80 ≤ b2 ∧ b2 ≤ 0xBF
        ∧ ∀ t, DecodeRune (p0 :: b1 :: b2 :: t)
          = ((p0 % 16) * 4096 + (b1 % 64) * 64 + b2 % 64, 3))
    ∨ (∃ b1 b2 b3 rest3, rest = b1 :: b2 :: b3 :: rest3 ∧ 0xF0 ≤ p0 ∧ p0 ≤ 0xF4
        ∧ 0x80 ≤ b1 ∧ b1 ≤ 0xBF ∧ (p0 = 0xF0 → 0x90 ≤ b1) ∧ (p0 = 0xF4 → b1 ≤ 0x8F)
        ∧ 0x80 ≤ b2 ∧ b2 ≤ 0xBF ∧ 0x80 ≤ b3 ∧ b3 ≤ 0xBF
        ∧ ∀ t, DecodeRune (p0 :: b1 :: b2 :: b3 :: t)
          = ((p0 % 8) * 262144 + (b1 % 64) * 4096 + (b2 % 64) * 64 + b3 % 64, 4)) := by
  have hnot : ¬ p0 < 0x80 := by omega
  cases hf : firstEntry p0 with
  | none =>
    exfalso; apply hv
    simp [DecodeRune, hnot, hf]
  | some e =>
    obtain ⟨sz, lo, hi⟩ := e
    have hfacts : (sz = 2 ∧ 0xC2 ≤ p0 ∧ p0 ≤ 0xDF ∧ lo = 0x80 ∧ hi = 0xBF)
        ∨ (sz = 3 ∧ 0xE0 ≤ p0 ∧ p0 ≤ 0xEF ∧ 0x80 ≤ lo ∧ hi ≤ 0xBF
            ∧ (p0 = 0xE0 → lo = 0xA0) ∧ (p0 = 0xED → hi = 0x9F))
        ∨ (sz = 4 ∧ 0xF0 ≤ p0 ∧ p0 ≤ 0xF4 ∧ 0x80 ≤ lo ∧ hi ≤ 0xBF
            ∧ (p0 = 0xF0 → lo = 0x90) ∧ (p0 = 0xF4 → hi = 0x8F)) := by
      unfold firstEntry at hf
      split_ifs at hf <;> simp only [Option.some.injEq, Prod.mk.injEq, reduceCtorEq] at hf
        <;> obtain ⟨h1, h2, h3⟩ := hf <;> subst h1 h2 h3 <;> omega
    cases rest with
    | nil =>
      exfalso; apply hv
      simp [DecodeRune, hnot, hf]
    | cons b1 rest1 =>
      by_cases hb1 : b1 < lo ∨ hi < b1
      · exfalso; apply hv
        simp [DecodeRune, hnot, hf, hb1]
      rcases hfacts with ⟨hsz, h1, h2, hlo, hhi⟩ | ⟨hsz, h1, h2, hlo, hhi, hE0, hED⟩
          | ⟨hsz, h1, h2, hlo, hhi, hF0, hF4⟩
      · left
        refine ⟨b1, rest1, rfl, h1, h2, by omega, by omega, ?_⟩
        intro t
        simp [DecodeRune, hnot, hf, hb1, hsz]
      · right; left
        cases rest1 with
        | nil =>
          exfalso; apply hv
          simp [DecodeRune, hnot, hf, hsz]
        | cons b2 rest2 =>
          by_cases hb2 : b2 < 0x80 ∨ 0xBF < b2
          · exfalso; apply hv
            simp [DecodeRune, hnot, hf, hb1, hsz, hb2]
          refine ⟨b1, b2, rest2, rfl, h1, h2, by omega, by omega, ?_, ?_, by omega, by omega, ?_⟩
          · intro h; have := hE0 h; omega
          · intro h; have := hED h; omega
          · intro t
            simp [DecodeRune, hnot, hf, hb1, hsz, hb2]
      · right; right
        cases rest1 with
        | nil =>
          exfalso; apply hv
          simp [DecodeRune, hnot, hf, hsz]
        | cons b2 rest2 =>
          by_cases hb2 : b2 < 0x80 ∨ 0xBF < b2
          · exfalso; apply hv
            simp [DecodeRune, hnot, hf, hb1, hsz, hb2]
          cases rest2 with
          | nil =>
            exfalso; apply hv
            simp [DecodeRune, hnot, hf, hsz]
          | cons b3 rest3 =>
            by_cases hb3 : b3 < 0x80 ∨ 0xBF < b3
            · exfalso; apply hv
              simp [DecodeRune, hnot, hf, hb1, hsz, hb2, hb3]
            refine ⟨b1, b2, b3, rest3, rfl, h1, h2, by omega, by omega, ?_, ?_,
              by omega, by omega, by omega, by omega, ?_⟩
            · intro h; have := hF0 h; omega
            · intro h; have := hF4 h; omega
            · intro t
              simp [DecodeRune, hnot, hf, hb1, hsz, hb2, hb3]


/-- What a valid sequence of several bytes is like: its size, its bytes, and
that encoding its rune gives the bytes back. -/
theorem DecodeRune_valid (p0 : Nat) (rest : Bytes) (hb : 0x80 ≤ p0)
    (hv : ¬ ((DecodeRune (p0 :: rest)).1 = RuneError ∧ (DecodeRune (p0 :: rest)).2 = 1)) :
    1 ≤ (DecodeRune (p0 :: rest)).2
      ∧ (DecodeRune (p0 :: rest)).2 ≤ (p0 :: rest).length
      ∧ (∀ x ∈ (p0 :: rest).take (DecodeRune (p0 :: rest)).2, 0x80 ≤ x)
      ∧ EncodeRune (DecodeRune (p0 :: rest)).1 = (p0 :: rest).take (DecodeRune (p0 :: rest)).2
      ∧ (∀ t, DecodeRune ((p0 :: rest).take (DecodeRune (p0 :: rest)).2 ++ t)
          = DecodeRune (p0 :: rest)) := by
  rcases DecodeRune_cases p0 rest hb hv with
    ⟨b1, rest1, hr, h1, h2, h3, h4, hd⟩
    | ⟨b1, b2, rest2, hr, h1, h2, h3, h4, h5, h6, h7, h8, hd⟩
    | ⟨b1, b2, b3, rest3, hr, h1, h2, h3, h4, h5, h6, h7, h8, h9, h10, hd⟩
  · subst hr
    rw [hd rest1]
    refine ⟨by simp, by simp, ?_, ?_, ?_⟩
    · intro x hx
      simp at hx
      rcases hx with rfl | rfl <;> omega
    · have e1 : ¬ (p0 % 32 * 64 + b1 % 64 ≤ 127) := by omega
      have e2 : p0 % 32 * 64 + b1 % 64 ≤ 2047 := by omega
      simp only [EncodeRune, e1, e2, if_false, if_true, List.take_succ_cons, List.take_zero]
      congr 1
      · omega
      · congr 1; omega
    · intro t
      simpa using hd t
  · subst hr
    rw [hd rest2]
    refine ⟨by simp, by simp, ?_, ?_, ?_⟩
    · intro x hx
      simp at hx
      rcases hx with rfl | rfl | rfl <;> omega
    · have hE0 : p0 = 224 → 160 ≤ b1 := h5
      have hED : p0 = 237 → b1 ≤ 159 := h6
      have e1 : ¬ (p0 % 16 * 4096 + b1 % 64 * 64 + b2 % 64 ≤ 127) := by omega
      have e2 : ¬ (p0 % 16 * 4096 + b1 % 64 * 64 + b2 % 64 ≤ 2047) := by
        by_cases h : p0 = 224
        · have := hE0 h; omega
        · omega
      have e3 : ¬ (p0 % 16 * 4096 + b1 % 64 * 64 + b2 % 64 > 1114111
          ∨ (55296 ≤ p0 % 16 * 4096 + b1 % 64 * 64 + b2 % 64
            ∧ p0 % 16 * 4096 + b1 % 64 * 64 + b2 % 64 ≤ 57343)) := by
        by_cases h : p0 = 237
        · have := hED h; omega
        · omega
      have e4 : p0 % 16 * 4096 + b1 % 64 * 64 + b2 % 64 ≤ 65535 := by omega
      simp only [EncodeRune, e1, e2, e3, e4, if_false, if_true, List.take_succ_cons,
        List.take_zero]
      congr 1
      · omega
      · congr 1
        · omega
        · congr 1; omega
    · intro t
      simpa using hd t
  · subst hr
    rw [hd rest3]
    refine ⟨by simp, by simp, ?_, ?_, ?_⟩
    · intro x hx
      simp at hx
      rcases hx with rfl | rfl | rfl | rfl <;> omega
    · have hF0 : p0 = 240 → 144 ≤ b1 := h5
      have hF4 : p0 = 244 → b1 ≤ 143 := h6
      have e1 : ¬ (p0 % 8 * 262144 + b1 % 64 * 4096 + b2 % 64 * 64 + b3 % 64 ≤ 127) := by
        by_cases h : p0 = 240
        · have := hF0 h; omega
        · omega
      have e2 : ¬ (p0 % 8 * 262144 + b1 % 64 * 4096 + b2 % 64 * 64 + b3 % 64 ≤ 2047) := by
        by_cases h : p0 = 240
        · have := hF0 h; omega
        · omega
      have e4 : ¬ (p0 % 8 * 262144 + b1 % 64 * 4096 + b2 % 64 * 64 + b3 % 64 ≤ 65535) := by
        by_cases h : p0 = 240
        · have := hF0 h; omega
        · omega
      have e3 : ¬ (p0 % 8 * 262144 + b1 % 64 * 4096 + b2 % 64 * 64 + b3 % 64 > 1114111
          ∨ (55296 ≤ p0 % 8 * 262144 + b1 % 64 * 4096 + b2 % 64 * 64 + b3 % 64
            ∧ p0 % 8 * 262144 + b1 % 64 * 4096 + b2 % 64 * 64 + b3 % 64 ≤ 57343)) := by
        by_cases h : p0 = 244
        · have := hF4 h; omega
        · omega
      simp only [EncodeRune, e1, e2, e3, e4, if_false, List.take_succ_cons, List.take_zero]
      congr 1
      · omega
      · congr 1
        · omega
        · congr 1
          · omega
          · congr 1; omega
    · intro t
      simpa using hd t

theorem unquoteLoop_nil (m : Nat) : unquoteLoop m [] = some [] := by
  cases m <;> simp [unquoteLoop]

theorem hexValue_hexDigit (n : Nat) (h : n < 16) : hexValue (hexDigit n) = some n := by
  have : ∀ k < 16, hexValue (hexDigit k) = some k := by decide
  exact this n h

theorem validLoop_next (n : Nat) (b : Nat) (rest : Bytes)
    (h : validLoop (n + 1) (b :: rest) = true) :
    ¬ ((DecodeRune (b :: rest)).1 = RuneError ∧ (DecodeRune (b :: rest)).2 = 1)
      ∧ validLoop n ((b :: rest).drop (DecodeRune (b :: rest)).2) = true := by
  unfold validLoop at h
  split_ifs at h with hc
  exact ⟨hc, h⟩

theorem DecodeRune_ascii (b : Nat) (rest : Bytes) (h : b < 0x80) :
    DecodeRune (b :: rest) = (b, 1) := by
  simp [DecodeRune, h]

/-- Unquoting what `appendString` wrote for valid UTF-8 gives the text back. -/
theorem unquoteLoop_appendStringLoop (n : Nat) :
    ∀ (s : Bytes) (m : Nat), s.length ≤ n → validLoop n s = true →
      (appendStringLoop n s).length ≤ m →
      unquoteLoop m (appendStringLoop n s) = some s := by
  induction n with
  | zero =>
    intro s m hl _ _
    have : s = [] := List.length_eq_zero.mp (Nat.le_zero.mp hl)
    subst this
    simp [appendStringLoop, unquoteLoop_nil]
  | succ n ih =>
    intro s m hl hv hm
    cases s with
    | nil => simp [appendStringLoop, unquoteLoop_nil]
    | cons b rest =>
      obtain ⟨hne, hvn⟩ := validLoop_next n b rest hv
      have hlr : rest.length ≤ n := by simpa using hl
      by_cases hb : b < 0x80
      · -- one ASCII byte
        rw [DecodeRune_ascii b rest hb] at hvn
        have hvr : validLoop n rest = true := by simpa using hvn
        by_cases hs : htmlSafe b = true
        · have he : appendStringLoop (n + 1) (b :: rest) = b :: appendStringLoop n rest := by
            simp [appendStringLoop, hb, hs]
          rw [he] at hm ⊢
          obtain ⟨m1, rfl⟩ : ∃ m1, m = m1 + 1 := ⟨m - 1, by simp at hm; omega⟩
          have hm1 : (appendStringLoop n rest).length ≤ m1 := by simpa using hm
          have hsafe : 0x20 ≤ b ∧ b ≠ 34 ∧ b ≠ 92 := by
            simp [htmlSafe] at hs; omega
          have c1 : ¬ b = 92 := hsafe.2.2
          have c2 : ¬ (b = 34 ∨ b < 0x20) := by omega
          simp [unquoteLoop, c1, c2, hb, ih rest m1 hlr hvr hm1]
        · by_cases h1 : b = 92 ∨ b = 34
          · have he : appendStringLoop (n + 1) (b :: rest)
                = 92 :: b :: appendStringLoop n rest := by
              simp [appendStringLoop, hb, hs, h1]
            rw [he] at hm ⊢
            obtain ⟨m1, rfl⟩ : ∃ m1, m = m1 + 1 := ⟨m - 1, by simp at hm; omega⟩
            have hm1 : (appendStringLoop n rest).length ≤ m1 := by simp at hm; omega
            have c1 : b = 34 ∨ b = 92 ∨ b = 47 ∨ b = 39 := by omega
            simp [unquoteLoop, c1, ih rest m1 hlr hvr hm1]
          · by_cases h2 : b = 10
            · subst h2
              have he : appendStringLoop (n + 1) (10 :: rest)
                  = 92 :: 110 :: appendStringLoop n rest := by
                simp [appendStringLoop, htmlSafe]
              rw [he] at hm ⊢
              obtain ⟨m1, rfl⟩ : ∃ m1, m = m1 + 1 := ⟨m - 1, by simp at hm; omega⟩
              have hm1 : (appendStringLoop n rest).length ≤ m1 := by simp at hm; omega
              simp [unquoteLoop, ih rest m1 hlr hvr hm1]
            · by_cases h3 : b = 13
              · subst h3
                have he : appendStringLoop (n + 1) (13 :: rest)
                    = 92 :: 114 :: appendStringLoop n rest := by
                  simp [appendStringLoop, htmlSafe]
                rw [he] at hm ⊢
                obtain ⟨m1, rfl⟩ : ∃ m1, m = m1 + 1 := ⟨m - 1, by simp at hm; omega⟩
                have hm1 : (appendStringLoop n rest).length ≤ m1 := by simp at hm; omega
                simp [unquoteLoop, ih rest m1 hlr hvr hm1]
              · by_cases h4 : b = 9
                · subst h4
                  have he : appendStringLoop (n + 1) (9 :: rest)
                      = 92 :: 116 :: appendStringLoop n rest := by
                    simp [appendStringLoop, htmlSafe]
                  rw [he] at hm ⊢
                  obtain ⟨m1, rfl⟩ : ∃ m1, m = m1 + 1 := ⟨m - 1, by simp at hm; omega⟩
                  have hm1 : (appendStringLoop n rest).length ≤ m1 := by simp at hm; omega
                  simp [unquoteLoop, ih rest m1 hlr hvr hm1]
                · have he : appendStringLoop (n + 1) (b :: rest)
                      = 92 :: 117 :: 48 :: 48 :: hexDigit (b / 16) :: hexDigit (b % 16)
                        :: appendStringLoop n rest := by
                    simp [appendStringLoop, hb, hs, h1, h2, h3, h4]
                  rw [he] at hm ⊢
                  obtain ⟨m1, rfl⟩ : ∃ m1, m = m1 + 1 := ⟨m - 1, by simp at hm; omega⟩
                  have hm1 : (appendStringLoop n rest).length ≤ m1 := by simp at hm; omega
                  have g1 := hexValue_hexDigit (b / 16) (by omega)
                  have g2 := hexValue_hexDigit (b % 16) (by omega)
                  have g0 : hexValue 48 = some 0 := by decide
                  have hg : getu4 (92 :: 117 :: 48 :: 48 :: hexDigit (b / 16)
                      :: hexDigit (b % 16) :: appendStringLoop n rest) = some b := by
                    simp only [getu4, g0, g1, g2]
                    congr 1; omega
                  have hsur : ¬ (0xD800 ≤ b ∧ b < 0xE000) := by omega
                  have henc : EncodeRune b = [b] := by
                    have : b ≤ 0x7F := by omega
                    simp [EncodeRune, this]
                  simp [unquoteLoop, hg, hsur, henc, ih rest m1 hlr hvr hm1]
      · -- a sequence of several bytes
        obtain ⟨hsz, hszl, hbytes, henc, hdec⟩ := DecodeRune_valid b rest (by omega) hne
        have hdl : ((b :: rest).drop (DecodeRune (b :: rest)).2).length ≤ n := by
          simp only [List.length_drop, List.length_cons]
          simp only [List.length_cons] at hl
          omega
        have hsplit : (b :: rest).take (DecodeRune (b :: rest)).2
            ++ (b :: rest).drop (DecodeRune (b :: rest)).2 = b :: rest :=
          List.take_append_drop _ _
        by_cases hls : (DecodeRune (b :: rest)).1 = 0x2028 ∨ (DecodeRune (b :: rest)).1 = 0x2029
        · have he : appendStringLoop (n + 1) (b :: rest)
              = 92 :: 117 :: 50 :: 48 :: 50 :: hexDigit ((DecodeRune (b :: rest)).1 % 16)
                :: appendStringLoop n ((b :: rest).drop (DecodeRune (b :: rest)).2) := by
            simp [appendStringLoop, hb, hne, hls]
          rw [he] at hm ⊢
          obtain ⟨m1, rfl⟩ : ∃ m1, m = m1 + 1 := ⟨m - 1, by simp at hm; omega⟩
          have hm1 : (appendStringLoop n ((b :: rest).drop (DecodeRune (b :: rest)).2)).length
              ≤ m1 := by simp at hm; omega
          have g2 := hexValue_hexDigit ((DecodeRune (b :: rest)).1 % 16) (by omega)
          have g50 : hexValue 50 = some 2 := by decide
          have g48 : hexValue 48 = some 0 := by decide
          have hg : getu4 (92 :: 117 :: 50 :: 48 :: 50
              :: hexDigit ((DecodeRune (b :: rest)).1 % 16)
              :: appendStringLoop n ((b :: rest).drop (DecodeRune (b :: rest)).2))
              = some (DecodeRune (b :: rest)).1 := by
            simp only [getu4, g50, g48, g2]
            congr 1
            rcases hls with h | h <;> rw [h]
          have hsur : ¬ (0xD800 ≤ (DecodeRune (b :: rest)).1
              ∧ (DecodeRune (b :: rest)).1 < 0xE000) := by
            rcases hls with h | h <;> rw [h] <;> omega
          have := ih _ m1 hdl hvn hm1
          simp only [unquoteLoop, hg, hsur, this, henc, hsplit, Option.map_some', if_false,
            Char.reduceToNat]
          simp [hsplit]
          exact ⟨_, this, hsplit⟩
        · have he : appendStringLoop (n + 1) (b :: rest)
              = (b :: rest).take (DecodeRune (b :: rest)).2
                ++ appendStringLoop n ((b :: rest).drop (DecodeRune (b :: rest)).2) := by
            simp [appendStringLoop, hb, hne, hls]
          rw [he] at hm ⊢
          obtain ⟨k, hk⟩ : ∃ k, (DecodeRune (b :: rest)).2 = k + 1 :=
            ⟨(DecodeRune (b :: rest)).2 - 1, by omega⟩
          have htk : (b :: rest).take (DecodeRune (b :: rest)).2 = b :: rest.take k := by
            rw [hk]; rfl
          have hlen : ((b :: rest).take (DecodeRune (b :: rest)).2).length
              = (DecodeRune (b :: rest)).2 := by
            simp only [List.length_take]; omega
          obtain ⟨m1, rfl⟩ : ∃ m1, m = m1 + 1 :=
            ⟨m - 1, by simp only [List.length_append, hlen] at hm; omega⟩
          have hm1 : (appendStringLoop n ((b :: rest).drop (DecodeRune (b :: rest)).2)).length
              ≤ m1 := by simp only [List.length_append, hlen] at hm; omega
          have hd2 := hdec (appendStringLoop n ((b :: rest).drop (DecodeRune (b :: rest)).2))
          have hdrop : ((b :: rest).take (DecodeRune (b :: rest)).2
              ++ appendStringLoop n ((b :: rest).drop (DecodeRune (b :: rest)).2)).drop
                (DecodeRune (b :: rest)).2
              = appendStringLoop n ((b :: rest).drop (DecodeRune (b :: rest)).2) := by
            rw [List.drop_append_of_le_length (by omega), List.drop_of_length_le (by omega)]
            simp
          have := ih _ m1 hdl hvn hm1
          rw [htk] at hd2 hdrop ⊢
          have c1 : ¬ b = 92 := by omega
          have c2 : ¬ (b = 34 ∨ b < 0x20) := by omega
          simp only [List.cons_append] at hd2 hdrop ⊢
          simp only [unquoteLoop, c1, c2, hb, if_false, hd2, hdrop, this, Option.map_some', henc,
            hsplit]

theorem drop_append_of_length (p q : Bytes) (d i : Nat) (h : p.length = d) :
    (p ++ q).drop (d + i) = q.drop i := by
  subst h; exact List.drop_append i

theorem take_append_of_length (p q : Bytes) (d i : Nat) (h : p.length = d) :
    (p ++ q).take (d + i) = p ++ q.take i := by
  subst h; exact List.take_append i

theorem appendStringLoop_nil (n : Nat) : appendStringLoop n [] = [] := by
  cases n <;> rfl

theorem unquoteWith_nil (k m : Nat) : unquoteWith k m [] = some [] := by
  cases k <;> simp [unquoteWith, cleanLen]

/-- The first byte of what `appendString` writes for a byte that is not
written as it is. -/
theorem appendStringLoop_escape (n b : Nat) (rest : Bytes) (hb : b < 0x80)
    (hs : ¬ htmlSafe b = true) :
    ∃ tail, appendStringLoop (n + 1) (b :: rest) = 92 :: tail := by
  unfold appendStringLoop
  rw [if_pos hb, if_neg hs]
  split_ifs <;> exact ⟨_, rfl⟩

theorem unquoteWith_escape (k m : Nat) (tail : Bytes) :
    unquoteWith k m (92 :: tail) = unquoteLoop m (92 :: tail) := by
  have h0 : cleanLen k (92 :: tail) = 0 := by
    cases k <;> simp [cleanLen]
  simp [unquoteWith, h0]

/-- Unquoting what `appendString` wrote for valid UTF-8 gives the text back,
whatever fuel is left. -/
theorem unquoteWith_appendStringLoop (n : Nat) :
    ∀ (s : Bytes) (k m : Nat), s.length ≤ n → validLoop n s = true →
      (appendStringLoop n s).length ≤ k → (appendStringLoop n s).length ≤ m →
      unquoteWith k m (appendStringLoop n s) = some s := by
  induction n with
  | zero =>
    intro s k m hl _ _ _
    have : s = [] := List.length_eq_zero.mp (Nat.le_zero.mp hl)
    subst this
    simp [appendStringLoop, unquoteWith_nil]
  | succ n ih =>
    intro s k m hl hv hk hm
    cases s with
    | nil => simp [appendStringLoop, unquoteWith_nil]
    | cons b rest =>
      have hloop := unquoteLoop_appendStringLoop (n + 1) (b :: rest) m hl hv hm
      obtain ⟨hne, hvn⟩ := validLoop_next n b rest hv
      have hlr : rest.length ≤ n := by simpa using hl
      by_cases hb : b < 0x80
      · rw [DecodeRune_ascii b rest hb] at hvn
        have hvr : validLoop n rest = true := by simpa using hvn
        by_cases hs : htmlSafe b = true
        · have he : appendStringLoop (n + 1) (b :: rest) = b :: appendStringLoop n rest := by
            simp [appendStringLoop, hb, hs]
          rw [he] at hk hm ⊢
          obtain ⟨k1, rfl⟩ : ∃ k1, k = k1 + 1 := ⟨k - 1, by simp at hk; omega⟩
          have hk1 : (appendStringLoop n rest).length ≤ k1 := by simpa using hk
          have hm1 : (appendStringLoop n rest).length ≤ m := by simp at hm; omega
          have hsafe : 0x20 ≤ b ∧ b ≠ 34 ∧ b ≠ 92 := by
            simp [htmlSafe] at hs; omega
          have c1 : ¬ (b = 92 ∨ b = 34 ∨ b < 0x20) := by omega
          have hcl : cleanLen (k1 + 1) (b :: appendStringLoop n rest)
              = 1 + cleanLen k1 (appendStringLoop n rest) := by
            simp [cleanLen, c1, hb]
          have := ih rest k1 m hlr hvr hk1 hm1
          unfold unquoteWith at this ⊢
          rw [hcl]
          by_cases hall : cleanLen k1 (appendStringLoop n rest) = (appendStringLoop n rest).length
          · simp only [hall, if_true, Option.some.injEq] at this
            have hx : 1 + cleanLen k1 (appendStringLoop n rest)
                = (b :: appendStringLoop n rest).length := by
              simp only [List.length_cons]; omega
            rw [if_pos hx, this]
          · have hx : ¬ (1 + cleanLen k1 (appendStringLoop n rest)
                = (b :: appendStringLoop n rest).length) := by
              simp only [List.length_cons]; omega
            simp only [hall, if_false] at this
            rw [if_neg hx]
            simp only [Nat.add_comm 1, List.drop_succ_cons, List.take_succ_cons,
              List.cons_append]
            cases hu : unquoteLoop m (List.drop (cleanLen k1 (appendStringLoop n rest))
                (appendStringLoop n rest)) with
            | none => rw [hu] at this; simp at this
            | some a =>
              rw [hu] at this
              simp only [Option.map_some', Option.some.injEq] at this
              simp only [Option.map_some', List.cons_append, this]
        · obtain ⟨tail, ht⟩ := appendStringLoop_escape n b rest hb hs
          rw [ht, unquoteWith_escape, ← ht]
          exact hloop
      · obtain ⟨hsz, hszl, hbytes, henc, hdec⟩ := DecodeRune_valid b rest (by omega) hne
        have hdl : ((b :: rest).drop (DecodeRune (b :: rest)).2).length ≤ n := by
          simp only [List.length_drop, List.length_cons]
          simp only [List.length_cons] at hl
          omega
        have hsplit : (b :: rest).take (DecodeRune (b :: rest)).2
            ++ (b :: rest).drop (DecodeRune (b :: rest)).2 = b :: rest :=
          List.take_append_drop _ _
        by_cases hls : (DecodeRune (b :: rest)).1 = 0x2028 ∨ (DecodeRune (b :: rest)).1 = 0x2029
        · have he : ∃ tail, appendStringLoop (n + 1) (b :: rest) = 92 :: tail := by
            unfold appendStringLoop
            rw [if_neg hb, if_neg hne, if_pos hls]
            exact ⟨_, rfl⟩
          obtain ⟨tail, ht⟩ := he
          rw [ht, unquoteWith_escape, ← ht]
          exact hloop
        · have he : appendStringLoop (n + 1) (b :: rest)
              = (b :: rest).take (DecodeRune (b :: rest)).2
                ++ appendStringLoop n ((b :: rest).drop (DecodeRune (b :: rest)).2) := by
            simp [appendStringLoop, hb, hne, hls]
          rw [he] at hk hm ⊢
          obtain ⟨j, hj⟩ : ∃ j, (DecodeRune (b :: rest)).2 = j + 1 :=
            ⟨(DecodeRune (b :: rest)).2 - 1, by omega⟩
          have htk : (b :: rest).take (DecodeRune (b :: rest)).2 = b :: rest.take j := by
            rw [hj]; rfl
          have hlen : ((b :: rest).take (DecodeRune (b :: rest)).2).length
              = (DecodeRune (b :: rest)).2 := by
            simp only [List.length_take]; omega
          obtain ⟨k1, rfl⟩ : ∃ k1, k = k1 + 1 :=
            ⟨k - 1, by simp only [List.length_append, hlen] at hk; omega⟩
          have hk1 : (appendStringLoop n ((b :: rest).drop (DecodeRune (b :: rest)).2)).length
              ≤ k1 := by simp only [List.length_append, hlen] at hk; omega
          have hm1 : (appendStringLoop n ((b :: rest).drop (DecodeRune (b :: rest)).2)).length
              ≤ m := by simp only [List.length_append, hlen] at hm; omega
          have hd2 := hdec (appendStringLoop n ((b :: rest).drop (DecodeRune (b :: rest)).2))
          have hdrop : ∀ i, ((b :: rest).take (DecodeRune (b :: rest)).2
              ++ appendStringLoop n ((b :: rest).drop (DecodeRune (b :: rest)).2)).drop
                ((DecodeRune (b :: rest)).2 + i)
              = (appendStringLoop n ((b :: rest).drop (DecodeRune (b :: rest)).2)).drop i := by
            intro i
            exact drop_append_of_length _ _ _ i hlen
          have htake : ∀ i, ((b :: rest).take (DecodeRune (b :: rest)).2
              ++ appendStringLoop n ((b :: rest).drop (DecodeRune (b :: rest)).2)).take
                ((DecodeRune (b :: rest)).2 + i)
              = (b :: rest).take (DecodeRune (b :: rest)).2
                ++ (appendStringLoop n ((b :: rest).drop (DecodeRune (b :: rest)).2)).take i := by
            intro i
            exact take_append_of_length _ _ _ i hlen
          have c1 : ¬ (b = 92 ∨ b = 34 ∨ b < 0x20) := by omega
          have hcl : cleanLen (k1 + 1) ((b :: rest).take (DecodeRune (b :: rest)).2
                ++ appendStringLoop n ((b :: rest).drop (DecodeRune (b :: rest)).2))
              = (DecodeRune (b :: rest)).2
                + cleanLen k1 (appendStringLoop n
                    ((b :: rest).drop (DecodeRune (b :: rest)).2)) := by
            have h0 := hdrop 0
            simp only [Nat.add_zero, List.drop_zero] at h0
            rw [htk] at hd2 h0 ⊢
            simp only [List.cons_append] at hd2 h0 ⊢
            simp only [cleanLen, c1, hb, hd2, hne, h0, if_false]
          have := ih _ k1 m hdl hvn hk1 hm1
          unfold unquoteWith at this ⊢
          rw [hcl, hdrop, htake]
          by_cases hall : cleanLen k1 (appendStringLoop n
              ((b :: rest).drop (DecodeRune (b :: rest)).2))
              = (appendStringLoop n ((b :: rest).drop (DecodeRune (b :: rest)).2)).length
          · simp only [hall, if_true, Option.some.injEq] at this
            have hx : (DecodeRune (b :: rest)).2 + cleanLen k1 (appendStringLoop n
                ((b :: rest).drop (DecodeRune (b :: rest)).2))
                = ((b :: rest).take (DecodeRune (b :: rest)).2
                  ++ appendStringLoop n ((b :: rest).drop (DecodeRune (b :: rest)).2)).length := by
              simp only [List.length_append, hlen]; omega
            rw [if_pos hx, this, hsplit]
          · have hx : ¬ ((DecodeRune (b :: rest)).2 + cleanLen k1 (appendStringLoop n
                ((b :: rest).drop (DecodeRune (b :: rest)).2))
                = ((b :: rest).take (DecodeRune (b :: rest)).2
                  ++ appendStringLoop n ((b :: rest).drop (DecodeRune (b :: rest)).2)).length) := by
              simp only [List.length_append, hlen]; omega
            simp only [hall, if_false] at this
            simp only [hx, if_false]
            cases hu : unquoteLoop m (List.drop (cleanLen k1 (appendStringLoop n
                ((b :: rest).drop (DecodeRune (b :: rest)).2)))
                (appendStringLoop n ((b :: rest).drop (DecodeRune (b :: rest)).2))) with
            | none => rw [hu] at this; simp at this
            | some a =>
              rw [hu] at this
              simp only [Option.map_some', Option.some.injEq] at this
              simp only [Option.map_some', List.append_assoc, this, hsplit]

/-- The function `unquoteBytes` gives back the valid UTF-8 text whose literal
`appendString` wrote. -/
theorem unquoteBytes_appendString (s : Bytes) (hv : utf8Valid s = true) :
    unquoteBytes (appendStringLoop s.length s) = some s :=
  unquoteWith_appendStringLoop s.length s _ _ (Nat.le_refl _) hv (Nat.le_refl _) (Nat.le_refl _)

theorem scanString_plain (b : Nat) (rest : Bytes) (h1 : b ≠ 34) (h2 : b ≠ 92) (h3 : ¬ b < 0x20) :
    scanString (b :: rest) = (scanString rest).map (fun r => (b :: r.1, r.2)) := by
  rw [scanString.eq_def]
  simp only [h1, h2, h3, if_false]

theorem scanString_plain_append (p : Bytes) :
    ∀ (q : Bytes), (∀ x ∈ p, x ≠ 34 ∧ x ≠ 92 ∧ ¬ x < 0x20) →
      scanString (p ++ q) = (scanString q).map (fun r => (p ++ r.1, r.2)) := by
  induction p with
  | nil => intro q _; cases h : scanString q <;> simp [h]
  | cons b p ih =>
    intro q h
    obtain ⟨h1, h2, h3⟩ := h b (List.mem_cons_self _ _)
    rw [List.cons_append, scanString_plain b _ h1 h2 h3,
      ih q (fun x hx => h x (List.mem_cons_of_mem _ hx))]
    cases h : scanString q <;> simp [h]

theorem scanString_short (e : Nat) (rest : Bytes) (he : e ∈ 34 :: 92 :: ascii "/bfnrt") :
    scanString (92 :: e :: rest) = (scanString rest).map (fun r => (92 :: e :: r.1, r.2)) := by
  have hu : e ≠ 'u'.toNat := by
    intro h; subst h; revert he; decide
  rw [scanString.eq_def]
  simp only [hu, he, if_true, if_false]
  simp

theorem scanString_u4 (h1 h2 h3 h4 : Nat) (rest : Bytes)
    (c1 : (hexValue h1).isSome = true) (c2 : (hexValue h2).isSome = true)
    (c3 : (hexValue h3).isSome = true) (c4 : (hexValue h4).isSome = true) :
    scanString (92 :: 117 :: h1 :: h2 :: h3 :: h4 :: rest)
      = (scanString rest).map (fun r => (92 :: 117 :: h1 :: h2 :: h3 :: h4 :: r.1, r.2)) := by
  rw [scanString.eq_def]
  simp [c1, c2, c3, c4]

theorem hexValue_hexDigit_isSome (k : Nat) (h : k < 16) :
    (hexValue (hexDigit k)).isSome = true := by
  revert h; revert k; decide

/-- The scanner reads what `appendString` wrote up to the closing quote. -/
theorem scanString_appendStringLoop (n : Nat) :
    ∀ (s rest : Bytes), scanString (appendStringLoop n s ++ 34 :: rest)
      = some (appendStringLoop n s, rest) := by
  have hend : ∀ rest : Bytes, scanString (34 :: rest) = some ([], rest) := by
    intro rest; rw [scanString.eq_def]; simp
  induction n with
  | zero => intro s rest; simp [appendStringLoop, hend]
  | succ n ih =>
    intro s rest
    cases s with
    | nil => simp [appendStringLoop, hend]
    | cons b tl =>
      unfold appendStringLoop
      by_cases hb : b < 0x80
      · rw [if_pos hb]
        by_cases hs : htmlSafe b = true
        · rw [if_pos hs]
          have hsafe : 0x20 ≤ b ∧ b ≠ 34 ∧ b ≠ 92 := by
            simp [htmlSafe] at hs; omega
          rw [List.cons_append, scanString_plain b _ hsafe.2.1 hsafe.2.2 (by omega), ih]
          rfl
        · rw [if_neg hs]
          split_ifs with h1 h2 h3 h4
          · rw [List.cons_append, List.cons_append, scanString_short b _ (by
              rcases h1 with h | h <;> subst h <;> decide), ih]
            rfl
          · rw [List.cons_append, List.cons_append, scanString_short _ _ (by decide), ih]
            rfl
          · rw [List.cons_append, List.cons_append, scanString_short _ _ (by decide), ih]
            rfl
          · rw [List.cons_append, List.cons_append, scanString_short _ _ (by decide), ih]
            rfl
          · simp only [List.cons_append]
            rw [show 'u'.toNat = 117 from rfl,
              scanString_u4 _ _ _ _ _ (by decide) (by decide)
                (hexValue_hexDigit_isSome _ (by omega))
                (hexValue_hexDigit_isSome _ (by omega)), ih]
            rfl
      · rw [if_neg hb]
        split_ifs with h1 h2
        · simp only [List.cons_append]
          rw [show 'u'.toNat = 117 from rfl,
            scanString_u4 _ _ _ _ _ (by decide) (by decide) (by decide) (by decide), ih]
          rfl
        · simp only [List.cons_append]
          rw [show 'u'.toNat = 117 from rfl,
            scanString_u4 _ _ _ _ _ (by decide) (by decide) (by decide)
              (hexValue_hexDigit_isSome _ (by omega)), ih]
          rfl
        · obtain ⟨_, _, hbytes, _, _⟩ := DecodeRune_valid b tl (by omega) h1
          rw [List.append_assoc, scanString_plain_append _ _ (fun x hx => by
            have := hbytes x hx; omega), ih]
          rfl

/-- The scanner reads a whole literal that `appendString` wrote. -/
theorem scanString_appendString (s rest : Bytes) :
    ∃ raw, appendString s ++ rest = 34 :: (raw ++ 34 :: rest)
      ∧ scanString (raw ++ 34 :: rest) = some (raw, rest)
      ∧ (utf8Valid s = true → unquoteBytes raw = some s) :=
  ⟨appendStringLoop s.length s, by simp [appendString], scanString_appendStringLoop _ _ _,
    unquoteBytes_appendString s⟩

/-- The value of a run of digits, as `parseUint` and `parseNanoseconds`
compute it. -/
theorem appendInt_natCast (n w : Nat) (h : n < 10 ^ w) :
    appendInt (n : Int) w = fixedDigits w n := by
  have h0 : ¬ ((n : Int) < 0) := by omega
  simp [appendInt, h0, h]

theorem fixedDigits_two (x : Nat) : fixedDigits 2 x = [48 + x / 10 % 10, 48 + x % 10] := by
  simp [fixedDigits]

theorem fixedDigits_four (x : Nat) :
    fixedDigits 4 x
      = [48 + x / 10 / 10 / 10 % 10, 48 + x / 10 / 10 % 10, 48 + x / 10 % 10, 48 + x % 10] := by
  simp [fixedDigits]

theorem parseUint_two (x lo hi : Nat) (hx : x < 100) (hlo : lo ≤ x) (hhi : x ≤ hi) :
    parseUint [48 + x / 10 % 10, 48 + x % 10] lo hi = some x := by
  have hv : (0 * 10 + (48 + x / 10 % 10 - 48)) * 10 + (48 + x % 10 - 48) = x := by omega
  have c1 : 48 + x / 10 % 10 ≤ 57 := by omega
  have c2 : 48 + x % 10 ≤ 57 := by omega
  simp only [parseUint, List.all_cons, List.all_nil, List.foldl_cons, List.foldl_nil, hv]
  simp [c1, c2]
  omega

theorem parseUint_four (x lo hi : Nat) (hx : x < 10000) (hlo : lo ≤ x) (hhi : x ≤ hi) :
    parseUint [48 + x / 10 / 10 / 10 % 10, 48 + x / 10 / 10 % 10, 48 + x / 10 % 10, 48 + x % 10]
      lo hi = some x := by
  have hv : (((0 * 10 + (48 + x / 10 / 10 / 10 % 10 - 48)) * 10 + (48 + x / 10 / 10 % 10 - 48))
      * 10 + (48 + x / 10 % 10 - 48)) * 10 + (48 + x % 10 - 48) = x := by omega
  have c1 : 48 + x / 10 / 10 / 10 % 10 ≤ 57 := by omega
  have c2 : 48 + x / 10 / 10 % 10 ≤ 57 := by omega
  have c3 : 48 + x / 10 % 10 ≤ 57 := by omega
  have c4 : 48 + x % 10 ≤ 57 := by omega
  simp only [parseUint, List.all_cons, List.all_nil, List.foldl_cons, List.foldl_nil, hv]
  simp [c1, c2, c3, c4]
  omega

theorem fixedDigits_value (w : Nat) :
    ∀ x, x < 10 ^ w → (fixedDigits w x).foldl (fun x c => x * 10 + (c - 48)) 0 = x := by
  induction w with
  | zero => intro x hx; simp at hx; simp [fixedDigits, hx]
  | succ w ih =>
    intro x hx
    have h1 : x / 10 < 10 ^ w := by
      rw [pow_succ] at hx; omega
    simp only [fixedDigits, List.foldl_append, List.foldl_cons, List.foldl_nil, ih _ h1]
    omega

theorem fixedDigits_digits (w : Nat) :
    ∀ x, ∀ c ∈ fixedDigits w x, 48 ≤ c ∧ c ≤ 57 := by
  induction w with
  | zero => intro x c hc; simp [fixedDigits] at hc
  | succ w ih =>
    intro x c hc
    simp only [fixedDigits, List.mem_append, List.mem_singleton] at hc
    rcases hc with hc | hc
    · exact ih _ c hc
    · omega

theorem fixedDigits_length (w : Nat) : ∀ x, (fixedDigits w x).length = w := by
  induction w with
  | zero => intro x; rfl
  | succ w ih => intro x; simp [fixedDigits, ih]

theorem trimZeros_concat (l : Bytes) (d : Nat) :
    trimZeros (l ++ [d]) = if d = 48 then trimZeros l else l ++ [d] := by
  by_cases h : d = 48 <;> simp [trimZeros, List.dropWhile_cons, h]

theorem dropWhile_append_of_ne_nil (p : Nat → Bool) (r s : Bytes) (h : r.dropWhile p ≠ []) :
    (r ++ s).dropWhile p = r.dropWhile p ++ s := by
  induction r with
  | nil => simp at h
  | cons a r ih =>
    by_cases ha : p a = true
    · simp only [List.cons_append, List.dropWhile_cons, ha, if_true] at h ⊢
      exact ih h
    · simp [List.dropWhile_cons, ha]

theorem trimZeros_cons (a : Nat) (l : Bytes) (h : trimZeros l ≠ []) :
    trimZeros (a :: l) = a :: trimZeros l := by
  have h1 : l.reverse.dropWhile (· == 48) ≠ [] := by
    intro h2; apply h; simp [trimZeros, h2]
  simp [trimZeros, dropWhile_append_of_ne_nil _ _ _ h1]

/-- The digits of a fractional second without the trailing zeros stand for
the same number of nanoseconds. -/
theorem trimZeros_fixedDigits (w : Nat) :
    ∀ x, x ≠ 0 → x < 10 ^ w →
      trimZeros (fixedDigits w x) ≠ []
        ∧ (∀ c ∈ trimZeros (fixedDigits w x), 48 ≤ c ∧ c ≤ 57)
        ∧ (trimZeros (fixedDigits w x)).length ≤ w
        ∧ (trimZeros (fixedDigits w x)).foldl (fun x c => x * 10 + (c - 48)) 0
            * 10 ^ (w - (trimZeros (fixedDigits w x)).length) = x := by
  induction w with
  | zero => intro x h0 hx; simp at hx; exact absurd hx h0
  | succ w ih =>
    intro x h0 hx
    have h1 : x / 10 < 10 ^ w := by
      rw [pow_succ] at hx; omega
    have hf : fixedDigits (w + 1) x = fixedDigits w (x / 10) ++ [48 + x % 10] := rfl
    rw [hf, trimZeros_concat]
    by_cases hd : x % 10 = 0
    · have hd1 : 48 + x % 10 = 48 := by omega
      rw [if_pos hd1]
      obtain ⟨i1, i2, i3, i4⟩ := ih (x / 10) (by omega) h1
      refine ⟨i1, i2, by omega, ?_⟩
      have : w + 1 - (trimZeros (fixedDigits w (x / 10))).length
          = (w - (trimZeros (fixedDigits w (x / 10))).length) + 1 := by omega
      rw [this, pow_succ, ← Nat.mul_assoc, i4]
      omega
    · have hd1 : ¬ (48 + x % 10 = 48) := by omega
      rw [if_neg hd1]
      refine ⟨by simp, ?_, by simp [fixedDigits_length], ?_⟩
      · intro c hc
        exact fixedDigits_digits (w + 1) x c (by rw [hf]; exact hc)
      · simp only [List.length_append, fixedDigits_length, List.length_singleton,
          Nat.sub_self, pow_zero, Nat.mul_one]
        rw [← hf]
        exact fixedDigits_value (w + 1) x hx

/-- What `appendNano` writes for a fraction that is not zero. -/
theorem appendNano_eq (ns : Nat) (h0 : ns ≠ 0) (h9 : ns < 10 ^ 9) :
    appendNano ns = 46 :: trimZeros (fixedDigits 9 ns) := by
  obtain ⟨i1, i2, _, _⟩ := trimZeros_fixedDigits 9 ns h0 h9
  have hlast : (46 :: trimZeros (fixedDigits 9 ns)).getLast? ≠ some 46 := by
    intro h
    have hm : 46 ∈ trimZeros (fixedDigits 9 ns) := by
      cases ht : trimZeros (fixedDigits 9 ns) with
      | nil => exact absurd ht i1
      | cons a l =>
        rw [ht] at h
        have h2 : (a :: l).getLast? = some 46 := by simpa [List.getLast?_cons_cons] using h
        exact List.mem_of_getLast?_eq_some h2
    have := i2 46 hm
    omega
  unfold appendNano
  rw [if_neg h0, appendInt_natCast ns 9 h9, trimZeros_cons _ _ i1, if_neg hlast]

/-- What `appendFormatRFC3339` writes for a zone that is not UTC. -/
theorem appendZone_eq (off : Int) (h0 : off ≠ 0) (hm : off % 60 = 0)
    (hlo : -86400 < off) (hhi : off < 86400) :
    appendZone off
      = [if off < 0 then 45 else 43,
          48 + off.natAbs / 60 / 60 / 10 % 10, 48 + off.natAbs / 60 / 60 % 10, 58,
          48 + off.natAbs / 60 % 60 / 10 % 10, 48 + off.natAbs / 60 % 60 % 10] := by
  have h1 : off.natAbs / 60 ≠ 0 := by omega
  have h2 : off.natAbs / 60 / 60 < 10 ^ 2 := by norm_num; omega
  have h3 : off.natAbs / 60 % 60 < 10 ^ 2 := by norm_num; omega
  unfold appendZone
  rw [if_neg h0, appendInt_natCast _ 2 h2, appendInt_natCast _ 2 h3, fixedDigits_two,
    fixedDigits_two]
  by_cases hneg : off < 0 <;> simp [hneg, h1]

theorem parseZone_appendZone (off : Int) (hm : off % 60 = 0)
    (hlo : -86400 < off) (hhi : off < 86400) :
    parseZone (appendZone off) = some off := by
  by_cases h0 : off = 0
  · subst h0; decide
  · rw [appendZone_eq off h0 hm hlo hhi]
    have p1 := parseUint_two (off.natAbs / 60 / 60) 0 23 (by omega) (by omega) (by omega)
    have p2 := parseUint_two (off.natAbs / 60 % 60) 0 59 (by omega) (by omega) (by omega)
    unfold parseZone
    rw [if_neg (by simp)]
    simp only [p1, p2]
    by_cases hneg : off < 0
    · simp only [hneg, if_true, true_or, and_self, Option.some.injEq]
      omega
    · have : (43 : Nat) ≠ 45 := by decide
      simp only [hneg, if_false, this, or_true, and_self, if_true, Option.some.injEq]
      omega

/-- The zone does not start with a point, nor with a digit. -/
theorem appendZone_head (off : Int) (hm : off % 60 = 0) (hlo : -86400 < off)
    (hhi : off < 86400) :
    ∃ z zs, appendZone off = z :: zs ∧ z ≠ 46 ∧ ¬ (48 ≤ z ∧ z ≤ 57) := by
  by_cases h0 : off = 0
  · subst h0; exact ⟨90, [], by decide, by decide, by decide⟩
  · rw [appendZone_eq off h0 hm hlo hhi]
    by_cases hneg : off < 0
    · exact ⟨45, _, by rw [if_pos hneg], by decide, by decide⟩
    · exact ⟨43, _, by rw [if_neg hneg], by decide, by decide⟩

theorem takeWhile_digits_append (t : Bytes) (z : Nat) (zs : Bytes)
    (ht : ∀ c ∈ t, 48 ≤ c ∧ c ≤ 57) (hz : ¬ (48 ≤ z ∧ z ≤ 57)) :
    (t ++ z :: zs).takeWhile (fun c => '0'.toNat ≤ c && c ≤ '9'.toNat) = t := by
  induction t with
  | nil =>
    have : ¬ (48 ≤ z ∧ z ≤ 57) := hz
    simp [List.takeWhile_cons, this]
  | cons a t ih =>
    have ha := ht a (List.mem_cons_self _ _)
    simp only [List.cons_append, List.takeWhile_cons]
    rw [ih (fun c hc => ht c (List.mem_cons_of_mem _ hc))]
    simp [ha.1, ha.2]

theorem fractionDigits_of_fraction (t : Bytes) (z : Nat) (zs : Bytes) (hne : t ≠ [])
    (ht : ∀ c ∈ t, 48 ≤ c ∧ c ≤ 57) (hz : ¬ (48 ≤ z ∧ z ≤ 57)) :
    fractionDigits (46 :: t ++ z :: zs) = t := by
  cases t with
  | nil => exact absurd rfl hne
  | cons d t =>
    have hd := ht d (List.mem_cons_self _ _)
    have hd1 : '0'.toNat ≤ d ∧ d ≤ '9'.toNat := hd
    simp only [List.cons_append, fractionDigits, hd1, and_self, if_true]
    rw [takeWhile_digits_append t z zs (fun c hc => ht c (List.mem_cons_of_mem _ hc)) hz]

theorem fractionDigits_of_zone (z : Nat) (zs : Bytes) (hz : z ≠ 46) :
    fractionDigits (z :: zs) = [] := by
  unfold fractionDigits
  split
  · rename_i h; simp at h; exact absurd h.1 hz
  · rfl

theorem appendFormatRFC3339_eq (y mo d h mi s ns : Nat) (off : Int)
    (hy : y < 10 ^ 4) (hmo : mo < 10 ^ 2) (hd : d < 10 ^ 2) (hh : h < 10 ^ 2)
    (hmi : mi < 10 ^ 2) (hs : s < 10 ^ 2) :
    appendFormatRFC3339 ⟨(y : Int), mo, d, h, mi, s, ns, off⟩
      = (48 + y / 10 / 10 / 10 % 10) :: (48 + y / 10 / 10 % 10) :: (48 + y / 10 % 10)
        :: (48 + y % 10)
        :: 45 :: (48 + mo / 10 % 10) :: (48 + mo % 10)
        :: 45 :: (48 + d / 10 % 10) :: (48 + d % 10)
        :: 84 :: (48 + h / 10 % 10) :: (48 + h % 10)
        :: 58 :: (48 + mi / 10 % 10) :: (48 + mi % 10)
        :: 58 :: (48 + s / 10 % 10) :: (48 + s % 10)
        :: (appendNano ns ++ appendZone off) := by
  simp only [appendFormatRFC3339]
  rw [appendInt_natCast y 4 hy, appendInt_natCast mo 2 hmo, appendInt_natCast d 2 hd,
    appendInt_natCast h 2 hh, appendInt_natCast mi 2 hmi, appendInt_natCast s 2 hs]
  simp only [fixedDigits_two, fixedDigits_four, List.cons_append, List.nil_append,
    List.append_assoc]

theorem parseRFC3339_eq (y mo d h mi s : Nat) (tail : Bytes)
    (hy : y ≤ 9999) (hmo1 : 1 ≤ mo) (hmo : mo ≤ 12) (hd1 : 1 ≤ d) (hd : d ≤ daysIn mo y)
    (hd99 : d < 100) (hh : h < 24) (hmi : mi < 60) (hs : s < 60) :
    parseRFC3339
      ((48 + y / 10 / 10 / 10 % 10) :: (48 + y / 10 / 10 % 10) :: (48 + y / 10 % 10)
        :: (48 + y % 10)
        :: 45 :: (48 + mo / 10 % 10) :: (48 + mo % 10)
        :: 45 :: (48 + d / 10 % 10) :: (48 + d % 10)
        :: 84 :: (48 + h / 10 % 10) :: (48 + h % 10)
        :: 58 :: (48 + mi / 10 % 10) :: (48 + mi % 10)
        :: 58 :: (48 + s / 10 % 10) :: (48 + s % 10) :: tail)
      = match parseZone (if fractionDigits tail = [] then tail
            else tail.drop (1 + (fractionDigits tail).length)) with
        | some zoneOffset =>
          some ⟨(y : Int), mo, d, h, mi, s,
            if fractionDigits tail = [] then 0 else nanosecondsOf (fractionDigits tail),
            zoneOffset⟩
        | none => none := by
  have p1 := parseUint_four y 0 9999 (by omega) (by omega) hy
  have p2 := parseUint_two mo 1 12 (by omega) hmo1 hmo
  have p3 := parseUint_two d 1 (daysIn mo y) hd99 hd1 hd
  have p4 := parseUint_two h 0 23 (by omega) (by omega) (by omega)
  have p5 := parseUint_two mi 0 59 (by omega) (by omega) (by omega)
  have p6 := parseUint_two s 0 59 (by omega) (by omega) (by omega)
  unfold parseRFC3339
  rw [if_neg (by simp only [List.length_cons]; omega)]
  simp only [List.take_succ_cons, List.take_zero, List.drop_succ_cons, List.drop_zero,
    List.getD_cons_succ, List.getD_cons_zero, p1, p2, p3, p4, p5, p6, and_self, if_true]

theorem daysIn_le (month year : Nat) : daysIn month year ≤ 31 := by
  unfold daysIn
  split_ifs
  · omega
  · by_cases h : month - 1 < 12
    · generalize month - 1 = k at h
      interval_cases k <;> decide
    · have : ([31, 28, 31, 30, 31, 30, 31, 31, 30, 31, 30, 31] : List Nat).length ≤ month - 1 := by
        simp only [List.length_cons, List.length_nil]; omega
      rw [List.getD_eq_default _ _ this]
      omega

theorem nanosecondsOf_trimZeros (ns : Nat) (h0 : ns ≠ 0) (h9 : ns < 10 ^ 9) :
    nanosecondsOf (trimZeros (fixedDigits 9 ns)) = ns := by
  obtain ⟨_, _, i3, i4⟩ := trimZeros_fixedDigits 9 ns h0 h9
  unfold nanosecondsOf
  rw [List.take_of_length_le i3]
  exact i4

/-- The strict parser of RFC 3339 reads back what `appendFormatRFC3339`
wrote. -/
theorem parseRFC3339_appendFormatRFC3339 (t : Time) (hv : validExpiry t) :
    parseRFC3339 (appendFormatRFC3339 t) = some t := by
  obtain ⟨year, mo, d, h, mi, s, ns, off⟩ := t
  obtain ⟨v1, v2, v3, v4, v5, v6, v7, v8, v9, v10, v11, v12, v13⟩ := hv
  simp only at v1 v2 v3 v4 v5 v6 v7 v8 v9 v10 v11 v12 v13
  obtain ⟨y, rfl⟩ := Int.eq_ofNat_of_zero_le v1
  have hy : y ≤ 9999 := by omega
  have v6n : d ≤ daysIn mo y := by simpa using v6
  have hd99 : d < 100 := by have := daysIn_le mo y; omega
  rw [appendFormatRFC3339_eq y mo d h mi s ns off (by norm_num; omega) (by norm_num; omega)
      (by norm_num; omega) (by norm_num; omega) (by norm_num; omega) (by norm_num; omega),
    parseRFC3339_eq y mo d h mi s _ hy v3 v4 v5 v6n hd99 v7 v8 v9]
  obtain ⟨z, zs, hz, hz1, hz2⟩ := appendZone_head off v11 v12 v13
  have hpz := parseZone_appendZone off v11 v12 v13
  by_cases h0 : ns = 0
  · subst h0
    have hn : appendNano 0 = [] := by simp [appendNano]
    have hf : fractionDigits (appendZone off) = [] := by
      rw [hz]; exact fractionDigits_of_zone z zs hz1
    simp only [hn, List.nil_append, hf, if_true, hpz]
  · obtain ⟨i1, i2, i3, _⟩ := trimZeros_fixedDigits 9 ns h0 v10
    have hf : fractionDigits (appendNano ns ++ appendZone off)
        = trimZeros (fixedDigits 9 ns) := by
      rw [appendNano_eq ns h0 v10, hz]
      exact fractionDigits_of_fraction _ z zs i1 i2 hz2
    have hdrop : (appendNano ns ++ appendZone off).drop
        (1 + (trimZeros (fixedDigits 9 ns)).length) = appendZone off := by
      rw [appendNano_eq ns h0 v10, Nat.add_comm, List.cons_append, List.drop_succ_cons,
        List.drop_left]
    simp only [hf, i1, if_false, hdrop, hpz, nanosecondsOf_trimZeros ns h0 v10]

/-- Every byte `appendFormatRFC3339` writes is plain text of a string
literal. -/
theorem appendFormatRFC3339_plain (t : Time) (hv : validExpiry t) :
    ∀ c ∈ appendFormatRFC3339 t, c ≠ 34 ∧ c ≠ 92 ∧ ¬ c < 0x20 := by
  obtain ⟨year, mo, d, h, mi, s, ns, off⟩ := t
  obtain ⟨v1, v2, v3, v4, v5, v6, v7, v8, v9, v10, v11, v12, v13⟩ := hv
  simp only at v1 v2 v3 v4 v5 v6 v7 v8 v9 v10 v11 v12 v13
  obtain ⟨y, rfl⟩ := Int.eq_ofNat_of_zero_le v1
  have v6n : d ≤ daysIn mo y := by simpa using v6
  have hd99 : d < 100 := by have := daysIn_le mo y; omega
  have hnano : ∀ c ∈ appendNano ns, 43 ≤ c ∧ c ≤ 57 := by
    by_cases h0 : ns = 0
    · subst h0; simp [appendNano]
    · obtain ⟨_, i2, _, _⟩ := trimZeros_fixedDigits 9 ns h0 v10
      rw [appendNano_eq ns h0 v10]
      intro c hc
      rcases List.mem_cons.mp hc with hc | hc
      · omega
      · have := i2 c hc; omega
  have hzone : ∀ c ∈ appendZone off, 43 ≤ c ∧ c ≤ 90 := by
    by_cases h0 : off = 0
    · subst h0; decide
    · rw [appendZone_eq off h0 v11 v12 v13]
      intro c hc
      simp only [List.mem_cons, List.mem_singleton, List.not_mem_nil, or_false] at hc
      rcases hc with hc | hc | hc | hc | hc | hc
      · split_ifs at hc <;> omega
      all_goals omega
  have hall : ∀ c ∈ appendFormatRFC3339 ⟨(y : Int), mo, d, h, mi, s, ns, off⟩,
      43 ≤ c ∧ c ≤ 90 := by
    rw [appendFormatRFC3339_eq y mo d h mi s ns off (by norm_num; omega) (by norm_num; omega)
      (by norm_num; omega) (by norm_num; omega) (by norm_num; omega) (by norm_num; omega)]
    intro c hc
    simp only [List.mem_cons, List.mem_append] at hc
    rcases hc with hc | hc | hc | hc | hc | hc | hc | hc | hc | hc | hc | hc | hc | hc | hc
      | hc | hc | hc | hc | hc | hc
    case inr.inr.inr.inr.inr.inr.inr.inr.inr.inr.inr.inr.inr.inr.inr.inr.inr.inr.inr.inl =>
      have := hnano c hc; omega
    case inr.inr.inr.inr.inr.inr.inr.inr.inr.inr.inr.inr.inr.inr.inr.inr.inr.inr.inr.inr =>
      exact hzone c hc
    all_goals omega
  intro c hc
  have := hall c hc
  omega

theorem appendFormatRFC3339_zone (t : Time) (hv : validExpiry t) :
    (appendFormatRFC3339 t).getD 4 0 = 45
      ∧ ∃ a, appendFormatRFC3339 t = a ++ appendZone t.offset := by
  obtain ⟨year, mo, d, h, mi, s, ns, off⟩ := t
  obtain ⟨v1, v2, v3, v4, v5, v6, v7, v8, v9, v10, v11, v12, v13⟩ := hv
  simp only at v1 v2 v3 v4 v5 v6 v7 v8 v9 v10 v11 v12 v13
  obtain ⟨y, rfl⟩ := Int.eq_ofNat_of_zero_le v1
  have v6n : d ≤ daysIn mo y := by simpa using v6
  have hd99 : d < 100 := by have := daysIn_le mo y; omega
  rw [appendFormatRFC3339_eq y mo d h mi s ns off (by norm_num; omega) (by norm_num; omega)
      (by norm_num; omega) (by norm_num; omega) (by norm_num; omega) (by norm_num; omega)]
  refine ⟨rfl, ?_⟩
  exact ⟨(48 + y / 10 / 10 / 10 % 10) :: (48 + y / 10 / 10 % 10) :: (48 + y / 10 % 10)
        :: (48 + y % 10)
        :: 45 :: (48 + mo / 10 % 10) :: (48 + mo % 10)
        :: 45 :: (48 + d / 10 % 10) :: (48 + d % 10)
        :: 84 :: (48 + h / 10 % 10) :: (48 + h % 10)
        :: 58 :: (48 + mi / 10 % 10) :: (48 + mi % 10)
        :: 58 :: (48 + s / 10 % 10) :: (48 + s % 10) :: appendNano ns, rfl⟩

/-- The method `Time.MarshalJSON` writes the text of `appendFormatRFC3339`
between quotes. -/
theorem timeMarshalJSON_eq (t : Time) (hv : validExpiry t) :
    timeMarshalJSON t = .ok (34 :: (appendFormatRFC3339 t ++ [34])) := by
  obtain ⟨h4, a, ha⟩ := appendFormatRFC3339_zone t hv
  obtain ⟨_, _, _, _, _, _, _, _, _, _, v11, v12, v13⟩ := hv
  unfold timeMarshalJSON
  rw [if_neg (by rw [h4]; simp)]
  by_cases h0 : t.offset = 0
  · have hlast : (appendFormatRFC3339 t).getLast? = some 90 := by
      rw [ha, h0]
      simp [appendZone]
    rw [if_neg (by rw [hlast]; simp)]
  · rw [appendZone_eq t.offset h0 v11 v12 v13] at ha
    have hrev : (appendFormatRFC3339 t).reverse.getD 5 0
        = if t.offset < 0 then 45 else 43 := by
      rw [ha]; simp
    have hdrop : (appendFormatRFC3339 t).drop ((appendFormatRFC3339 t).length - 5)
        = [48 + t.offset.natAbs / 60 / 60 / 10 % 10, 48 + t.offset.natAbs / 60 / 60 % 10, 58,
          48 + t.offset.natAbs / 60 % 60 / 10 % 10, 48 + t.offset.natAbs / 60 % 60 % 10] := by
      rw [ha]
      have : (a ++ [if t.offset < 0 then 45 else 43,
          48 + t.offset.natAbs / 60 / 60 / 10 % 10, 48 + t.offset.natAbs / 60 / 60 % 10, 58,
          48 + t.offset.natAbs / 60 % 60 / 10 % 10, 48 + t.offset.natAbs / 60 % 60 % 10]).length
            - 5 = a.length + 1 := by
        simp only [List.length_append, List.length_cons, List.length_nil]
        omega
      rw [this, List.drop_append]
      rfl
    have hnum : ¬ 24 ≤ num2 [48 + t.offset.natAbs / 60 / 60 / 10 % 10,
        48 + t.offset.natAbs / 60 / 60 % 10, 58,
        48 + t.offset.natAbs / 60 % 60 / 10 % 10, 48 + t.offset.natAbs / 60 % 60 % 10] := by
      have hh : t.offset.natAbs / 60 / 60 < 24 := by omega
      simp only [num2, List.getD_cons_zero, List.getD_cons_succ]
      generalize t.offset.natAbs / 60 / 60 = x at hh
      have e1 : (48 + x / 10 % 10 + 208) % 256 = x / 10 % 10 := by omega
      have e2 : (48 + x % 10 + 208) % 256 = x % 10 := by omega
      have e3 : 10 * (x / 10 % 10) + x % 10 = x := by omega
      rw [e1, e2, e3]
      clear e1 e2 e3
      omega
    have hsign : ¬ ('0'.toNat ≤ (if t.offset < 0 then 45 else 43)
        ∧ (if t.offset < 0 then 45 else 43) ≤ '9'.toNat) := by
      split_ifs <;> decide
    rw [if_neg (by rw [hrev, hdrop]; exact fun h => h.2.elim hsign hnum)]

theorem scanString_quote (rest : Bytes) : scanString (34 :: rest) = some ([], rest) := by
  rw [scanString.eq_def]; simp

theorem scanString_plain_literal (p rest : Bytes)
    (hp : ∀ x ∈ p, x ≠ 34 ∧ x ≠ 92 ∧ ¬ x < 0x20) :
    scanString (p ++ 34 :: rest) = some (p, rest) := by
  rw [scanString_plain_append p _ hp, scanString_quote]
  simp

/-- One member of an object, as `decodeMembers` reads it. -/
theorem decodeMembers_member (fuel : Nat) (tok tok1 : Token) (key rawValue : Bytes)
    (next : Nat) (rest2 : Bytes)
    (hkey : ∀ x ∈ key, x ≠ 34 ∧ x ≠ 92 ∧ ¬ x < 0x20)
    (hclean : unquoteBytes key = some key)
    (hval : ∀ rest, scanString (rawValue ++ 34 :: rest) = some (rawValue, rest))
    (hstore : storeMember key rawValue tok = some tok1) :
    decodeMembers (fuel + 1) tok
        (34 :: (key ++ 34 :: 58 :: 34 :: (rawValue ++ 34 :: next :: rest2)))
      = if next = 44 then decodeMembers fuel tok1 rest2
        else if next = 125 then some tok1 else none := by
  rw [decodeMembers]
  simp only [scanString_plain_literal key _ hkey, hclean, hval, hstore]

theorem decodeMembers_access_token (fuel : Nat) (tok : Token) (v rest : Bytes)
    (hv : utf8Valid v = true) :
    decodeMembers (fuel + 1) tok
        (34 :: (ascii "access_token" ++ 34 :: 58 :: 34
          :: (appendStringLoop v.length v ++ 34 :: 44 :: rest)))
      = decodeMembers fuel { tok with AccessToken := v } rest := by
  rw [decodeMembers_member fuel tok { tok with AccessToken := v } _ _ 44 rest (by decide)
    (by decide) (scanString_appendStringLoop _ _)
    (by simp [storeMember, unquoteBytes_appendString v hv])]
  simp

theorem decodeMembers_token_type (fuel : Nat) (tok : Token) (v rest : Bytes)
    (hv : utf8Valid v = true) :
    decodeMembers (fuel + 1) tok
        (34 :: (ascii "token_type" ++ 34 :: 58 :: 34
          :: (appendStringLoop v.length v ++ 34 :: 44 :: rest)))
      = decodeMembers fuel { tok with TokenType := v } rest := by
  have n1 : ascii "token_type" ≠ ascii "access_token" := by decide
  rw [decodeMembers_member fuel tok { tok with TokenType := v } _ _ 44 rest (by decide)
    (by decide) (scanString_appendStringLoop _ _)
    (by simp [storeMember, n1, unquoteBytes_appendString v hv])]
  simp

theorem decodeMembers_refresh_token (fuel : Nat) (tok : Token) (v rest : Bytes)
    (hv : utf8Valid v = true) :
    decodeMembers (fuel + 1) tok
        (34 :: (ascii "refresh_token" ++ 34 :: 58 :: 34
          :: (appendStringLoop v.length v ++ 34 :: 44 :: rest)))
      = decodeMembers fuel { tok with RefreshToken := v } rest := by
  have n1 : ascii "refresh_token" ≠ ascii "access_token" := by decide
  have n2 : ascii "refresh_token" ≠ ascii "token_type" := by decide
  rw [decodeMembers_member fuel tok { tok with RefreshToken := v } _ _ 44 rest (by decide)
    (by decide) (scanString_appendStringLoop _ _)
    (by simp [storeMember, n1, n2, unquoteBytes_appendString v hv])]
  simp

theorem decodeMembers_expiry (fuel : Nat) (tok : Token) (e : Time) (rest : Bytes)
    (hv : validExpiry e) :
    decodeMembers (fuel + 1) tok
        (34 :: (ascii "expiry" ++ 34 :: 58 :: 34
          :: (appendFormatRFC3339 e ++ 34 :: 125 :: rest)))
      = some { tok with Expiry := e } := by
  have n1 : ascii "expiry" ≠ ascii "access_token" := by decide
  have n2 : ascii "expiry" ≠ ascii "token_type" := by decide
  have n3 : ascii "expiry" ≠ ascii "refresh_token" := by decide
  rw [decodeMembers_member fuel tok { tok with Expiry := e } _ _ 125 rest (by decide)
    (by decide) (fun r => scanString_plain_literal _ r (appendFormatRFC3339_plain e hv))
    (by simp [storeMember, n1, n2, n3, parseRFC3339_appendFormatRFC3339 e hv])]
  simp

theorem decodeRecord_access_expiry (at1 : Bytes) (e : Time)
    (hat1 : utf8Valid at1 = true) (h4 : validExpiry e) :
    decodeRecord (123 :: 34 :: (ascii "access_token" ++ 34 :: 58 :: 34
        :: (appendStringLoop at1.length at1 ++ 34 :: 44 :: 34 :: (ascii "expiry" ++ 34 :: 58 :: 34
        :: (appendFormatRFC3339 e ++ 34 :: 125 :: [10])))))
      = some ⟨at1, [], [], e⟩ := by
  have hfuel : ∀ n, 2 ≤ n → decodeMembers n zeroToken (34 :: (ascii "access_token" ++ 34 :: 58 :: 34
        :: (appendStringLoop at1.length at1 ++ 34 :: 44 :: 34 :: (ascii "expiry" ++ 34 :: 58 :: 34
        :: (appendFormatRFC3339 e ++ 34 :: 125 :: [10]))))) = some ⟨at1, [], [], e⟩ := by
    intro n hn
    obtain ⟨k, rfl⟩ : ∃ k, n = k + 1 + 1 := ⟨n - 2, by omega⟩
    rw [decodeMembers_access_token _ _ _ _ hat1,
      decodeMembers_expiry _ _ _ _ h4]
    rfl
  simp only [decodeRecord]
  exact hfuel _ (by simp only [List.length_cons, List.length_append]; omega)

theorem decodeRecord_access_type_expiry (at1 tt : Bytes) (e : Time)
    (hat1 : utf8Valid at1 = true) (htt : utf8Valid tt = true) (h4 : validExpiry e) :
    decodeRecord (123 :: 34 :: (ascii "access_token" ++ 34 :: 58 :: 34
        :: (appendStringLoop at1.length at1 ++ 34 :: 44 :: 34 :: (ascii "token_type" ++ 34 :: 58 :: 34
        :: (appendStringLoop tt.length tt ++ 34 :: 44 :: 34 :: (ascii "expiry" ++ 34 :: 58 :: 34
        :: (appendFormatRFC3339 e ++ 34 :: 125 :: [10])))))))
      = some ⟨at1, tt, [], e⟩ := by
  have hfuel : ∀ n, 3 ≤ n → decodeMembers n zeroToken (34 :: (ascii "access_token" ++ 34 :: 58 :: 34
        :: (appendStringLoop at1.length at1 ++ 34 :: 44 :: 34 :: (ascii "token_type" ++ 34 :: 58 :: 34
        :: (appendStringLoop tt.length tt ++ 34 :: 44 :: 34 :: (ascii "expiry" ++ 34 :: 58 :: 34
        :: (appendFormatRFC3339 e ++ 34 :: 125 :: [10]))))))) = some ⟨at1, tt, [], e⟩ := by
    intro n hn
    obtain ⟨k, rfl⟩ : ∃ k, n = k + 1 + 1 + 1 := ⟨n - 3, by omega⟩
    rw [decodeMembers_access_token _ _ _ _ hat1,
      decodeMembers_token_type _ _ _ _ htt,
      decodeMembers_expiry _ _ _ _ h4]
    rfl
  simp only [decodeRecord]
  exact hfuel _ (by simp only [List.length_cons, List.length_append]; omega)

theorem decodeRecord_access_refresh_expiry (at1 rt : Bytes) (e : Time)
    (hat1 : utf8Valid at1 = true) (hrt : utf8Valid rt = true) (h4 : validExpiry e) :
    decodeRecord (123 :: 34 :: (ascii "access_token" ++ 34 :: 58 :: 34
        :: (appendStringLoop at1.length at1 ++ 34 :: 44 :: 34 :: (ascii "refresh_token" ++ 34 :: 58 :: 34
        :: (appendStringLoop rt.length rt ++ 34 :: 44 :: 34 :: (ascii "expiry" ++ 34 :: 58 :: 34
        :: (appendFormatRFC3339 e ++ 34 :: 125 :: [10])))))))
      = some ⟨at1, [], rt, e⟩ := by
  have hfuel : ∀ n, 3 ≤ n → decodeMembers n zeroToken (34 :: (ascii "access_token" ++ 34 :: 58 :: 34
        :: (appendStringLoop at1.length at1 ++ 34 :: 44 :: 34 :: (ascii "refresh_token" ++ 34 :: 58 :: 34
        :: (appendStringLoop rt.length rt ++ 34 :: 44 :: 34 :: (ascii "expiry" ++ 34 :: 58 :: 34
        :: (appendFormatRFC3339 e ++ 34 :: 125 :: [10]))))))) = some ⟨at1, [], rt, e⟩ := by
    intro n hn
    obtain ⟨k, rfl⟩ : ∃ k, n = k + 1 + 1 + 1 := ⟨n - 3, by omega⟩
    rw [decodeMembers_access_token _ _ _ _ hat1,
      decodeMembers_refresh_token _ _ _ _ hrt,
      decodeMembers_expiry _ _ _ _ h4]
    rfl
  simp only [decodeRecord]
  exact hfuel _ (by simp only [List.length_cons, List.length_append]; omega)

theorem decodeRecord_access_type_refresh_expiry (at1 tt rt : Bytes) (e : Time)
    (hat1 : utf8Valid at1 = true) (htt : utf8Valid tt = true) (hrt : utf8Valid rt = true) (h4 : validExpiry e) :
    decodeRecord (123 :: 34 :: (ascii "access_token" ++ 34 :: 58 :: 34
        :: (appendStringLoop at1.length at1 ++ 34 :: 44 :: 34 :: (ascii "token_type" ++ 34 :: 58 :: 34
        :: (appendStringLoop tt.length tt ++ 34 :: 44 :: 34 :: (ascii "refresh_token" ++ 34 :: 58 :: 34
        :: (appendStringLoop rt.length rt ++ 34 :: 44 :: 34 :: (ascii "expiry" ++ 34 :: 58 :: 34
        :: (appendFormatRFC3339 e ++ 34 :: 125 :: [10])))))))))
      = some ⟨at1, tt, rt, e⟩ := by
  have hfuel : ∀ n, 4 ≤ n → decodeMembers n zeroToken (34 :: (ascii "access_token" ++ 34 :: 58 :: 34
        :: (appendStringLoop at1.length at1 ++ 34 :: 44 :: 34 :: (ascii "token_type" ++ 34 :: 58 :: 34
        :: (appendStringLoop tt.length tt ++ 34 :: 44 :: 34 :: (ascii "refresh_token" ++ 34 :: 58 :: 34
        :: (appendStringLoop rt.length rt ++ 34 :: 44 :: 34 :: (ascii "expiry" ++ 34 :: 58 :: 34
        :: (appendFormatRFC3339 e ++ 34 :: 125 :: [10]))))))))) = some ⟨at1, tt, rt, e⟩ := by
    intro n hn
    obtain ⟨k, rfl⟩ : ∃ k, n = k + 1 + 1 + 1 + 1 := ⟨n - 4, by omega⟩
    rw [decodeMembers_access_token _ _ _ _ hat1,
      decodeMembers_token_type _ _ _ _ htt,
      decodeMembers_refresh_token _ _ _ _ hrt,
      decodeMembers_expiry _ _ _ _ h4]
  simp only [decodeRecord]
  exact hfuel _ (by simp only [List.length_cons, List.length_append]; omega)

/-- The decoder reads back the record `json.Marshal` wrote for a valid
credential, from a stream that holds the record and the newline of the
encoder. -/
theorem decodeRecord_marshalToken (t : Token) (hv : validCredential t) :
    ∃ b, marshalToken t = .ok b ∧ decodeRecord (b ++ [10]) = some t := by
  obtain ⟨at1, tt, rt, e⟩ := t
  obtain ⟨h1, h2, h3, h4⟩ := hv
  simp only at h1 h2 h3 h4
  simp only [marshalToken, timeMarshalJSON_eq e h4]
  refine ⟨_, rfl, ?_⟩
  by_cases hT : tt = []
  · by_cases hR : rt = []
    · subst hT; subst hR
      simpa [appendString] using decodeRecord_access_expiry at1 e h1 h4
    · subst hT
      simpa [appendString, hR] using decodeRecord_access_refresh_expiry at1 rt e h1 h3 h4
  · by_cases hR : rt = []
    · subst hR
      simpa [appendString, hT] using decodeRecord_access_type_expiry at1 tt e h1 h2 h4
    · simpa [appendString, hT, hR] using
        decodeRecord_access_type_refresh_expiry at1 tt rt e h1 h2 h3 h4

theorem encodingJSON_jsonWorld : encodingJSON jsonWorld := by
  refine ⟨?_, ?_⟩
  · intro t
    simp only [jsonWorld]
  · intro data t h
    simp only [jsonWorld, h]

/-- When the file can be created and written, `saveToken` returns, the file
holds the record and a newline, and `tokenFromFile` returns the token the
decoder reads from them. -/
theorem saveToken_tokenFromFile_of_decode (w : World) (path : Bytes) (t t2 : Token)
    (s : State) (b : Bytes)
    (hmarshal : w.marshal t = .ok b)
    (hdecode : w.decode (b ++ [10]) = (t2, none))
    (hcreate : w.createErr path = none)
    (hwrite : ∀ data, w.writeErr path data = none) :
    ∃ s1 s2, saveToken w path t s = .ret () s1
      ∧ s1.fs path = some (b ++ [10])
      ∧ tokenFromFile w path s1 = .ret (some t2, none) s2 := by
  have h1 : saveToken w path t s = .ret () ⟨setFile (setFile s.fs path []) path (b ++ [10]),
      s.trace ++ [.stdout ⟨"Saving credential file to: %s\n", [.str path]⟩,
        .createFile path, .writeFile path (b ++ [10])]⟩ := by
    rw [saveToken_eq, hcreate]
    simp only [hmarshal, hwrite]
  have h2 : ∀ s1 : State, s1.fs path = some (b ++ [10]) →
      tokenFromFile w path s1 = .ret (some t2, none) (s1.emit (.openFile path)) := by
    intro s1 hs
    rw [tokenFromFile_eq, hs]
    simp [hdecode]
  have h3 : (State.mk (setFile (setFile s.fs path []) path (b ++ [10]))
      (s.trace ++ [.stdout ⟨"Saving credential file to: %s\n", [.str path]⟩,
        .createFile path, .writeFile path (b ++ [10])])).fs path = some (b ++ [10]) := by
    simp [setFile]
  exact ⟨_, _, h1, h3, h2 _ h3⟩

/-- A credential that cannot be marshalled does not stop `saveToken`: the file
is created and left empty. -/
theorem saveToken_marshal_failure (w : World) (path : Bytes) (t : Token) (s : State)
    (e : GoError)
    (hcreate : w.createErr path = none)
    (hmarshal : w.marshal t = .error e) :
    ∃ s1, saveToken w path t s = .ret () s1 ∧ s1.fs path = some [] := by
  have h1 : saveToken w path t s = .ret () ⟨setFile s.fs path [],
      s.trace ++ [.stdout ⟨"Saving credential file to: %s\n", [.str path]⟩,
        .createFile path]⟩ := by
    rw [saveToken_eq, hcreate]
    simp only [hmarshal]
  exact ⟨_, h1, by simp [setFile]⟩

/-! ## The claims -/

/-- C1: in the credential bootstrap of `main`, `tokenFromFile` on `token.json`
always returns (it never ends the process). When it returns without error,
the bootstrap returns the loaded token, and the only thing that has happened
is the opening of the file: no prompt, no read of the console, no exchange,
no creation or write of the file. When it returns an error, whichever it is,
the bootstrap is the interactive exchange followed by `saveToken` on its
token, and the run goes on with the prompt and the read of the console. A
missing file and a file whose contents do not decode both give such an
error. In a run of `main` that gets to the bootstrap in state `s` and loads
a token without error, the next thing after the opening of the file is the
creation of the video-search client from that very token. -/
theorem bootstrap_prefers_cache (w : World) (ytConfig : Config) (s : State) :
    (∃ r, tokenFromFile w tokenFile s = .ret r (s.emit (.openFile tokenFile)))
    ∧ (∀ token s1, tokenFromFile w tokenFile s = .ret (token, none) s1 →
        bootstrap w ytConfig s = .ret token ⟨s.fs, s.trace ++ [.openFile tokenFile]⟩)
    ∧ (∀ token err s1, tokenFromFile w tokenFile s = .ret (token, some err) s1 →
        bootstrap w ytConfig s =
            (match getTokenFromWeb w ytConfig s1 with
              | .ret tok s2 =>
                (match saveToken w tokenFile tok s2 with
                  | .ret _ s3 => .ret (some tok) s3
                  | .fatal r s3 => .fatal r s3
                  | .panic s3 => .panic s3)
              | .fatal r s2 => .fatal r s2
              | .panic s2 => .panic s2)
          ∧ ∃ rest, (bootstrap w ytConfig s).state.trace =
              s.trace ++ [.openFile tokenFile, promptEvent w ytConfig, .scanStdin] ++ rest)
    ∧ (s.fs tokenFile = none →
        ∃ token err, tokenFromFile w tokenFile s = .ret (token, some err) (s.emit (.openFile tokenFile)))
    ∧ (∀ data err, s.fs tokenFile = some data → (w.decode data).2 = some err →
        ∃ token, tokenFromFile w tokenFile s = .ret (token, some err) (s.emit (.openFile tokenFile)))
    ∧ (∀ (s0 : State) (tracks : List TrackInfo) (token : Option Token) (s1 : State),
        w.dotenv = none →
        w.getenv (ascii "SPOTIFY_CLIENT_ID") ≠ [] →
        w.getenv (ascii "SPOTIFY_CLIENT_SECRET") ≠ [] →
        getSpotifyPlaylist w (ascii "2nSHh0BiEoRjfOAF5HXLu9") (s0.emit .dotenvLoad)
          = .ret (tracks, none) s →
        w.getenv (ascii "YOUTUBE_CREDENTIALS_JSON") ≠ [] →
        w.configFromJSON (w.getenv (ascii "YOUTUBE_CREDENTIALS_JSON")) = .ok ytConfig →
        tokenFromFile w tokenFile s = .ret (token, none) s1 →
        ∃ rest, (main w s0).state.trace
          = s.trace ++ [.openFile tokenFile, .newClient token] ++ rest) := by
  refine ⟨⟨_, tokenFromFile_eq w tokenFile s⟩, ?_, ?_, ?_, ?_, ?_⟩
  rotate_right
  · intro s0 tracks token s1 hd h1 h2 hg h3 hcfg ht
    exact main_trace_cached w s0 tracks s ytConfig token s1 hd h1 h2 hg h3 hcfg ht
  · intro token s1 h
    exact bootstrap_cached w ytConfig s token s1 h
  · intro token err s1 h
    have hb : bootstrap w ytConfig s =
        (match getTokenFromWeb w ytConfig s1 with
          | .ret tok s2 =>
            (match saveToken w tokenFile tok s2 with
              | .ret _ s3 => .ret (some tok) s3
              | .fatal r s3 => .fatal r s3
              | .panic s3 => .panic s3)
          | .fatal r s2 => .fatal r s2
          | .panic s2 => .panic s2) := by
      simp only [bootstrap, Proc.bind_apply, h, ne_eq, reduceCtorEq, not_false_eq_true, if_true,
        Proc.pure_apply]
      cases getTokenFromWeb w ytConfig s1 with
      | ret a s2 => dsimp only; cases saveToken w tokenFile a s2 <;> rfl
      | fatal r s2 => rfl
      | panic s2 => rfl
    refine ⟨hb, ?_⟩
    rw [hb]
    obtain ⟨rest, hr⟩ := exchangeThenSave_trace w ytConfig s1
    refine ⟨rest, ?_⟩
    rw [hr]
    rw [tokenFromFile_eq] at h
    injection h with _ h2
    rw [← h2]; simp
  · intro h
    exact ⟨none, .notExist tokenFile, by rw [tokenFromFile_eq, h]⟩
  · intro data err h1 h2
    exact ⟨some (w.decode data).1, by simp [tokenFromFile_eq, h1, h2]⟩

/-- C1 at a sample input: the credential file holds the record of the sample
token, which is returned after the file has been opened and nothing else. -/
theorem bootstrap_prefers_cache_witness :
    bootstrap sampleWorld ⟨[], [], []⟩ cachedState =
      .ret (some sampleToken) ⟨cachedState.fs, [.openFile tokenFile]⟩ :=
  (bootstrap_prefers_cache sampleWorld ⟨[], [], []⟩ cachedState).2.1
    (some sampleToken) (cachedState.emit (.openFile tokenFile)) (by rfl)

/-- C2: let `c` be a non-empty code made of letters, digits, `-`, `_`, `.` and
`~` (bytes of `unreservedByte`), and let the word read from the console
URL-decode to
`https://redirect.example/callback?state=state-token&code=` followed by `c`.
Then that address parses, its `code` parameter is exactly `c`, and
`getTokenFromWeb` calls the token exchange with exactly `c`: it returns the
token of the exchange, or ends the process with the error of the exchange. -/
theorem extracted_code_is_exact (w : World) (config : Config) (s : State)
    (authCode c : Bytes)
    (hne : c ≠ [])
    (hc : ∀ b ∈ c, unreservedByte b)
    (hscan : w.scan = .ok authCode)
    (hdecode : QueryUnescape authCode
      = .ok (ascii "https://redirect.example/callback?state=state-token&code=" ++ c)) :
    (∃ parsedURL,
      Parse (ascii "https://redirect.example/callback?state=state-token&code=" ++ c)
          = .ok parsedURL
        ∧ parsedURL.Query.Get (ascii "code") = c)
    ∧ getTokenFromWeb w config s =
        match w.exchange c with
        | .error err =>
          .fatal ⟨"Unable to retrieve token from web: %v", [.err err]⟩
            ⟨s.fs, s.trace ++ [promptEvent w config, .scanStdin,
              .stdout ⟨"Decoded URL: %s\n",
                [.str (ascii "https://redirect.example/callback?state=state-token&code=" ++ c)]⟩,
              .exchange c]⟩
        | .ok tok =>
          .ret tok
            ⟨s.fs, s.trace ++ [promptEvent w config, .scanStdin,
              .stdout ⟨"Decoded URL: %s\n",
                [.str (ascii "https://redirect.example/callback?state=state-token&code=" ++ c)]⟩,
              .exchange c]⟩ := by
  have hA : ∀ b ∈ ascii "state=state-token", 32 ≤ b ∧ b ≠ 127 ∧ b ≠ 35 ∧ b ≠ 63 := by decide
  have hB : ∀ b ∈ ascii "code", 32 ≤ b ∧ b ≠ 127 ∧ b ≠ 35 ∧ b ≠ 63 := by decide
  have hq : ∀ b ∈ ascii "state=state-token" ++ 38 :: (ascii "code" ++ 61 :: c),
      32 ≤ b ∧ b ≠ 127 ∧ b ≠ 35 ∧ b ≠ 63 := by
    intro b hb
    rcases List.mem_append.mp hb with m | m
    · exact hA b m
    · rcases List.mem_cons.mp m with m | m
      · subst m; decide
      · rcases List.mem_append.mp m with m | m
        · exact hB b m
        · rcases List.mem_cons.mp m with m | m
          · subst m; decide
          · have := unreservedByte_facts b (hc b m)
            omega
  have htext : ascii "https://redirect.example/callback?state=state-token&code=" ++ c
      = ascii "https" ++ 58 :: (ascii "//redirect.example/callback" ++ 63 ::
          (ascii "state=state-token" ++ 38 :: (ascii "code" ++ 61 :: c))) := by
    rw [redirect_text]; simp
  have hparse := Parse_redirect (ascii "state=state-token" ++ 38 :: (ascii "code" ++ 61 :: c))
    (by simp) (fun m => (hq 63 m).2.2.2 rfl) (fun m => (hq 35 m).2.2.1 rfl)
    (fun b hb => ⟨(hq b hb).1, (hq b hb).2.1⟩)
  rw [← htext] at hparse
  have hget := Values_Get_query c hc
  refine ⟨⟨_, hparse, hget⟩, ?_⟩
  have hget2 : (URL.mk (ascii "https") [] (ascii "redirect.example") (ascii "/callback") false
      (ascii "state=state-token" ++ 38 :: (ascii "code" ++ 61 :: c)) []).Query.Get (ascii "code")
      = c := hget
  rw [getTokenFromWeb_eq, hscan]
  simp only [hdecode, hparse, hget2, hne, if_false]

/-- C2 at a sample input: the percent-encoded form of
`https://redirect.example/callback?state=state-token&code=ABC123` is pasted,
and the exchange is called with `ABC123`. -/
theorem extracted_code_is_exact_witness :
    getTokenFromWeb encodedPaste ⟨[], [], []⟩ emptyState =
      .ret sampleToken
        ⟨emptyState.fs, [promptEvent encodedPaste ⟨[], [], []⟩, .scanStdin,
          .stdout ⟨"Decoded URL: %s\n",
            [.str (ascii "https://redirect.example/callback?state=state-token&code=ABC123")]⟩,
          .exchange (ascii "ABC123")]⟩ :=
  (extracted_code_is_exact encodedPaste ⟨[], [], []⟩ emptyState
    (ascii "https%3A%2F%2Fredirect.example%2Fcallback%3Fstate%3Dstate-token%26code%3DABC123")
    (ascii "ABC123") (by decide) (by decide) rfl (by decide)).2

/-- C3: when the word read from the console URL-decodes and parses to an
address that has no `code` parameter, `getTokenFromWeb` ends the process with
"Authorization code not found in URL". Up to then it has printed the prompt,
read the console and printed the decoded address: the token exchange has not
been called, no token is returned, and no file has been touched. -/
theorem missing_code_is_fatal (w : World) (config : Config) (s : State)
    (authCode decodedURL : Bytes) (parsedURL : URL)
    (hscan : w.scan = .ok authCode)
    (hdecode : QueryUnescape authCode = .ok decodedURL)
    (hparse : Parse decodedURL = .ok parsedURL)
    (hcode : parsedURL.Query (ascii "code") = []) :
    getTokenFromWeb w config s =
      .fatal ⟨"Authorization code not found in URL", []⟩
        ⟨s.fs, s.trace ++ [promptEvent w config, .scanStdin,
          .stdout ⟨"Decoded URL: %s\n", [.str decodedURL]⟩]⟩ := by
  have hget : parsedURL.Query.Get (ascii "code") = [] := by simp [Values.Get, hcode]
  rw [getTokenFromWeb_eq, hscan]
  simp only [hdecode, hparse, hget, if_true]

/-- C3 at a sample input: the pasted address is
`https://redirect.example/callback?state=state-token`. -/
theorem missing_code_is_fatal_witness :
    getTokenFromWeb noCodePasted ⟨[], [], []⟩ emptyState =
      .fatal ⟨"Authorization code not found in URL", []⟩
        ⟨emptyState.fs, [promptEvent noCodePasted ⟨[], [], []⟩, .scanStdin,
          .stdout ⟨"Decoded URL: %s\n",
            [.str (ascii "https://redirect.example/callback?state=state-token")]⟩]⟩ :=
  missing_code_is_fatal noCodePasted ⟨[], [], []⟩ emptyState
    (ascii "https://redirect.example/callback?state=state-token")
    (ascii "https://redirect.example/callback?state=state-token")
    ⟨ascii "https", [], ascii "redirect.example", ascii "/callback", false,
      ascii "state=state-token", []⟩
    rfl (by decide) (by decide) (by decide)

/-- C4 as amended: take a world whose JSON library is `encoding/json`, a
credential whose access token, token type and refresh token are valid UTF-8
and whose expiry is a time RFC 3339 carries (a year from 0 to 9999, a zone
offset of whole minutes and less than a day), and a path at which the file can
be created and every write goes through. Then `saveToken` returns, the file
holds exactly the record `json.Marshal` writes and a newline (whatever the
file held before), and `tokenFromFile` on the same path returns without error
a credential equal to the saved one field for field. -/
theorem saveToken_tokenFromFile_round_trip (w : World) (path : Bytes) (t : Token)
    (s : State)
    (hjson : encodingJSON w)
    (hvalid : validCredential t)
    (hcreate : w.createErr path = none)
    (hwrite : ∀ data, w.writeErr path data = none) :
    ∃ b s1 s2, marshalToken t = .ok b
      ∧ saveToken w path t s = .ret () s1
      ∧ s1.fs path = some (b ++ [10])
      ∧ tokenFromFile w path s1 = .ret (some t, none) s2 := by
  obtain ⟨b, hb, hd⟩ := decodeRecord_marshalToken t hvalid
  obtain ⟨s1, s2, h1, h2, h3⟩ := saveToken_tokenFromFile_of_decode w path t t s b
    ((hjson.1 t).trans hb) (hjson.2 _ _ hd) hcreate hwrite
  exact ⟨b, s1, s2, hb, h1, h2, h3⟩

/-- C4 as amended, at a sample input: the sample token is saved to
`token.json` in a state without files, by the JSON library of the model, and
read back. -/
theorem saveToken_tokenFromFile_round_trip_witness :
    encodingJSON jsonWorld ∧ validCredential sampleToken
      ∧ jsonWorld.createErr tokenFile = none
      ∧ (∀ data, jsonWorld.writeErr tokenFile data = none)
      ∧ ∃ b s1 s2, marshalToken sampleToken = .ok b
        ∧ saveToken jsonWorld tokenFile sampleToken emptyState = .ret () s1
        ∧ s1.fs tokenFile = some (b ++ [10])
        ∧ tokenFromFile jsonWorld tokenFile s1 = .ret (some sampleToken, none) s2 :=
  ⟨encodingJSON_jsonWorld, by decide, rfl, fun _ => rfl,
    saveToken_tokenFromFile_round_trip jsonWorld tokenFile sampleToken emptyState
      encodingJSON_jsonWorld (by decide) rfl (fun _ => rfl)⟩

/-- C4 as stated, refuted at two credentials, in a world whose JSON library is
the model of `encoding/json` and in which every file can be created and
written. An access token that is the single byte 0xFF, which is a Go string
and not UTF-8, is written as the escape of U+FFFD: `saveToken` returns,
`tokenFromFile` returns without error, and the access token it returns is the
three bytes of U+FFFD, not the byte saved. An expiry in the year 10000 is
refused by `Time.MarshalJSON`: `saveToken` returns all the same, and the file
is left empty. -/
theorem saveToken_tokenFromFile_changes_credential :
    jsonWorld.createErr tokenFile = none
      ∧ (∀ data, jsonWorld.writeErr tokenFile data = none)
      ∧ (∃ s1 s2, saveToken jsonWorld tokenFile notUTF8Token emptyState = .ret () s1
          ∧ s1.fs tokenFile = some (notUTF8Record ++ [10])
          ∧ tokenFromFile jsonWorld tokenFile s1
            = .ret (some ⟨[239, 191, 189], [], [], ⟨1, 1, 1, 0, 0, 0, 0, 0⟩⟩, none) s2
          ∧ (⟨[239, 191, 189], [], [], ⟨1, 1, 1, 0, 0, 0, 0, 0⟩⟩ : Token) ≠ notUTF8Token)
      ∧ (∃ s1, marshalToken year10000Token = .error year10000Error
          ∧ saveToken jsonWorld tokenFile year10000Token emptyState = .ret () s1
          ∧ s1.fs tokenFile = some []) := by
  refine ⟨rfl, fun _ => rfl, ?_, ?_⟩
  · obtain ⟨s1, s2, h1, h2, h3⟩ := saveToken_tokenFromFile_of_decode jsonWorld tokenFile
      notUTF8Token ⟨[239, 191, 189], [], [], ⟨1, 1, 1, 0, 0, 0, 0, 0⟩⟩ emptyState
      notUTF8Record (by decide) (by decide) rfl (fun _ => rfl)
    exact ⟨s1, s2, h1, h2, h3, by decide⟩
  · obtain ⟨s1, h1, h2⟩ := saveToken_marshal_failure jsonWorld tokenFile year10000Token
      emptyState year10000Error rfl (by decide)
    exact ⟨s1, by decide, h1, h2⟩

/-- C5, the code at a failing input: the file can be created, the credential
can be encoded, and the write fails with no byte written (a full disk). Then
`saveToken` returns without ending the process, and the file is empty: it
does not hold the record of the credential. -/
theorem saveToken_disk_full :
    (∃ s1, saveToken diskFullWorld tokenFile sampleToken emptyState = .ret () s1
      ∧ s1.fs tokenFile = some [])
    ∧ diskFullWorld.createErr tokenFile = none
    ∧ diskFullWorld.marshal sampleToken = .ok sampleRecord
    ∧ diskFullWorld.writeErr tokenFile (sampleRecord ++ [10])
        = some (0, .text (ascii "no space left on device")) :=
  ⟨saveToken_write_failure diskFullWorld tokenFile sampleToken emptyState sampleRecord 0 _
    rfl (by decide) rfl, rfl, by decide, rfl⟩

/-- C6: the search loop of `main` always returns (a failed search does not end
it), after one search per track; the download set it returns is the list, in
playlist order, of the identifiers found by the searches that succeeded. Its
length is the number of those searches, which is at most the number of
tracks. For three tracks of which the second search fails, it is the
identifiers of the first and the third, in that order. -/
theorem searchLoop_videoIds (w : World) (tracks : List TrackInfo) (s : State) :
    (∃ s1, searchLoop w 0 tracks [] s = .ret (tracks.enum.filterMap (foundId w)) s1
        ∧ (searchQueries s1.trace).length = (searchQueries s.trace).length + tracks.length)
      ∧ (tracks.enum.filterMap (foundId w)).length
          = (tracks.enum.filter (fun p => (foundId w p).isSome)).length
      ∧ (tracks.enum.filterMap (foundId w)).length ≤ tracks.length
      ∧ (∀ (t1 t2 t3 : TrackInfo) (id1 id3 : Bytes) (e : GoError),
          searchYouTubeVideoValue w 0 (t1.Name ++ ascii " " ++ t1.Artist) = (id1, none) →
          (searchYouTubeVideoValue w 1 (t2.Name ++ ascii " " ++ t2.Artist)).2 = some e →
          searchYouTubeVideoValue w 2 (t3.Name ++ ascii " " ++ t3.Artist) = (id3, none) →
          ∃ s1, searchLoop w 0 [t1, t2, t3] [] s = .ret [id1, id3] s1) := by
  refine ⟨?_, ?_, ?_, ?_⟩
  · obtain ⟨s1, h1, _, h3⟩ := searchLoop_spec w tracks 0 [] s
    refine ⟨s1, by simpa [List.enum] using h1, ?_⟩
    rw [h3]; simp
  · induction tracks.enum with
    | nil => simp
    | cons p ps ih =>
      cases hp : foundId w p <;> simp [List.filterMap_cons, List.filter_cons, hp, ih]
  · calc (tracks.enum.filterMap (foundId w)).length
        ≤ tracks.enum.length := List.length_filterMap_le _ _
      _ = tracks.length := by simp [List.enum]
  · intro t1 t2 t3 id1 id3 e h1 h2 h3
    obtain ⟨s1, hs, _, _⟩ := searchLoop_spec w [t1, t2, t3] 0 [] s
    refine ⟨s1, ?_⟩
    rw [hs]
    simp [ascii_space] at h1 h2 h3
    simp [List.enumFrom_cons, foundId, h1, h2, h3]

/-- C6 at a sample input: three tracks, the second search fails. -/
theorem searchLoop_videoIds_witness :
    ∃ s1, searchLoop secondSearchFails 0
        [⟨ascii "Imagine", ascii "John Lennon"⟩, ⟨ascii "Heroes", ascii "David Bowie"⟩,
          ⟨ascii "Hurt", ascii "Johnny Cash"⟩] [] emptyState
      = .ret [ascii "Imagine John Lennon", ascii "Hurt Johnny Cash"] s1 :=
  (searchLoop_videoIds secondSearchFails [] emptyState).2.2.2
    ⟨ascii "Imagine", ascii "John Lennon"⟩ ⟨ascii "Heroes", ascii "David Bowie"⟩
    ⟨ascii "Hurt", ascii "Johnny Cash"⟩ (ascii "Imagine John Lennon") (ascii "Hurt Johnny Cash")
    (.text (ascii "quotaExceeded")) (by decide) (by decide) (by decide)

/-- C7: when every run of the downloader succeeds, the download part of `main`
runs `youtube-dl` once per identifier, in order, each time with the single
argument `https://www.youtube.com/watch?v=` followed by the identifier, then
prints the closing message and returns. When the run for `id` is the first
that fails, after the identifiers `pre` and before `post`, the downloader has
been run for `pre` and `id` only, once each and in order, the process ends
with "Failed to download video" carrying the error and the captured output
of that run, and the closing message is not printed. -/
theorem download_stops_at_first_failure (w : World) (s : State) :
    (∀ ids : List Bytes,
      (∀ p ∈ ids.enum,
        (w.download p.1 (ascii "https://www.youtube.com/watch?v=" ++ p.2)).2 = none) →
      downloadAll w ids s =
        .ret () ⟨s.fs, s.trace
          ++ ids.map (fun id =>
              .exec (ascii "youtube-dl") [ascii "https://www.youtube.com/watch?v=" ++ id])
          ++ [.stdout ⟨"YouTube playlist created successfully!\n", []⟩]⟩)
    ∧ (∀ (pre : List Bytes) (id : Bytes) (post : List Bytes) (e : GoError),
      (∀ p ∈ pre.enum,
        (w.download p.1 (ascii "https://www.youtube.com/watch?v=" ++ p.2)).2 = none) →
      (w.download pre.length (ascii "https://www.youtube.com/watch?v=" ++ id)).2 = some e →
      downloadAll w (pre ++ id :: post) s =
        .fatal ⟨"Failed to download video: %v\n%s",
            [.err e,
              .str (w.download pre.length (ascii "https://www.youtube.com/watch?v=" ++ id)).1]⟩
          ⟨s.fs, s.trace ++ (pre ++ [id]).map (fun id =>
              .exec (ascii "youtube-dl") [ascii "https://www.youtube.com/watch?v=" ++ id])⟩) := by
  constructor
  · intro ids h
    have := downloadLoop_ok w ids 0 s h
    simp only [videoURLOf] at this
    simp [downloadAll, this, fmtPrintf, State.emit]
  · intro pre id post e h hf
    have := downloadLoop_fail w pre id post e 0 s h (by simpa using hf)
    simp only [videoURLOf, Nat.zero_add] at this
    simp [downloadAll, this]

/-- C7 at a sample input: two identifiers, the first run fails, the second is
never run. -/
theorem download_stops_at_first_failure_witness :
    downloadAll firstDownloadFails [ascii "idOne", ascii "idTwo"] emptyState =
      .fatal ⟨"Failed to download video: %v\n%s",
          [.err (.text (ascii "exit status 1")), .str (ascii "ERROR: unable to download")]⟩
        ⟨emptyState.fs,
          [.exec (ascii "youtube-dl") [ascii "https://www.youtube.com/watch?v=idOne"]]⟩ :=
  (download_stops_at_first_failure firstDownloadFails emptyState).2
    [] (ascii "idOne") [ascii "idTwo"] (.text (ascii "exit status 1")) (by simp) rfl

/-- C8: the search loop of `main` issues one query per track, in playlist
order, each the title of the track, one space, and the artist of the track.
A whole run of `main` issues either no query or exactly those queries for the
tracks `getSpotifyPlaylist` returned. For the track "Imagine" by
"John Lennon" the query is "Imagine John Lennon". -/
theorem search_queries_in_order (w : World) (tracks : List TrackInfo) (s : State) :
    searchQueries (searchLoop w 0 tracks [] s).state.trace
        = searchQueries s.trace ++ tracks.map (fun t => t.Name ++ ascii " " ++ t.Artist)
      ∧ (searchQueries (main w s).state.trace = searchQueries s.trace
        ∨ ∃ fetched s1,
            getSpotifyPlaylist w (ascii "2nSHh0BiEoRjfOAF5HXLu9") (s.emit .dotenvLoad)
              = .ret (fetched, none) s1
            ∧ searchQueries (main w s).state.trace
              = searchQueries s.trace
                ++ fetched.map (fun t => t.Name ++ ascii " " ++ t.Artist))
      ∧ queryOf ⟨ascii "Imagine", ascii "John Lennon"⟩ = ascii "Imagine John Lennon" := by
  obtain ⟨s1, h1, _, h3⟩ := searchLoop_spec w tracks 0 [] s
  refine ⟨?_, ?_, by decide⟩
  · rw [h1]
    simpa [Result.state, ascii_space] using h3
  · simpa only [ascii_space] using main_searchQueries w s

/-- C9 as amended: when `SPOTIFY_CLIENT_ID`, `SPOTIFY_CLIENT_SECRET` or
`YOUTUBE_CREDENTIALS_JSON` is missing or empty, `main` does not return, no
file is changed, and all that has happened is the loading of `.env`,
followed at most by the playlist fetch: the credential file is not opened,
nothing is searched, nothing is downloaded. When a Spotify value is missing,
the process ends with a fatal message right after the loading of `.env`,
before the playlist fetch. When only `YOUTUBE_CREDENTIALS_JSON` is missing and
the fetch returns the tracks, the process ends with
"Missing YOUTUBE_CREDENTIALS_JSON environment variable" after the fetch. -/
theorem main_missing_config (w : World) (s : State)
    (hmissing : w.getenv (ascii "SPOTIFY_CLIENT_ID") = []
      ∨ w.getenv (ascii "SPOTIFY_CLIENT_SECRET") = []
      ∨ w.getenv (ascii "YOUTUBE_CREDENTIALS_JSON") = []) :
    (∀ s1, main w s ≠ .ret () s1)
    ∧ (main w s).state.fs = s.fs
    ∧ ((main w s).state.trace = s.trace ++ [.dotenvLoad]
      ∨ (main w s).state.trace
          = s.trace ++ [.dotenvLoad, .getPlaylist (ascii "2nSHh0BiEoRjfOAF5HXLu9")])
    ∧ (w.getenv (ascii "SPOTIFY_CLIENT_ID") = [] ∨ w.getenv (ascii "SPOTIFY_CLIENT_SECRET") = [] →
        ∃ r, main w s = .fatal r ⟨s.fs, s.trace ++ [.dotenvLoad]⟩)
    ∧ (∀ tracks s1, w.dotenv = none →
        w.getenv (ascii "SPOTIFY_CLIENT_ID") ≠ [] → w.getenv (ascii "SPOTIFY_CLIENT_SECRET") ≠ [] →
        getSpotifyPlaylist w (ascii "2nSHh0BiEoRjfOAF5HXLu9") (s.emit .dotenvLoad)
          = .ret (tracks, none) s1 →
        main w s = .fatal ⟨"Missing YOUTUBE_CREDENTIALS_JSON environment variable", []⟩
          ⟨s.fs, s.trace ++ [.dotenvLoad, .getPlaylist (ascii "2nSHh0BiEoRjfOAF5HXLu9")]⟩) := by
  have hsp : ∀ (_ : w.getenv (ascii "SPOTIFY_CLIENT_ID") = []
      ∨ w.getenv (ascii "SPOTIFY_CLIENT_SECRET") = []),
      ∃ r, main w s = .fatal r ⟨s.fs, s.trace ++ [.dotenvLoad]⟩ := by
    intro h
    rw [main_eq_of_missing_spotify w s h]
    split
    · exact ⟨_, rfl⟩
    · exact ⟨_, rfl⟩
  have hyt : ∀ (_ : w.getenv (ascii "YOUTUBE_CREDENTIALS_JSON") = []),
      (∀ s1, main w s ≠ .ret () s1) ∧ (main w s).state.fs = s.fs
      ∧ ((main w s).state.trace = s.trace ++ [.dotenvLoad]
        ∨ (main w s).state.trace
            = s.trace ++ [.dotenvLoad, .getPlaylist (ascii "2nSHh0BiEoRjfOAF5HXLu9")]) := by
    intro h
    rw [main_eq_of_missing_youtube w s h]
    split
    · exact ⟨by simp, rfl, Or.inl rfl⟩
    · split
      · exact ⟨by simp, rfl, Or.inl rfl⟩
      · have hst := getSpotifyPlaylist_state w (ascii "2nSHh0BiEoRjfOAF5HXLu9") (s.emit .dotenvLoad)
        split
        · rename_i hg
          rw [hg] at hst
          simp only [Result.state] at hst
          subst hst
          exact ⟨by simp, rfl, Or.inr (by simp [Result.state])⟩
        · rename_i hg
          rw [hg] at hst
          simp only [Result.state] at hst
          subst hst
          exact ⟨by simp, rfl, Or.inr (by simp [Result.state])⟩
        · rename_i hg
          exact absurd hg (getSpotifyPlaylist_not_fatal _ _ _ _ _)
        · rename_i hg
          rw [hg] at hst
          simp only [Result.state] at hst
          subst hst
          exact ⟨by simp, rfl, Or.inr (by simp [Result.state])⟩
  refine ⟨?_, ?_, ?_, hsp, ?_⟩
  · rcases hmissing with h | h | h
    · obtain ⟨r, hr⟩ := hsp (Or.inl h); rw [hr]; simp
    · obtain ⟨r, hr⟩ := hsp (Or.inr h); rw [hr]; simp
    · exact (hyt h).1
  · rcases hmissing with h | h | h
    · obtain ⟨r, hr⟩ := hsp (Or.inl h); rw [hr]; rfl
    · obtain ⟨r, hr⟩ := hsp (Or.inr h); rw [hr]; rfl
    · exact (hyt h).2.1
  · rcases hmissing with h | h | h
    · obtain ⟨r, hr⟩ := hsp (Or.inl h); rw [hr]; exact Or.inl rfl
    · obtain ⟨r, hr⟩ := hsp (Or.inr h); rw [hr]; exact Or.inl rfl
    · exact (hyt h).2.2
  · intro tracks s1 hd h1 h2 hg
    rcases hmissing with h | h | h
    · exact absurd h h1
    · exact absurd h h2
    · have hst := getSpotifyPlaylist_state w (ascii "2nSHh0BiEoRjfOAF5HXLu9") (s.emit .dotenvLoad)
      rw [hg] at hst
      simp only [Result.state] at hst
      rw [main_eq_of_missing_youtube w s h]
      simp only [hd, h1, h2, hg, hst, ne_eq, not_true_eq_false, if_false, or_self]
      simp [State.emit]

/-- C9 as amended, at a sample input: only `YOUTUBE_CREDENTIALS_JSON` is
missing. -/
theorem main_missing_config_witness :
    main noYouTubeCredentials emptyState =
      .fatal ⟨"Missing YOUTUBE_CREDENTIALS_JSON environment variable", []⟩
        ⟨emptyState.fs, [.dotenvLoad, .getPlaylist (ascii "2nSHh0BiEoRjfOAF5HXLu9")]⟩ :=
  (main_missing_config noYouTubeCredentials emptyState (Or.inr (Or.inr (by decide)))).2.2.2.2
    _ _ rfl (by decide) (by decide) rfl

/-- C9 as stated fails: with `YOUTUBE_CREDENTIALS_JSON` missing and the Spotify
values set, the run of `main` contains the playlist fetch. -/
theorem playlist_fetched_before_youtube_check :
    noYouTubeCredentials.getenv (ascii "YOUTUBE_CREDENTIALS_JSON") = []
      ∧ Event.getPlaylist (ascii "2nSHh0BiEoRjfOAF5HXLu9")
          ∈ (main noYouTubeCredentials emptyState).state.trace := by
  decide

/-- C10: when the fetch of the playlist succeeds and every entry has at least
one artist, `getSpotifyPlaylist` returns without error one `TrackInfo` per
entry, in playlist order, with the name of the track and the name of its
first artist. When some entry has no artist, indexing `Artists[0]` fails
and the function panics. -/
theorem getSpotifyPlaylist_tracks (w : World) (playlistID : Bytes) (s : State)
    (playlist : List PlaylistTrack) (hfetch : w.getPlaylist playlistID = .ok playlist) :
    ((∀ item ∈ playlist, item.Track.Artists ≠ []) →
      getSpotifyPlaylist w playlistID s =
        .ret (playlist.map (fun item =>
            ⟨item.Track.Name, (item.Track.Artists.map (·.Name)).headD []⟩), none)
          (s.emit (.getPlaylist playlistID)))
    ∧ ((∃ item ∈ playlist, item.Track.Artists = []) →
      getSpotifyPlaylist w playlistID s = .panic (s.emit (.getPlaylist playlistID))) := by
  constructor
  · intro h
    simp [getSpotifyPlaylist, hfetch, collectTracks_eq playlist [] h]
  · intro h
    simp [getSpotifyPlaylist, hfetch, collectTracks_none playlist [] h]

/-- C10 at a sample input: the two entries of the sample playlist. -/
theorem getSpotifyPlaylist_tracks_witness :
    getSpotifyPlaylist sampleWorld (ascii "2nSHh0BiEoRjfOAF5HXLu9") emptyState =
      .ret ([⟨ascii "Imagine", ascii "John Lennon"⟩, ⟨ascii "Heroes", ascii "David Bowie"⟩], none)
        ⟨emptyState.fs, [.getPlaylist (ascii "2nSHh0BiEoRjfOAF5HXLu9")]⟩ :=
  (getSpotifyPlaylist_tracks sampleWorld (ascii "2nSHh0BiEoRjfOAF5HXLu9") emptyState _ rfl).1
    (by decide)

end PlaylistDL
